import Mathlib

/-!
# Pipeline cache simulator (`iplc-sim.c`)

A shallow embedding of the cache model and of the five-stage pipeline model of
`iplc-sim.c`, followed by theorems about them.

Conventions of the embedding.

* The C globals are the fields of `State`; every C function that reads or
  writes globals takes a `State` and returns the new one.
* `unsigned int` values are naturals, reduced modulo `2^32` where the C code
  does arithmetic on them.  The `long` cache counters are naturals.
* `int` register numbers and tags are integers.
* A C array is a function from the index to the element; a store is `store`.
* A `for` loop is a structurally recursive function on the number of
  iterations that remain.
* `printf` output is not modelled.
-/

namespace IplcSim

/-! ## Constants and data model -/

def MAX_CACHE_SIZE : Nat := 10240

def CACHE_MISS_DELAY : Nat := 10

def MAX_STAGES : Nat := 5

/-- One way of a line: `struct assoc_set`. -/
structure set_t where
  valid : Int
  tag : Int
deriving DecidableEq, Repr

/-- One line: `struct cache_line`, the two arrays `sets` and `replacements`. -/
structure cache_line_t where
  sets : Nat → set_t
  replacements : Nat → Nat

/-- Array store `a[i] = v`. -/
def store {α : Type} (a : Nat → α) (i : Nat) (v : α) : Nat → α :=
  fun k => if k = i then v else a k

inductive instruction_type where
  | NOP | RTYPE | LW | SW | BRANCH | JUMP | JAL | SYSCALL
deriving DecidableEq, Repr

/-- Payload `struct rtype`; the `char instruction[16]` buffer is the list of
characters before the terminating NUL. -/
structure rtype_t where
  instruction : List Char
  reg1 : Int
  reg2_or_constant : Int
  dest_reg : Int
deriving DecidableEq, Repr

structure lw_t where
  data_address : Nat
  dest_reg : Int
  base_reg : Int
deriving DecidableEq, Repr

structure sw_t where
  data_address : Nat
  src_reg : Int
  base_reg : Int
deriving DecidableEq, Repr

structure branch_t where
  reg1 : Int
  reg2 : Int
deriving DecidableEq, Repr

structure jump_t where
  instruction : List Char
deriving DecidableEq, Repr

/-- The members of the C union `stage`, kept side by side.  The C code reads a
member only under the matching `itype` test, and writes one only into a slot
that was just zeroed, so the overlay of the members is never observed. -/
structure stage_t where
  rtype : rtype_t
  lw : lw_t
  sw : sw_t
  branch : branch_t
  jump : jump_t
deriving DecidableEq, Repr

/-- One pipeline slot: `struct pipeline`. -/
structure pipeline_t where
  itype : instruction_type
  instruction_address : Nat
  stage : stage_t
deriving DecidableEq, Repr

/-- The array `pipeline[MAX_STAGES]`, one field per `enum pipeline_stages`. -/
structure pipeline_stages where
  FETCH : pipeline_t
  DECODE : pipeline_t
  ALU : pipeline_t
  MEM : pipeline_t
  WRITEBACK : pipeline_t
deriving DecidableEq, Repr

/-- The global variables of the program. -/
structure State where
  cache : Nat → cache_line_t
  cache_index : Nat
  cache_blocksize : Nat
  cache_blockoffsetbits : Nat
  cache_assoc : Nat
  cache_miss : Nat
  cache_access : Nat
  cache_hit : Nat
  instruction_address : Nat
  pipeline_cycles : Nat
  instruction_count : Nat
  branch_predict_taken : Nat
  branch_count : Nat
  correct_branch_predictions : Nat
  pipeline : pipeline_stages

/-- Result of `bzero(&pipeline[i], sizeof(pipeline_t))`: kind `NOP` (value 0),
address 0, every payload byte 0. -/
def bzero_slot : pipeline_t :=
  { itype := instruction_type.NOP
    instruction_address := 0
    stage :=
      { rtype := { instruction := [], reg1 := 0, reg2_or_constant := 0, dest_reg := 0 }
        lw := { data_address := 0, dest_reg := 0, base_reg := 0 }
        sw := { data_address := 0, src_reg := 0, base_reg := 0 }
        branch := { reg1 := 0, reg2 := 0 }
        jump := { instruction := [] } } }

/-- Conversion `unsigned int → int` (two's complement). -/
def int_of_uint (n : Nat) : Int :=
  if n % 2 ^ 32 < 2 ^ 31 then ((n % 2 ^ 32 : Nat) : Int)
  else ((n % 2 ^ 32 : Nat) : Int) - 2 ^ 32

/-- Reduction of an integer to the range of `int` (32 bits, two's complement). -/
def wrap_int (x : Int) : Int :=
  (x + 2 ^ 31) % 2 ^ 32 - 2 ^ 31

/-- Conversion `int → unsigned long` (64 bits). -/
def ulong_of_int (x : Int) : Nat :=
  (x % 2 ^ 64).toNat

/-- Increment of an `unsigned int` by `k`. -/
def uadd32 (a k : Nat) : Nat :=
  (a + k) % 2 ^ 32

/-- Difference `a - b` of two `unsigned int`. -/
def usub32 (a b : Nat) : Nat :=
  (a % 2 ^ 32 + (2 ^ 32 - b % 2 ^ 32)) % 2 ^ 32

/-! ## Cache functions -/

/-- The shift loop of `iplc_sim_LRU_replace_on_miss`:
`for (; i < cache_assoc - 1; i++) { sets[i] = sets[i+1]; replacements[i] = replacements[i+1]; }`
with `n` iterations left, at counter `i`. -/
def replace_shift : Nat → Nat → cache_line_t → cache_line_t
  | 0, _, line => line
  | n + 1, i, line =>
    replace_shift n (i + 1)
      { sets := store line.sets i (line.sets (i + 1))
        replacements := store line.replacements i (line.replacements (i + 1)) }

/-- Line-level effect of `iplc_sim_LRU_replace_on_miss`.  The index
`cache_assoc - 1` is taken in the naturals; for `cache_assoc = 0` the C code
writes in front of the arrays, which the embedding does not follow. -/
def replace_line (assoc : Nat) (tag : Int) (line : cache_line_t) : cache_line_t :=
  let l1 := replace_shift (assoc - 1) 0 line
  let l2 : cache_line_t := { l1 with sets := store l1.sets (assoc - 1) { l1.sets (assoc - 1) with valid := 1 } }
  let l3 : cache_line_t := { l2 with sets := store l2.sets (assoc - 1) { l2.sets (assoc - 1) with tag := tag } }
  { l3 with replacements := store l3.replacements (assoc - 1) 0 }

def iplc_sim_LRU_replace_on_miss (s : State) (index : Nat) (tag : Int) : State :=
  { s with cache := store s.cache index (replace_line s.cache_assoc tag (s.cache index)) }

/-- The loop of `iplc_sim_LRU_update_on_hit`:
`for (i = assoc_entry; i > 0; i--) replacements[i] = replacements[i-1];`. -/
def hit_shift : Nat → (Nat → Nat) → (Nat → Nat)
  | 0, r => r
  | i + 1, r => hit_shift i (store r (i + 1) (r i))

/-- Line-level effect of `iplc_sim_LRU_update_on_hit`. -/
def update_line (assoc_entry : Nat) (line : cache_line_t) : cache_line_t :=
  let r := hit_shift assoc_entry line.replacements
  { line with replacements := store r 0 (r assoc_entry) }

def iplc_sim_LRU_update_on_hit (s : State) (index : Nat) (assoc_entry : Nat) : State :=
  { s with cache := store s.cache index (update_line assoc_entry (s.cache index)) }

/-- The scan of `iplc_sim_trap_address`:
`for (; i < cache_assoc; i++) if (cache[index].sets[i].tag == tag) ...`,
with `n` iterations left at counter `i`; the way that matched, if any. -/
def trap_scan (line : cache_line_t) (tag : Int) : Nat → Nat → Option Nat
  | 0, _ => none
  | n + 1, i => if (line.sets i).tag = tag then some i else trap_scan line tag n (i + 1)

/-- Index computed by `iplc_sim_trap_address`. -/
def addr_index (s : State) (address : Nat) : Nat :=
  (address >>> s.cache_blockoffsetbits) &&& ((1 <<< s.cache_index) - 1)

/-- Tag computed by `iplc_sim_trap_address`. -/
def addr_tag (s : State) (address : Nat) : Int :=
  int_of_uint (address >>> (s.cache_index + s.cache_blockoffsetbits))

/-- The probe: new state and return value (1 hit, 0 miss). -/
def iplc_sim_trap_address (s : State) (address : Nat) : State × Int :=
  let s1 : State := { s with cache_access := s.cache_access + 1 }
  let index := addr_index s1 address
  let tag := addr_tag s1 address
  match trap_scan (s1.cache index) tag s1.cache_assoc 0 with
  | some i =>
    let s2 := iplc_sim_LRU_update_on_hit s1 index i
    ({ s2 with cache_hit := s2.cache_hit + 1 }, 1)
  | none =>
    let s2 := iplc_sim_LRU_replace_on_miss s1 index tag
    ({ s2 with cache_miss := s2.cache_miss + 1 }, 0)

/-- Number of halvings that bring `n` below 2, in at most `fuel` steps. -/
def halvings : Nat → Nat → Nat
  | 0, _ => 0
  | fuel + 1, n => if 2 ≤ n then halvings fuel (n / 2) + 1 else 0

/-- Integer part of the base-2 logarithm (0 for 0). -/
def floor_log2 (n : Nat) : Nat :=
  halvings n n

/-- Value of `cache_blockoffsetbits = (int) rint(log((double)(blocksize * 4)) / log(2))`:
the integer nearest to the base-2 logarithm of `4 * blocksize`, which is the `k`
with `2^(2k-1) ≤ (4 * blocksize)^2 < 2^(2k+1)`.  Floating-point rounding error is
not modelled, and for `blocksize ≤ 0` (where the C conversion is undefined) the
value is 0. -/
def blockoffsetbits_of (blocksize : Int) : Int :=
  (((floor_log2 ((wrap_int (blocksize * 4)).toNat ^ 2) + 1) / 2 : Nat) : Int)

/-- The value of `cache_size` in `iplc_sim_init`:
`assoc * (1 << index) * ((32 * blocksize) + 33 - index - cache_blockoffsetbits)`
computed in `int` and converted to `unsigned long`. -/
def cache_size_of (index blocksize assoc : Int) : Nat :=
  ulong_of_int
    (wrap_int
      (wrap_int (assoc * wrap_int (1 <<< index.toNat))
        * wrap_int (wrap_int (wrap_int (wrap_int (32 * blocksize) + 33) - index)
            - blockoffsetbits_of blocksize)))

/-- The inner loop of `iplc_sim_init`, `for (; j < assoc; j++) { ... }`, with
`n` iterations left at counter `j`. -/
def init_ways : Nat → Nat → cache_line_t → cache_line_t
  | 0, _, line => line
  | n + 1, j, line =>
    let l1 : cache_line_t := { line with sets := store line.sets j { line.sets j with valid := 0 } }
    let l2 : cache_line_t := { l1 with sets := store l1.sets j { l1.sets j with tag := 0 } }
    init_ways n (j + 1) { l2 with replacements := store l2.replacements j j }

/-- The outer loop of `iplc_sim_init`, `for (; i < (1<<index); i++) { ... }`, with
`n` iterations left at counters `i` and `j`.  The counter `j` is declared once
at the top of the function and is not reset between lines, so the inner loop
runs `assoc - j` times and leaves `j` at `j + (assoc - j)`.  The storage handed
out by `malloc` for line `i` is what `cache i` holds at that point. -/
def init_lines (assoc : Nat) : Nat → Nat → Nat → (Nat → cache_line_t) → (Nat → cache_line_t)
  | 0, _, _, cache => cache
  | n + 1, i, j, cache =>
    init_lines assoc n (i + 1) (j + (assoc - j))
      (store cache i (init_ways (assoc - j) j (cache i)))

/-- The function `iplc_sim_init`.  `heap` is the (indeterminate) content of the
storage that `malloc` returns for the lines.  The result is `none` when the
function calls `exit(-1)`.  An accepted configuration is stored in naturals
(`toNat`): the C computation has no defined behaviour for a negative `index`
or `blocksize`, and a negative `assoc` does not pass the size test unless the
`int` arithmetic overflows. -/
def iplc_sim_init (g : State) (heap : Nat → cache_line_t) (index blocksize assoc : Int) :
    Option State :=
  let cache_size := cache_size_of index blocksize assoc
  if cache_size > MAX_CACHE_SIZE then none
  else
    some
      { g with
        cache_index := index.toNat
        cache_blocksize := blocksize.toNat
        cache_assoc := assoc.toNat
        cache_blockoffsetbits := (blockoffsetbits_of blocksize).toNat
        cache := init_lines assoc.toNat (1 <<< index.toNat) 0 0 heap
        pipeline :=
          { FETCH := bzero_slot, DECODE := bzero_slot, ALU := bzero_slot,
            MEM := bzero_slot, WRITEBACK := bzero_slot } }

/-- The globals as `main` leaves them just before it calls `iplc_sim_init`: the
static initial values, and the prediction policy read from the user. -/
def globals (branch_predict_taken : Nat) : State :=
  { cache := fun _ => { sets := fun _ => { valid := 0, tag := 0 }, replacements := fun _ => 0 }
    cache_index := 0
    cache_blocksize := 0
    cache_blockoffsetbits := 0
    cache_assoc := 0
    cache_miss := 0
    cache_access := 0
    cache_hit := 0
    instruction_address := 0
    pipeline_cycles := 0
    instruction_count := 0
    branch_predict_taken := branch_predict_taken
    branch_count := 0
    correct_branch_predictions := 0
    pipeline :=
      { FETCH := bzero_slot, DECODE := bzero_slot, ALU := bzero_slot,
        MEM := bzero_slot, WRITEBACK := bzero_slot } }

/-! ## Pipeline functions -/

open instruction_type

/-- Step 1 of `iplc_sim_push_pipeline_stage`: count the instruction in WRITEBACK. -/
def push_retire (s : State) : State :=
  if s.pipeline.WRITEBACK.instruction_address ≠ 0 then
    { s with instruction_count := uadd32 s.instruction_count 1 }
  else s

/-- Step 2 of `iplc_sim_push_pipeline_stage`: branch and branch prediction. -/
def push_branch (s : State) : State :=
  if s.pipeline.DECODE.itype = BRANCH then
    let s1 : State := { s with branch_count := uadd32 s.branch_count 1 }
    let branch_taken : Nat :=
      if s1.pipeline.FETCH.instruction_address ≠ 0 ∧
          usub32 s1.pipeline.FETCH.instruction_address s1.pipeline.DECODE.instruction_address ≠ 4
      then 1 else 0
    if s1.pipeline.FETCH.instruction_address ≠ 0 ∧ branch_taken ≠ s1.branch_predict_taken then
      let s2 : State := { s1 with pipeline_cycles := uadd32 s1.pipeline_cycles 1 }
      let s3 : State := { s2 with pipeline := { s2.pipeline with WRITEBACK := s2.pipeline.MEM } }
      let s4 : State := { s3 with pipeline := { s3.pipeline with MEM := s3.pipeline.ALU } }
      let s5 : State := { s4 with pipeline := { s4.pipeline with ALU := s4.pipeline.DECODE } }
      let s6 : State :=
        if s5.pipeline.WRITEBACK.instruction_address ≠ 0 then
          { s5 with instruction_count := uadd32 s5.instruction_count 1 }
        else s5
      { s6 with pipeline := { s6.pipeline with DECODE := bzero_slot } }
    else if s1.pipeline.FETCH.instruction_address ≠ 0 then
      { s1 with correct_branch_predictions := uadd32 s1.correct_branch_predictions 1 }
    else s1
  else s

/-- The test `instruction[strlen(instruction) - 1] != 'i'` on a slot.  For a
non-empty mnemonic the byte tested is its last character.  For an empty
mnemonic the index is `-1` and the byte read is the one in front of the buffer:
`struct pipeline` holds `itype` (4 bytes), `instruction_address` (4 bytes) and
then the union whose first member bytes are `rtype.instruction`, so with the
least significant byte stored first the byte read is the most significant byte
of the slot's `instruction_address`; `'i'` is the byte 105 = 0x69. -/
def last_char_not_i (instruction_address : Nat) (instruction : List Char) : Bool :=
  match instruction.getLast? with
  | some c => c != 'i'
  | none => (instruction_address / 2 ^ 24) % 256 != 105

/-- The hazard test of step 3 between the R-type in ALU and the load in MEM. -/
def load_use (alu mem : pipeline_t) : Bool :=
  (alu.stage.rtype.reg1 == mem.stage.lw.dest_reg) ||
    ((alu.stage.rtype.reg2_or_constant == mem.stage.lw.dest_reg) &&
      last_char_not_i alu.instruction_address alu.stage.rtype.instruction)

/-- Step 3 of `iplc_sim_push_pipeline_stage`: load in MEM, data probe, load-use stall. -/
def push_lw (s : State) : State :=
  if s.pipeline.MEM.itype = LW then
    let r := iplc_sim_trap_address s s.pipeline.MEM.stage.lw.data_address
    let data_hit := r.2
    let s1 : State :=
      if data_hit ≠ 0 then r.1
      else { r.1 with pipeline_cycles := uadd32 r.1.pipeline_cycles (CACHE_MISS_DELAY - 1) }
    let q : State × Nat :=
      if s1.pipeline.ALU.itype = RTYPE then
        if load_use s1.pipeline.ALU s1.pipeline.MEM then
          let s2 : State := { s1 with pipeline_cycles := uadd32 s1.pipeline_cycles 1 }
          let s3 : State := { s2 with pipeline := { s2.pipeline with WRITEBACK := s2.pipeline.MEM } }
          let s4 : State := { s3 with pipeline := { s3.pipeline with MEM := bzero_slot } }
          let s5 : State :=
            if s4.pipeline.WRITEBACK.instruction_address ≠ 0 then
              { s4 with instruction_count := uadd32 s4.instruction_count 1 }
            else s4
          (s5, 1)
        else (s1, 0)
      else (s1, 0)
    let inserted_nop := q.2
    if data_hit = 0 ∧ inserted_nop ≠ 0 then
      { q.1 with pipeline_cycles := usub32 q.1.pipeline_cycles 1 }
    else q.1
  else s

/-- Step 4 of `iplc_sim_push_pipeline_stage`: store in MEM, data probe. -/
def push_sw (s : State) : State :=
  if s.pipeline.MEM.itype = SW then
    let r := iplc_sim_trap_address s s.pipeline.MEM.stage.sw.data_address
    if r.2 ≠ 0 then r.1
    else { r.1 with pipeline_cycles := uadd32 r.1.pipeline_cycles (CACHE_MISS_DELAY - 1) }
  else s

/-- Steps 5 to 7 of `iplc_sim_push_pipeline_stage`: the base cycle, the shift
MEM→WB, ALU→MEM, DECODE→ALU, FETCH→DECODE, and the reset of FETCH. -/
def push_shift (s : State) : State :=
  let s1 : State := { s with pipeline_cycles := uadd32 s.pipeline_cycles 1 }
  let s2 : State := { s1 with pipeline := { s1.pipeline with WRITEBACK := s1.pipeline.MEM } }
  let s3 : State := { s2 with pipeline := { s2.pipeline with MEM := s2.pipeline.ALU } }
  let s4 : State := { s3 with pipeline := { s3.pipeline with ALU := s3.pipeline.DECODE } }
  let s5 : State := { s4 with pipeline := { s4.pipeline with DECODE := s4.pipeline.FETCH } }
  { s5 with pipeline := { s5.pipeline with FETCH := bzero_slot } }

/-- The function `iplc_sim_push_pipeline_stage` (the operation advance). -/
def iplc_sim_push_pipeline_stage (s : State) : State :=
  push_shift (push_sw (push_lw (push_branch (push_retire s))))

/-- Write of the FETCH slot shared by the dispatch functions. -/
def set_fetch (s : State) (f : pipeline_t) : State :=
  { s with pipeline := { s.pipeline with FETCH := f } }

def iplc_sim_process_pipeline_rtype (s : State) (instruction : List Char)
    (dest_reg reg1 reg2_or_constant : Int) : State :=
  let s1 := iplc_sim_push_pipeline_stage s
  let f := s1.pipeline.FETCH
  set_fetch s1
    { f with
      itype := RTYPE
      instruction_address := s1.instruction_address
      stage := { f.stage with
        rtype := { instruction := instruction, reg1 := reg1,
                   reg2_or_constant := reg2_or_constant, dest_reg := dest_reg } } }

def iplc_sim_process_pipeline_lw (s : State) (dest_reg base_reg : Int) (data_address : Nat) :
    State :=
  let s1 := iplc_sim_push_pipeline_stage s
  let f := s1.pipeline.FETCH
  set_fetch s1
    { f with
      itype := LW
      instruction_address := s1.instruction_address
      stage := { f.stage with
        lw := { data_address := data_address, dest_reg := dest_reg, base_reg := base_reg } } }

def iplc_sim_process_pipeline_sw (s : State) (src_reg base_reg : Int) (data_address : Nat) :
    State :=
  let s1 := iplc_sim_push_pipeline_stage s
  let f := s1.pipeline.FETCH
  set_fetch s1
    { f with
      itype := SW
      instruction_address := s1.instruction_address
      stage := { f.stage with
        sw := { data_address := data_address, src_reg := src_reg, base_reg := base_reg } } }

def iplc_sim_process_pipeline_branch (s : State) (reg1 reg2 : Int) : State :=
  let s1 := iplc_sim_push_pipeline_stage s
  let f := s1.pipeline.FETCH
  set_fetch s1
    { f with
      itype := BRANCH
      instruction_address := s1.instruction_address
      stage := { f.stage with branch := { reg1 := reg1, reg2 := reg2 } } }

def iplc_sim_process_pipeline_jump (s : State) (instruction : List Char) : State :=
  let s1 := iplc_sim_push_pipeline_stage s
  let f := s1.pipeline.FETCH
  set_fetch s1
    { f with
      itype := JUMP
      instruction_address := s1.instruction_address
      stage := { f.stage with jump := { instruction := instruction } } }

def iplc_sim_process_pipeline_syscall (s : State) : State :=
  let s1 := iplc_sim_push_pipeline_stage s
  let f := s1.pipeline.FETCH
  set_fetch s1 { f with itype := SYSCALL, instruction_address := s1.instruction_address }

def iplc_sim_process_pipeline_nop (s : State) : State :=
  let s1 := iplc_sim_push_pipeline_stage s
  let f := s1.pipeline.FETCH
  set_fetch s1 { f with itype := NOP, instruction_address := s1.instruction_address }

/-- The loop condition of `iplc_sim_finalize`. -/
def pipeline_busy (s : State) : Bool :=
  s.pipeline.FETCH.itype != NOP || s.pipeline.DECODE.itype != NOP ||
    s.pipeline.ALU.itype != NOP || s.pipeline.MEM.itype != NOP ||
    s.pipeline.WRITEBACK.itype != NOP

/-- The drain loop of `iplc_sim_finalize`, allowed at most `fuel` calls of
`iplc_sim_push_pipeline_stage`; `none` when the pipeline is still busy after
them. -/
def iplc_sim_finalize : Nat → State → Option State
  | 0, s => if pipeline_busy s then none else some s
  | fuel + 1, s =>
    if pipeline_busy s then iplc_sim_finalize fuel (iplc_sim_push_pipeline_stage s) else some s

/-- A decoded instruction record, as the trace reader hands it to the
`iplc_sim_process_pipeline_*` function of its kind. -/
inductive Decoded where
  | rtype (instruction : List Char) (dest_reg reg1 reg2_or_constant : Int)
  | lw (dest_reg base_reg : Int) (data_address : Nat)
  | sw (src_reg base_reg : Int) (data_address : Nat)
  | branch (reg1 reg2 : Int)
  | jump (instruction : List Char)
  | syscall
  | nop
deriving DecidableEq, Repr

/-- Dispatch of one decoded instruction at the current `instruction_address`. -/
def process_pipeline (s : State) : Decoded → State
  | Decoded.rtype m d r1 r2 => iplc_sim_process_pipeline_rtype s m d r1 r2
  | Decoded.lw d b a => iplc_sim_process_pipeline_lw s d b a
  | Decoded.sw r b a => iplc_sim_process_pipeline_sw s r b a
  | Decoded.branch r1 r2 => iplc_sim_process_pipeline_branch s r1 r2
  | Decoded.jump m => iplc_sim_process_pipeline_jump s m
  | Decoded.syscall => iplc_sim_process_pipeline_syscall s
  | Decoded.nop => iplc_sim_process_pipeline_nop s

/-- Repeated advance: `n` calls of `iplc_sim_push_pipeline_stage`. -/
def push_times : Nat → State → State
  | 0, s => s
  | n + 1, s => push_times n (iplc_sim_push_pipeline_stage s)

/-- The core of `iplc_sim_parse_instruction` once the line is decoded: the
instruction address is stored, the instruction cache is probed, a miss pushes
the pipeline `CACHE_MISS_DELAY - 1` times, and the instruction is dispatched. -/
def iplc_sim_parse_instruction (s : State) (address : Nat) (d : Decoded) : State :=
  let s1 : State := { s with instruction_address := address }
  let r := iplc_sim_trap_address s1 s1.instruction_address
  let s2 := if r.2 = 0 then push_times (CACHE_MISS_DELAY - 1) r.1 else r.1
  process_pipeline s2 d

/-- The operations that act on a configured simulator. -/
inductive Op where
  | probe (address : Nat)
  | advance
  | dispatch (address : Nat) (d : Decoded)
  | parse (address : Nat) (d : Decoded)
deriving DecidableEq, Repr

def step (s : State) : Op → State
  | Op.probe a => (iplc_sim_trap_address s a).1
  | Op.advance => iplc_sim_push_pipeline_stage s
  | Op.dispatch a d => process_pipeline { s with instruction_address := a } d
  | Op.parse a d => iplc_sim_parse_instruction s a d

def run (s : State) : List Op → State
  | [] => s
  | o :: os => run (step s o) os

/-- Probes in sequence: the final state and the return values, in order. -/
def probes (s : State) : List Nat → State × List Int
  | [] => (s, [])
  | a :: as =>
    let r := iplc_sim_trap_address s a
    let q := probes r.1 as
    (q.1, r.2 :: q.2)

/-- Number of probes of the sequence, run from `s`, that fall on line `idx`
and miss. -/
def misses_at (s : State) (idx : Nat) : List Nat → Nat
  | [] => 0
  | a :: as =>
    (if addr_index s a = idx ∧ (iplc_sim_trap_address s a).2 = 0 then 1 else 0)
      + misses_at (iplc_sim_trap_address s a).1 idx as

/-- The three cache counters hit, miss, access. -/
def cache_counters (s : State) : Nat × Nat × Nat :=
  (s.cache_hit, s.cache_miss, s.cache_access)

/-- A heap that holds zero bytes everywhere. -/
def zero_heap : Nat → cache_line_t :=
  fun _ => { sets := fun _ => { valid := 0, tag := 0 }, replacements := fun _ => 0 }

/-- The simulator configured over `zero_heap` (the unconfigured globals when
the configuration is rejected). -/
def configured (index blocksize assoc : Int) (branch_predict_taken : Nat) : State :=
  (iplc_sim_init (globals branch_predict_taken) zero_heap index blocksize assoc).getD
    (globals branch_predict_taken)

/-- A slot that holds an R-type instruction or nothing. -/
def plain_slot (p : pipeline_t) : Prop :=
  p.itype = instruction_type.NOP ∨ p.itype = instruction_type.RTYPE

/-- Every slot holds an R-type instruction or nothing. -/
def plain_pipeline (s : State) : Prop :=
  plain_slot s.pipeline.FETCH ∧ plain_slot s.pipeline.DECODE ∧ plain_slot s.pipeline.ALU ∧
    plain_slot s.pipeline.MEM ∧ plain_slot s.pipeline.WRITEBACK

/-- The operation is the dispatch of an R-type instruction. -/
def is_rtype_dispatch : Op → Bool
  | Op.dispatch _ (Decoded.rtype _ _ _ _) => true
  | _ => false

/-- A trace that brings a load of register 5 into MEM and an R-type reading
register `src` into ALU. -/
def load_then_rtype (data_address : Nat) (src : Int) : List Op :=
  [ Op.dispatch 0x400 (Decoded.lw 5 (-1) data_address),
    Op.dispatch 0x404 (Decoded.rtype ['a', 'd', 'd'] 1 src 2),
    Op.dispatch 0x408 (Decoded.rtype ['a', 'd', 'd'] 3 4 4),
    Op.dispatch 0x40c (Decoded.rtype ['a', 'd', 'd'] 6 7 7) ]

/-- A trace that brings a load of register 5 into MEM and, into ALU, an R-type
with an empty mnemonic dispatched at `address` whose second source is
register 5 and whose first source is not. -/
def load_then_unnamed_rtype (data_address address : Nat) : List Op :=
  [ Op.dispatch 0x400 (Decoded.lw 5 (-1) data_address),
    Op.dispatch address (Decoded.rtype [] 1 7 5),
    Op.dispatch 0x408 (Decoded.rtype ['a', 'd', 'd'] 3 4 4),
    Op.dispatch 0x40c (Decoded.rtype ['a', 'd', 'd'] 6 7 7) ]

/-- A trace that brings a branch at `0x400` into DECODE and the instruction at
address `next` into FETCH. -/
def branch_then (next : Nat) : List Op :=
  [ Op.dispatch 0x400 (Decoded.branch (-1) (-1)),
    Op.dispatch next (Decoded.rtype ['a', 'd', 'd'] 1 2 3) ]

/-- The misprediction test of step 2 of `iplc_sim_push_pipeline_stage`: DECODE
holds a branch, FETCH an instruction at a non-zero address, and the inferred
outcome (1 when the address difference is not 4, else 0) differs from
`branch_predict_taken`. -/
def mispredict (s : State) : Prop :=
  s.pipeline.DECODE.itype = instruction_type.BRANCH ∧
    s.pipeline.FETCH.instruction_address ≠ 0 ∧
    (if usub32 s.pipeline.FETCH.instruction_address s.pipeline.DECODE.instruction_address ≠ 4
      then 1 else 0) ≠ s.branch_predict_taken

/-- The correct-prediction test of step 2: as `mispredict`, with the inferred
outcome equal to `branch_predict_taken`. -/
def predicted (s : State) : Prop :=
  s.pipeline.DECODE.itype = instruction_type.BRANCH ∧
    s.pipeline.FETCH.instruction_address ≠ 0 ∧
    (if usub32 s.pipeline.FETCH.instruction_address s.pipeline.DECODE.instruction_address ≠ 4
      then 1 else 0) = s.branch_predict_taken

/-- The load-use test of step 3: MEM holds a load, ALU an R-type that reads
the load's destination register. -/
def stall_inserted (s : State) : Prop :=
  s.pipeline.MEM.itype = instruction_type.LW ∧ s.pipeline.ALU.itype = instruction_type.RTYPE ∧
    load_use s.pipeline.ALU s.pipeline.MEM = true

/-- 1 for a slot with a non-zero address, else 0. -/
def occupied (p : pipeline_t) : Nat :=
  if p.instruction_address ≠ 0 then 1 else 0

/-- Number of slots with a non-zero address. -/
def in_flight (s : State) : Nat :=
  occupied s.pipeline.FETCH + occupied s.pipeline.DECODE + occupied s.pipeline.ALU +
    occupied s.pipeline.MEM + occupied s.pipeline.WRITEBACK

/-- A slot of kind NOP has address 0. -/
def nop_empty (p : pipeline_t) : Prop :=
  p.itype = instruction_type.NOP → p.instruction_address = 0

/-- Every slot of kind NOP has address 0. -/
def nops_empty (s : State) : Prop :=
  nop_empty s.pipeline.FETCH ∧ nop_empty s.pipeline.DECODE ∧ nop_empty s.pipeline.ALU ∧
    nop_empty s.pipeline.MEM ∧ nop_empty s.pipeline.WRITEBACK

/-- The first `k` slots, counted from FETCH, have kind NOP. -/
def empty_upto (k : Nat) (s : State) : Prop :=
  (1 ≤ k → s.pipeline.FETCH.itype = instruction_type.NOP) ∧
    (2 ≤ k → s.pipeline.DECODE.itype = instruction_type.NOP) ∧
    (3 ≤ k → s.pipeline.ALU.itype = instruction_type.NOP) ∧
    (4 ≤ k → s.pipeline.MEM.itype = instruction_type.NOP) ∧
    (5 ≤ k → s.pipeline.WRITEBACK.itype = instruction_type.NOP)

/-- The operation does not put a NOP with a non-zero address into FETCH. -/
def no_addressed_nop : Op → Bool
  | Op.dispatch a Decoded.nop => a == 0
  | Op.parse a Decoded.nop => a == 0
  | _ => true

/-- The operation dispatches (directly or through the fetch path) an
instruction of a kind other than NOP at a non-zero address. -/
def real_dispatch : Op → Bool
  | Op.dispatch a d => a != 0 && d != Decoded.nop
  | Op.parse a d => a != 0 && d != Decoded.nop
  | _ => false

/-- The operation dispatches a load or a store. -/
def dispatches_memory_access : Op → Bool
  | Op.dispatch _ (Decoded.lw _ _ _) => true
  | Op.dispatch _ (Decoded.sw _ _ _) => true
  | Op.parse _ (Decoded.lw _ _ _) => true
  | Op.parse _ (Decoded.sw _ _ _) => true
  | _ => false

/-- A trace in which the load at `0x400` sits in MEM when the branch at `0x408`
is in DECODE with the instruction at address `next` behind it in FETCH. -/
def load_before_branch (next : Nat) : List Op :=
  [ Op.dispatch 0x400 (Decoded.lw 5 (-1) 0x1000),
    Op.dispatch 0x404 (Decoded.rtype ['a', 'd', 'd'] 1 2 3),
    Op.dispatch 0x408 (Decoded.branch (-1) (-1)),
    Op.dispatch next (Decoded.rtype ['a', 'd', 'd'] 1 2 3) ]

/-- No two valid ways among the first `assoc` ways of the line hold the same tag. -/
def valid_tags_unique (assoc : Nat) (line : cache_line_t) : Prop :=
  ∀ i j, i < assoc → j < assoc → i ≠ j →
    (line.sets i).valid ≠ 0 → (line.sets j).valid ≠ 0 → (line.sets i).tag ≠ (line.sets j).tag

/-- A heap whose every way reads `valid = 1`, `tag = 5`. -/
def dirty_heap : Nat → cache_line_t :=
  fun _ => { sets := fun _ => { valid := 1, tag := 5 }, replacements := fun _ => 0 }

/-- The ways `0 .. assoc - 1` of a line, in way order. -/
def way_list (assoc : Nat) (line : cache_line_t) : List set_t :=
  (List.range assoc).map line.sets

/-- The kind that the dispatch of a decoded instruction writes into FETCH. -/
def decoded_kind : Decoded → instruction_type
  | Decoded.rtype _ _ _ _ => instruction_type.RTYPE
  | Decoded.lw _ _ _ => instruction_type.LW
  | Decoded.sw _ _ _ => instruction_type.SW
  | Decoded.branch _ _ => instruction_type.BRANCH
  | Decoded.jump _ => instruction_type.JUMP
  | Decoded.syscall => instruction_type.SYSCALL
  | Decoded.nop => instruction_type.NOP

/-- 1 for a slot of kind BRANCH, else 0. -/
def is_branch_slot (p : pipeline_t) : Nat :=
  if p.itype = instruction_type.BRANCH then 1 else 0

/-- Number of branches in FETCH and DECODE: the branches dispatched and not
yet seen by step 2 of an advance. -/
def branch_pending (s : State) : Nat :=
  is_branch_slot s.pipeline.FETCH + is_branch_slot s.pipeline.DECODE

/-- 1 for an operation that dispatches a branch (directly or through the
fetch path), else 0. -/
def dispatches_branch : Op → Nat
  | Op.dispatch _ (Decoded.branch _ _) => 1
  | Op.parse _ (Decoded.branch _ _) => 1
  | _ => 0

/-- Number of branch dispatches in a sequence of operations. -/
def branch_dispatches : List Op → Nat
  | [] => 0
  | o :: os => dispatches_branch o + branch_dispatches os

/-- The branch counters account for `n` dispatched branches: `m` of them were
seen in DECODE, the others are pending in FETCH or DECODE, `k ≤ m` were
predicted correctly, and the two counters hold `m` and `k` modulo 2^32. -/
def branch_accounting (s : State) (n : Nat) : Prop :=
  ∃ m k, m + branch_pending s = n ∧ k ≤ m ∧ s.branch_count = m % 2 ^ 32 ∧
    s.correct_branch_predictions = k % 2 ^ 32

instance mispredict_decidable (s : State) : Decidable (mispredict s) :=
  instDecidableAnd

instance stall_inserted_decidable (s : State) : Decidable (stall_inserted s) :=
  instDecidableAnd

/-- The cycle penalty of steps 3 and 4 of an advance for the slots `alu` and
`mem` that these steps find in ALU and MEM: for a load, 9 on a data miss and
on a hit 1 when the load-use stall is inserted; for a store, 9 on a data miss. -/
def memory_penalty (s : State) (alu mem : pipeline_t) : Nat :=
  if mem.itype = instruction_type.LW then
    (if (iplc_sim_trap_address s mem.stage.lw.data_address).2 ≠ 0 then
      (if alu.itype = instruction_type.RTYPE ∧ load_use alu mem = true then 1 else 0)
    else CACHE_MISS_DELAY - 1)
  else if mem.itype = instruction_type.SW then
    (if (iplc_sim_trap_address s mem.stage.sw.data_address).2 ≠ 0 then 0
    else CACHE_MISS_DELAY - 1)
  else 0

/-- The number of cycles that one advance charges, not reduced modulo 2^32:
the base cycle, one cycle on a misprediction, and the penalty of steps 3 and 4
on the slots that step 2 leaves in ALU and MEM. -/
def advance_cycles (s : State) : Nat :=
  if mispredict s then 1 + 1 + memory_penalty s s.pipeline.DECODE s.pipeline.ALU
  else 1 + memory_penalty s s.pipeline.ALU s.pipeline.MEM

/-- The number of instructions that one advance counts as retired, not reduced
modulo 2^32: the occupant of WRITEBACK, and the occupant of MEM when a
misprediction or a load-use stall moves it to WRITEBACK early. -/
def advance_retired (s : State) : Nat :=
  occupied s.pipeline.WRITEBACK +
    (if mispredict s then occupied s.pipeline.MEM
      else if stall_inserted s then occupied s.pipeline.MEM else 0)

/-- The cycles charged by `n` advances in a row, not reduced modulo 2^32. -/
def cycles_of_pushes : Nat → State → Nat
  | 0, _ => 0
  | n + 1, s => advance_cycles s + cycles_of_pushes n (iplc_sim_push_pipeline_stage s)

/-- The cycles charged by one operation, not reduced modulo 2^32. -/
def cycles_of_step (s : State) : Op → Nat
  | Op.probe _ => 0
  | Op.advance => advance_cycles s
  | Op.dispatch a _ => advance_cycles { s with instruction_address := a }
  | Op.parse a _ =>
    cycles_of_pushes
      (if (iplc_sim_trap_address { s with instruction_address := a } a).2 = 0
        then CACHE_MISS_DELAY - 1 + 1 else 1)
      (iplc_sim_trap_address { s with instruction_address := a } a).1

/-- The cycles charged along a sequence of operations, not reduced modulo 2^32. -/
def cycles_of_run : State → List Op → Nat
  | _, [] => 0
  | s, o :: os => cycles_of_step s o + cycles_of_run (step s o) os

/-- The counters account for `c` cycles charged: the cycle counter holds `c`
modulo 2^32 and the retire counter holds some `r ≤ c` modulo 2^32. -/
def cycle_accounting (s : State) (c : Nat) : Prop :=
  ∃ r, r ≤ c ∧ s.pipeline_cycles = c % 2 ^ 32 ∧ s.instruction_count = r % 2 ^ 32

/-! ## Lemmas on the cache functions -/

@[simp] theorem store_apply {α : Type} (a : Nat → α) (i : Nat) (v : α) (k : Nat) :
    store a i v k = if k = i then v else a k := rfl

theorem addr_index_eq (s : State) (a : Nat) :
    addr_index s a = (a / 2 ^ s.cache_blockoffsetbits) % 2 ^ s.cache_index := by
  unfold addr_index
  rw [Nat.shiftRight_eq_div_pow, Nat.one_shiftLeft, Nat.and_pow_two_sub_one_eq_mod]

theorem addr_tag_eq (s : State) (a : Nat) :
    addr_tag s a = int_of_uint (a / 2 ^ (s.cache_index + s.cache_blockoffsetbits)) := by
  unfold addr_tag
  rw [Nat.shiftRight_eq_div_pow]

theorem replace_shift_sets (n : Nat) : ∀ (i : Nat) (line : cache_line_t) (k : Nat),
    (replace_shift n i line).sets k =
      if i ≤ k ∧ k < i + n then line.sets (k + 1) else line.sets k := by
  induction n with
  | zero =>
    intro i line k
    have : ¬ (i ≤ k ∧ k < i + 0) := by omega
    rw [replace_shift, if_neg this]
  | succ n ih =>
    intro i line k
    rw [replace_shift, ih]
    by_cases h1 : i + 1 ≤ k ∧ k < i + 1 + n
    · have h2 : i ≤ k ∧ k < i + (n + 1) := by omega
      have h3 : k + 1 ≠ i := by omega
      simp [h1, h2, h3]
    · by_cases h4 : k = i
      · subst h4
        have h5 : k ≤ k ∧ k < k + (n + 1) := by omega
        simp [h1, h5]
      · have h6 : ¬ (i ≤ k ∧ k < i + (n + 1)) := by omega
        simp [h1, h4, h6]

theorem replace_shift_replacements (n : Nat) : ∀ (i : Nat) (line : cache_line_t) (k : Nat),
    (replace_shift n i line).replacements k =
      if i ≤ k ∧ k < i + n then line.replacements (k + 1) else line.replacements k := by
  induction n with
  | zero =>
    intro i line k
    have : ¬ (i ≤ k ∧ k < i + 0) := by omega
    rw [replace_shift, if_neg this]
  | succ n ih =>
    intro i line k
    rw [replace_shift, ih]
    by_cases h1 : i + 1 ≤ k ∧ k < i + 1 + n
    · have h2 : i ≤ k ∧ k < i + (n + 1) := by omega
      have h3 : k + 1 ≠ i := by omega
      simp [h1, h2, h3]
    · by_cases h4 : k = i
      · subst h4
        have h5 : k ≤ k ∧ k < k + (n + 1) := by omega
        simp [h1, h5]
      · have h6 : ¬ (i ≤ k ∧ k < i + (n + 1)) := by omega
        simp [h1, h4, h6]

/-- The ways of a line after a miss: every way but the last takes its right
neighbour, the last way holds the new tag. -/
theorem replace_line_sets (assoc : Nat) (tag : Int) (line : cache_line_t) (k : Nat) :
    (replace_line assoc tag line).sets k =
      if k = assoc - 1 then { valid := 1, tag := tag }
      else if k < assoc - 1 then line.sets (k + 1) else line.sets k := by
  unfold replace_line
  by_cases h : k = assoc - 1
  · simp [h]
  · simp [h, replace_shift_sets]

/-- The recency record of a line after a miss. -/
theorem replace_line_replacements (assoc : Nat) (tag : Int) (line : cache_line_t) (k : Nat) :
    (replace_line assoc tag line).replacements k =
      if k = assoc - 1 then 0
      else if k < assoc - 1 then line.replacements (k + 1) else line.replacements k := by
  unfold replace_line
  by_cases h : k = assoc - 1
  · simp [h]
  · simp [h, replace_shift_replacements]

theorem hit_shift_apply (e : Nat) : ∀ (r : Nat → Nat) (k : Nat),
    hit_shift e r k = if 1 ≤ k ∧ k ≤ e then r (k - 1) else r k := by
  induction e with
  | zero =>
    intro r k
    have : ¬ (1 ≤ k ∧ k ≤ 0) := by omega
    rw [hit_shift, if_neg this]
  | succ e ih =>
    intro r k
    rw [hit_shift, ih]
    by_cases h1 : 1 ≤ k ∧ k ≤ e
    · have h2 : 1 ≤ k ∧ k ≤ e + 1 := by omega
      have h3 : k - 1 ≠ e + 1 := by omega
      simp [h1, h2, h3]
    · by_cases h4 : k = e + 1
      · subst h4
        simp
      · have h5 : ¬ (1 ≤ k ∧ k ≤ e + 1) := by omega
        simp [h1, h4, h5]

/-- A hit leaves the ways of the line as they are. -/
@[simp] theorem update_line_sets (e : Nat) (line : cache_line_t) :
    (update_line e line).sets = line.sets := rfl

/-- The recency record of a line after a hit on way `e`. -/
theorem update_line_replacements (e : Nat) (line : cache_line_t) (k : Nat) :
    (update_line e line).replacements k =
      if k = 0 then line.replacements (e - 1)
      else if k ≤ e then line.replacements (k - 1) else line.replacements k := by
  unfold update_line
  by_cases h : k = 0
  · subst h
    by_cases he : 1 ≤ e
    · simp [hit_shift_apply, he]
    · have : e = 0 := by omega
      subst this
      simp [hit_shift_apply]
  · have h1 : 1 ≤ k := by omega
    simp [h, hit_shift_apply, h1]

theorem trap_scan_none (line : cache_line_t) (tag : Int) (n : Nat) : ∀ i : Nat,
    trap_scan line tag n i = none ↔ ∀ k, i ≤ k → k < i + n → (line.sets k).tag ≠ tag := by
  induction n with
  | zero =>
    intro i
    simp only [trap_scan, true_iff]
    intro k h1 h2
    omega
  | succ n ih =>
    intro i
    rw [trap_scan]
    by_cases h : (line.sets i).tag = tag
    · simp only [h, if_true]
      constructor
      · intro hc
        cases hc
      · intro hc
        exact absurd h (hc i (le_refl i) (by omega))
    · simp only [h, if_false]
      rw [ih]
      constructor
      · intro hc k h1 h2
        by_cases hk : k = i
        · subst hk
          exact h
        · exact hc k (by omega) (by omega)
      · intro hc k h1 h2
        exact hc k (by omega) (by omega)

theorem trap_scan_some (line : cache_line_t) (tag : Int) (n : Nat) : ∀ i j : Nat,
    trap_scan line tag n i = some j → i ≤ j ∧ j < i + n ∧ (line.sets j).tag = tag := by
  induction n with
  | zero =>
    intro i j h
    simp [trap_scan] at h
  | succ n ih =>
    intro i j h
    rw [trap_scan] at h
    by_cases hc : (line.sets i).tag = tag
    · simp only [hc, if_true, Option.some.injEq] at h
      subst h
      exact ⟨le_refl _, by omega, hc⟩
    · simp only [hc, if_false] at h
      obtain ⟨h1, h2, h3⟩ := ih (i + 1) j h
      exact ⟨by omega, by omega, h3⟩

/-- A probe does not change the configuration. -/
theorem trap_config (s : State) (a : Nat) :
    (iplc_sim_trap_address s a).1.cache_assoc = s.cache_assoc ∧
    (iplc_sim_trap_address s a).1.cache_index = s.cache_index ∧
    (iplc_sim_trap_address s a).1.cache_blockoffsetbits = s.cache_blockoffsetbits := by
  unfold iplc_sim_trap_address
  simp only []
  split <;> simp [iplc_sim_LRU_update_on_hit, iplc_sim_LRU_replace_on_miss]

theorem addr_index_congr (s t : State) (a : Nat) (h1 : t.cache_index = s.cache_index)
    (h2 : t.cache_blockoffsetbits = s.cache_blockoffsetbits) : addr_index t a = addr_index s a := by
  unfold addr_index
  rw [h1, h2]

theorem addr_tag_congr (s t : State) (a : Nat) (h1 : t.cache_index = s.cache_index)
    (h2 : t.cache_blockoffsetbits = s.cache_blockoffsetbits) : addr_tag t a = addr_tag s a := by
  unfold addr_tag
  rw [h1, h2]

/-- The return value of a probe is 0 exactly when no way of the line holds the tag. -/
theorem trap_miss_iff (s : State) (a : Nat) :
    (iplc_sim_trap_address s a).2 = 0 ↔
      trap_scan (s.cache (addr_index s a)) (addr_tag s a) s.cache_assoc 0 = none := by
  unfold iplc_sim_trap_address
  simp only []
  split
  · next i h =>
    have e1 : addr_index { s with cache_access := s.cache_access + 1 } a = addr_index s a := rfl
    have e2 : addr_tag { s with cache_access := s.cache_access + 1 } a = addr_tag s a := rfl
    simp only [e1, e2] at h
    simp [h]
  · next h =>
    have e1 : addr_index { s with cache_access := s.cache_access + 1 } a = addr_index s a := rfl
    have e2 : addr_tag { s with cache_access := s.cache_access + 1 } a = addr_tag s a := rfl
    simp only [e1, e2] at h
    simp [h]

theorem trap_ret (s : State) (a : Nat) :
    (iplc_sim_trap_address s a).2 = 0 ∨ (iplc_sim_trap_address s a).2 = 1 := by
  unfold iplc_sim_trap_address
  simp only []
  split <;> simp

/-- A probe leaves every line but the probed one as it is. -/
theorem trap_cache_other (s : State) (a i : Nat) (h : i ≠ addr_index s a) :
    (iplc_sim_trap_address s a).1.cache i = s.cache i := by
  have e1 : addr_index { s with cache_access := s.cache_access + 1 } a = addr_index s a := rfl
  unfold iplc_sim_trap_address
  simp only []
  split <;> simp [iplc_sim_LRU_update_on_hit, iplc_sim_LRU_replace_on_miss, e1, h]

/-- The probed line after a miss. -/
theorem trap_cache_miss (s : State) (a : Nat) (h : (iplc_sim_trap_address s a).2 = 0) :
    (iplc_sim_trap_address s a).1.cache (addr_index s a) =
      replace_line s.cache_assoc (addr_tag s a) (s.cache (addr_index s a)) := by
  have e1 : addr_index { s with cache_access := s.cache_access + 1 } a = addr_index s a := rfl
  have e2 : addr_tag { s with cache_access := s.cache_access + 1 } a = addr_tag s a := rfl
  revert h
  unfold iplc_sim_trap_address
  simp only []
  split
  · simp
  · intro _
    simp [iplc_sim_LRU_replace_on_miss, e1, e2]

/-- The ways of the probed line after a hit. -/
theorem trap_cache_hit (s : State) (a : Nat) (h : (iplc_sim_trap_address s a).2 ≠ 0) :
    ((iplc_sim_trap_address s a).1.cache (addr_index s a)).sets = (s.cache (addr_index s a)).sets := by
  have e1 : addr_index { s with cache_access := s.cache_access + 1 } a = addr_index s a := rfl
  revert h
  unfold iplc_sim_trap_address
  simp only []
  split
  · intro _
    simp [iplc_sim_LRU_update_on_hit, e1]
  · simp

theorem trap_addr_index (s : State) (a b : Nat) :
    addr_index (iplc_sim_trap_address s a).1 b = addr_index s b :=
  addr_index_congr s _ b (trap_config s a).2.1 (trap_config s a).2.2

theorem trap_addr_tag (s : State) (a b : Nat) :
    addr_tag (iplc_sim_trap_address s a).1 b = addr_tag s b :=
  addr_tag_congr s _ b (trap_config s a).2.1 (trap_config s a).2.2

theorem capacity_aux : ∀ (as : List Nat) (s : State) (t k : Nat),
    (∀ j, s.cache_assoc - k ≤ j → j < s.cache_assoc →
      ((s.cache (addr_index s t)).sets j).tag ≠ addr_tag s t) →
    (∀ a ∈ as, addr_index s a = addr_index s t → addr_tag s a ≠ addr_tag s t) →
    s.cache_assoc ≤ k + misses_at s (addr_index s t) as →
    (iplc_sim_trap_address (probes s as).1 t).2 = 0 := by
  intro as
  induction as with
  | nil =>
    intro s t k hinv _ hk
    simp only [misses_at, Nat.add_zero] at hk
    show (iplc_sim_trap_address s t).2 = 0
    rw [trap_miss_iff, trap_scan_none]
    intro j _ hj
    exact hinv j (by omega) (by omega)
  | cons a as ih =>
    intro s t k hinv hne hk
    rw [probes]
    simp only []
    rw [misses_at] at hk
    have hcfg := trap_config s a
    have hne' : ∀ b ∈ as, addr_index (iplc_sim_trap_address s a).1 b
          = addr_index (iplc_sim_trap_address s a).1 t →
        addr_tag (iplc_sim_trap_address s a).1 b ≠ addr_tag (iplc_sim_trap_address s a).1 t := by
      intro b hb
      rw [trap_addr_index, trap_addr_index, trap_addr_tag, trap_addr_tag]
      exact hne b (List.mem_cons_of_mem a hb)
    by_cases hidx : addr_index s a = addr_index s t
    · by_cases hret : (iplc_sim_trap_address s a).2 = 0
      · -- a miss on the line of `t`
        have hk' : (iplc_sim_trap_address s a).1.cache_assoc
            ≤ (k + 1) + misses_at (iplc_sim_trap_address s a).1
                (addr_index (iplc_sim_trap_address s a).1 t) as := by
          rw [trap_addr_index, hcfg.1]
          simp only [hidx, hret, and_self, if_true] at hk
          omega
        apply ih _ t (k + 1) _ hne' hk'
        intro j h1 h2
        rw [trap_addr_index, trap_addr_tag, ← hidx, trap_cache_miss s a hret, replace_line_sets]
        rw [hcfg.1] at h1 h2
        by_cases hj : j = s.cache_assoc - 1
        · simp only [hj, if_true]
          exact hne a (List.mem_cons_self a as) hidx
        · have hj' : j < s.cache_assoc - 1 := by omega
          simp only [hj, if_false, hj', if_true]
          rw [hidx]
          exact hinv (j + 1) (by omega) (by omega)
      · -- a hit on the line of `t`
        have hk' : (iplc_sim_trap_address s a).1.cache_assoc
            ≤ k + misses_at (iplc_sim_trap_address s a).1
                (addr_index (iplc_sim_trap_address s a).1 t) as := by
          rw [trap_addr_index, hcfg.1]
          simp only [hret, and_false, if_false] at hk
          omega
        apply ih _ t k _ hne' hk'
        intro j h1 h2
        rw [trap_addr_index, trap_addr_tag, ← hidx, trap_cache_hit s a hret, hidx]
        rw [hcfg.1] at h1 h2
        exact hinv j h1 h2
    · -- a probe of another line
      have hk' : (iplc_sim_trap_address s a).1.cache_assoc
          ≤ k + misses_at (iplc_sim_trap_address s a).1
              (addr_index (iplc_sim_trap_address s a).1 t) as := by
        rw [trap_addr_index, hcfg.1]
        simp only [hidx, false_and, if_false] at hk
        omega
      apply ih _ t k _ hne' hk'
      intro j h1 h2
      rw [trap_addr_index, trap_addr_tag, trap_cache_other s a _ (Ne.symm hidx)]
      rw [hcfg.1] at h1 h2
      exact hinv j h1 h2

/-- C3. Capacity law: let `s` be any state with associativity at least 1
(for instance the state right after a probe of address `t`), and let `as` be
probes none of which has both the index and the tag of `t`.  If at least
`cache_assoc` of them fall on the line of `t` and miss, the next probe of `t`
reports a miss. -/
theorem capacity_law (s : State) (t : Nat) (as : List Nat)
    (hassoc : 1 ≤ s.cache_assoc)
    (hne : ∀ a ∈ as, addr_index s a = addr_index s t → addr_tag s a ≠ addr_tag s t)
    (hmiss : s.cache_assoc ≤ misses_at s (addr_index s t) as) :
    (iplc_sim_trap_address (probes s as).1 t).2 = 0 := by
  have _ := hassoc
  apply capacity_aux as s t 0 _ hne (by omega)
  intro j h1 h2
  omega

theorem capacity_law_witness :
    (iplc_sim_trap_address (probes (probes (configured 2 1 2 0) [0x10]).1 [0x20, 0x30]).1 0x10).2 = 0 :=
  capacity_law (probes (configured 2 1 2 0) [0x10]).1 0x10 [0x20, 0x30]
    (by decide) (by decide) (by decide)

/-! ## Concrete runs on a freshly configured cache -/

theorem init_2_1_1 (heap : Nat → cache_line_t) (p : Nat) :
    iplc_sim_init (globals p) heap 2 1 1 = some
      { globals p with
        cache := init_lines 1 4 0 0 heap, cache_index := 2, cache_blocksize := 1,
        cache_blockoffsetbits := 2, cache_assoc := 1 } := rfl

theorem init_2_1_2 (heap : Nat → cache_line_t) (p : Nat) :
    iplc_sim_init (globals p) heap 2 1 2 = some
      { globals p with
        cache := init_lines 2 4 0 0 heap, cache_index := 2, cache_blocksize := 1,
        cache_blockoffsetbits := 2, cache_assoc := 2 } := rfl

/-- C1 (the code at the failing input). With `index = 2`, `blocksize = 1`,
`assoc = 1`, whatever the heap holds, the configuration is accepted, addresses
`0x0` and `0x10` both map to line 0, the only way of line 0 is invalid after
configuration, and yet the probes `0x0, 0x10, 0x0` return hit, miss, miss: the
first probe of the fresh cache hits, because the scan compares the tag alone. -/
theorem first_probe_hits_invalid_way (heap : Nat → cache_line_t) (p : Nat) :
    ∃ s0, iplc_sim_init (globals p) heap 2 1 1 = some s0 ∧
      addr_index s0 0x0 = 0 ∧ addr_index s0 0x10 = 0 ∧
      ((s0.cache 0).sets 0).valid = 0 ∧
      (iplc_sim_trap_address s0 0x0).2 = 1 ∧
      (probes s0 [0x0, 0x10, 0x0]).2 = [1, 0, 0] := by
  refine ⟨_, init_2_1_1 heap p, ?_, ?_, ?_, ?_, ?_⟩
  · simp [addr_index_eq]
  · simp [addr_index_eq]
  · simp [init_lines, init_ways]
  · simp [iplc_sim_trap_address, addr_index_eq, addr_tag_eq, int_of_uint, trap_scan,
      init_lines, init_ways]
  · simp [probes, iplc_sim_trap_address, addr_index_eq, addr_tag_eq, int_of_uint, trap_scan,
      init_lines, init_ways, iplc_sim_LRU_update_on_hit, iplc_sim_LRU_replace_on_miss,
      update_line, replace_line, replace_shift, hit_shift]

/-- C2 (the code at the failing input). With `index = 2`, `blocksize = 1`,
`assoc = 2`, the addresses `0x10, 0x20, 0x30` map to line 0 with tags 1, 2, 3,
and the probes `0x10, 0x20, 0x10, 0x30, 0x10` return miss, miss, hit, miss,
miss: the hit on tag 1 did not protect it, the miss on tag 3 evicted tag 1 (the
way installed first) and not tag 2. -/
theorem hit_does_not_protect_from_eviction (heap : Nat → cache_line_t) (p : Nat) :
    ∃ s0, iplc_sim_init (globals p) heap 2 1 2 = some s0 ∧
      (addr_index s0 0x10 = 0 ∧ addr_index s0 0x20 = 0 ∧ addr_index s0 0x30 = 0) ∧
      (addr_tag s0 0x10 = 1 ∧ addr_tag s0 0x20 = 2 ∧ addr_tag s0 0x30 = 3) ∧
      (probes s0 [0x10, 0x20, 0x10, 0x30, 0x10]).2 = [0, 0, 1, 0, 0] := by
  refine ⟨_, init_2_1_2 heap p, ?_, ?_, ?_⟩
  · simp [addr_index_eq]
  · simp [addr_tag_eq, int_of_uint]
  · simp [probes, iplc_sim_trap_address, addr_index_eq, addr_tag_eq, int_of_uint, trap_scan,
      init_lines, init_ways, iplc_sim_LRU_update_on_hit, iplc_sim_LRU_replace_on_miss,
      update_line, replace_line, replace_shift, hit_shift]

/-- C5 (the code at the failing input). With `index = 2`, `blocksize = 1`,
`assoc = 2`, after the two probes `0x10, 0x20` (two misses on line 0) the
recency record of line 0 is `0, 0`, which is not a permutation of the way
indices `0, 1`. -/
theorem recency_record_not_permutation (heap : Nat → cache_line_t) (p : Nat) :
    ∃ s0, iplc_sim_init (globals p) heap 2 1 2 = some s0 ∧
      (List.range 2).map ((s0.cache 0).replacements) = [0, 1] ∧
      (probes s0 [0x10, 0x20]).2 = [0, 0] ∧
      (List.range 2).map (((probes s0 [0x10, 0x20]).1.cache 0).replacements) = [0, 0] ∧
      ¬ List.Perm ((List.range 2).map (((probes s0 [0x10, 0x20]).1.cache 0).replacements))
          (List.range 2) := by
  have hr : List.range 2 = [0, 1] := rfl
  have h4 : ∀ s0, iplc_sim_init (globals p) heap 2 1 2 = some s0 →
      (List.range 2).map (((probes s0 [0x10, 0x20]).1.cache 0).replacements) = [0, 0] := by
    intro s0 h0
    rw [init_2_1_2] at h0
    cases h0
    simp [hr, probes, iplc_sim_trap_address, addr_index_eq, addr_tag_eq, int_of_uint, trap_scan,
      init_lines, init_ways, iplc_sim_LRU_update_on_hit, iplc_sim_LRU_replace_on_miss,
      update_line, replace_line, replace_shift, hit_shift]
  refine ⟨_, init_2_1_2 heap p, ?_, ?_, h4 _ (init_2_1_2 heap p), ?_⟩
  · simp [hr, init_lines, init_ways]
  · simp [probes, iplc_sim_trap_address, addr_index_eq, addr_tag_eq, int_of_uint, trap_scan,
      init_lines, init_ways, iplc_sim_LRU_update_on_hit, iplc_sim_LRU_replace_on_miss,
      update_line, replace_line, replace_shift, hit_shift]
  · rw [h4 _ (init_2_1_2 heap p)]
    decide

/-! ## The cache counters -/

theorem trap_counters (s : State) (a : Nat) :
    (iplc_sim_trap_address s a).1.cache_access = s.cache_access + 1 ∧
    (((iplc_sim_trap_address s a).2 = 1 ∧
        (iplc_sim_trap_address s a).1.cache_hit = s.cache_hit + 1 ∧
        (iplc_sim_trap_address s a).1.cache_miss = s.cache_miss) ∨
      ((iplc_sim_trap_address s a).2 = 0 ∧
        (iplc_sim_trap_address s a).1.cache_miss = s.cache_miss + 1 ∧
        (iplc_sim_trap_address s a).1.cache_hit = s.cache_hit)) := by
  unfold iplc_sim_trap_address
  simp only []
  split <;> simp [iplc_sim_LRU_update_on_hit, iplc_sim_LRU_replace_on_miss]

/-- The invariant `cache_hit + cache_miss = cache_access`. -/
theorem trap_balanced (s : State) (a : Nat) (h : s.cache_hit + s.cache_miss = s.cache_access) :
    (iplc_sim_trap_address s a).1.cache_hit + (iplc_sim_trap_address s a).1.cache_miss
      = (iplc_sim_trap_address s a).1.cache_access := by
  obtain ⟨h1, h2⟩ := trap_counters s a
  rcases h2 with ⟨_, h3, h4⟩ | ⟨_, h3, h4⟩ <;> omega

theorem push_retire_counters (s : State) : cache_counters (push_retire s) = cache_counters s := by
  unfold push_retire
  split <;> rfl

theorem push_branch_counters (s : State) : cache_counters (push_branch s) = cache_counters s := by
  unfold push_branch
  simp only []
  split_ifs <;> rfl

theorem push_lw_counters (s : State) :
    cache_counters (push_lw s) =
      cache_counters (if s.pipeline.MEM.itype = instruction_type.LW
        then (iplc_sim_trap_address s s.pipeline.MEM.stage.lw.data_address).1 else s) := by
  unfold push_lw
  simp only []
  split_ifs <;> simp [cache_counters]

theorem push_sw_counters (s : State) :
    cache_counters (push_sw s) =
      cache_counters (if s.pipeline.MEM.itype = instruction_type.SW
        then (iplc_sim_trap_address s s.pipeline.MEM.stage.sw.data_address).1 else s) := by
  unfold push_sw
  simp only []
  split_ifs <;> simp [cache_counters]

theorem push_shift_counters (s : State) : cache_counters (push_shift s) = cache_counters s := rfl

/-- The invariant as a predicate on the counter triple. -/
theorem balanced_of_counters (s t : State) (h : cache_counters t = cache_counters s)
    (hs : s.cache_hit + s.cache_miss = s.cache_access) :
    t.cache_hit + t.cache_miss = t.cache_access := by
  simp only [cache_counters, Prod.mk.injEq] at h
  omega

theorem push_balanced (s : State) (h : s.cache_hit + s.cache_miss = s.cache_access) :
    (iplc_sim_push_pipeline_stage s).cache_hit + (iplc_sim_push_pipeline_stage s).cache_miss
      = (iplc_sim_push_pipeline_stage s).cache_access := by
  unfold iplc_sim_push_pipeline_stage
  have h1 := balanced_of_counters s _ (push_retire_counters s) h
  have h2 := balanced_of_counters _ _ (push_branch_counters (push_retire s)) h1
  have h3 : (push_lw (push_branch (push_retire s))).cache_hit
      + (push_lw (push_branch (push_retire s))).cache_miss
      = (push_lw (push_branch (push_retire s))).cache_access := by
    apply balanced_of_counters _ _ (push_lw_counters _)
    split_ifs
    · exact trap_balanced _ _ h2
    · exact h2
  have h4 : (push_sw (push_lw (push_branch (push_retire s)))).cache_hit
      + (push_sw (push_lw (push_branch (push_retire s)))).cache_miss
      = (push_sw (push_lw (push_branch (push_retire s)))).cache_access := by
    apply balanced_of_counters _ _ (push_sw_counters _)
    split_ifs
    · exact trap_balanced _ _ h3
    · exact h3
  exact balanced_of_counters _ _ (push_shift_counters _) h4

theorem push_times_balanced (n : Nat) : ∀ s : State,
    s.cache_hit + s.cache_miss = s.cache_access →
    (push_times n s).cache_hit + (push_times n s).cache_miss = (push_times n s).cache_access := by
  induction n with
  | zero => intro s h; exact h
  | succ n ih => intro s h; exact ih _ (push_balanced s h)

theorem process_balanced (s : State) (d : Decoded)
    (h : s.cache_hit + s.cache_miss = s.cache_access) :
    (process_pipeline s d).cache_hit + (process_pipeline s d).cache_miss
      = (process_pipeline s d).cache_access := by
  have hp := push_balanced s h
  cases d <;> exact hp

theorem step_balanced (s : State) (o : Op) (h : s.cache_hit + s.cache_miss = s.cache_access) :
    (step s o).cache_hit + (step s o).cache_miss = (step s o).cache_access := by
  cases o with
  | probe a => exact trap_balanced s a h
  | advance => exact push_balanced s h
  | dispatch a d => exact process_balanced _ d h
  | parse a d =>
    show (iplc_sim_parse_instruction s a d).cache_hit + _ = _
    unfold iplc_sim_parse_instruction
    simp only []
    apply process_balanced
    have ht := trap_balanced { s with instruction_address := a } a h
    split_ifs
    · exact push_times_balanced _ _ ht
    · exact ht

theorem run_balanced (ops : List Op) : ∀ s : State,
    s.cache_hit + s.cache_miss = s.cache_access →
    (run s ops).cache_hit + (run s ops).cache_miss = (run s ops).cache_access := by
  induction ops with
  | nil => intro s h; exact h
  | cons o os ih => intro s h; exact ih _ (step_balanced s o h)

theorem init_counters (g : State) (heap : Nat → cache_line_t) (index blocksize assoc : Int)
    (s0 : State) (h : iplc_sim_init g heap index blocksize assoc = some s0) :
    cache_counters s0 = cache_counters g := by
  unfold iplc_sim_init at h
  simp only [] at h
  split_ifs at h
  cases h
  rfl

/-- C4. Counter invariant: from a configuration accepted by `iplc_sim_init`
(run on the initial globals), after any sequence of operations (bare probes,
advances, dispatches, and fetches that probe and then dispatch)
`cache_hit + cache_miss = cache_access`; and in any state one probe adds one to
`cache_access` and one to exactly one of `cache_hit` (return value 1) and
`cache_miss` (return value 0). -/
theorem counter_invariant (p : Nat) (heap : Nat → cache_line_t) (index blocksize assoc : Int)
    (s0 : State) (hinit : iplc_sim_init (globals p) heap index blocksize assoc = some s0)
    (ops : List Op) :
    (run s0 ops).cache_hit + (run s0 ops).cache_miss = (run s0 ops).cache_access ∧
    ∀ (s : State) (a : Nat),
      (iplc_sim_trap_address s a).1.cache_access = s.cache_access + 1 ∧
      (((iplc_sim_trap_address s a).2 = 1 ∧
          (iplc_sim_trap_address s a).1.cache_hit = s.cache_hit + 1 ∧
          (iplc_sim_trap_address s a).1.cache_miss = s.cache_miss) ∨
        ((iplc_sim_trap_address s a).2 = 0 ∧
          (iplc_sim_trap_address s a).1.cache_miss = s.cache_miss + 1 ∧
          (iplc_sim_trap_address s a).1.cache_hit = s.cache_hit)) := by
  refine ⟨?_, trap_counters⟩
  apply run_balanced
  exact balanced_of_counters (globals p) s0 (init_counters _ _ _ _ _ _ hinit) rfl

theorem counter_invariant_witness :
    (run (configured 2 1 1 0)
        [Op.parse 0x400 (Decoded.lw 1 (-1) 0x1000), Op.advance, Op.probe 0x400]).cache_hit
      + (run (configured 2 1 1 0)
        [Op.parse 0x400 (Decoded.lw 1 (-1) 0x1000), Op.advance, Op.probe 0x400]).cache_miss
      = (run (configured 2 1 1 0)
        [Op.parse 0x400 (Decoded.lw 1 (-1) 0x1000), Op.advance, Op.probe 0x400]).cache_access :=
  (counter_invariant 0 zero_heap 2 1 1 (configured 2 1 1 0) rfl
    [Op.parse 0x400 (Decoded.lw 1 (-1) 0x1000), Op.advance, Op.probe 0x400]).1

/-! ## Configuration -/

theorem halvings_two_pow : ∀ (n fuel : Nat), n ≤ fuel → halvings fuel (2 ^ n) = n := by
  intro n
  induction n with
  | zero =>
    intro fuel _
    cases fuel <;> simp [halvings]
  | succ n ih =>
    intro fuel h
    cases fuel with
    | zero => omega
    | succ f =>
      have h2 : 2 ≤ 2 ^ (n + 1) := by
        have := Nat.one_le_two_pow (n := n)
        rw [pow_succ]
        omega
      have h3 : 2 ^ (n + 1) / 2 = 2 ^ n := by
        rw [pow_succ]
        exact Nat.mul_div_cancel _ (by decide)
      rw [halvings, if_pos h2, h3, ih f (by omega)]

theorem floor_log2_two_pow (n : Nat) : floor_log2 (2 ^ n) = n := by
  unfold floor_log2
  apply halvings_two_pow
  exact Nat.le_of_lt (Nat.lt_two_pow n)

theorem wrap_int_of_range (x : Int) (h1 : -2 ^ 31 ≤ x) (h2 : x < 2 ^ 31) : wrap_int x = x := by
  unfold wrap_int
  omega

/-- For a block size `2^k` the block-offset width is `k + 2 = log2 (4 * 2^k)`. -/
theorem blockoffsetbits_two_pow (k : Nat) (hk : k ≤ 28) :
    blockoffsetbits_of (2 ^ k) = (k : Int) + 2 := by
  unfold blockoffsetbits_of
  have e1 : ((2 : Int) ^ k) * 4 = ((2 ^ (k + 2) : Nat) : Int) := by
    push_cast
    ring
  have hlt : 2 ^ (k + 2) ≤ 2 ^ 30 := Nat.pow_le_pow_right (by decide) (by omega)
  have e2 : wrap_int (((2 ^ (k + 2) : Nat) : Int)) = ((2 ^ (k + 2) : Nat) : Int) := by
    generalize 2 ^ (k + 2) = m at hlt
    apply wrap_int_of_range <;> omega
  rw [e1, e2, Int.toNat_ofNat, ← pow_mul, floor_log2_two_pow]
  omega

/-- The computed `cache_size` is the exact product when the inputs are
non-negative and no intermediate `int` result leaves the `int` range. -/
theorem cache_size_exact (index k : Nat) (blocksize assoc : Int) (hb : blocksize = 2 ^ k)
    (hidx : index ≤ 30) (hk : k ≤ 25) (h0 : 0 ≤ assoc)
    (h1 : assoc * 2 ^ index < 2 ^ 31)
    (h2 : assoc * 2 ^ index * (32 * blocksize + 33 - (index : Int) - ((k : Int) + 2)) < 2 ^ 31) :
    ((cache_size_of (index : Int) blocksize assoc : Nat) : Int)
      = assoc * 2 ^ index * (32 * blocksize + 33 - (index : Int) - ((k : Int) + 2)) := by
  subst hb
  unfold cache_size_of
  rw [blockoffsetbits_two_pow k (by omega), Int.toNat_ofNat, Nat.one_shiftLeft]
  have hp : (2 : Int) ^ index ≤ 2 ^ 30 := pow_le_pow_right₀ (by norm_num) hidx
  have hp0 : (0 : Int) < 2 ^ index := by positivity
  have hq : (2 : Int) ^ k ≤ 2 ^ 25 := pow_le_pow_right₀ (by norm_num) hk
  have hq0 : (0 : Int) < 2 ^ k := by positivity
  have ha : 0 ≤ assoc * 2 ^ index := mul_nonneg h0 (le_of_lt hp0)
  have hs : 0 ≤ assoc * 2 ^ index * (32 * 2 ^ k + 33 - (index : Int) - ((k : Int) + 2)) := by
    apply mul_nonneg ha
    have : (index : Int) ≤ 30 := by exact_mod_cast hidx
    have : (k : Int) ≤ 25 := by exact_mod_cast hk
    omega
  have w1 : wrap_int (((2 ^ index : Nat) : Int)) = 2 ^ index := by
    push_cast
    apply wrap_int_of_range <;> omega
  have w2 : wrap_int (assoc * 2 ^ index) = assoc * 2 ^ index := by
    apply wrap_int_of_range <;> omega
  have w3 : wrap_int (32 * 2 ^ k) = 32 * 2 ^ k := by
    apply wrap_int_of_range <;> omega
  have w4 : wrap_int (32 * 2 ^ k + 33) = 32 * 2 ^ k + 33 := by
    apply wrap_int_of_range <;> omega
  have w5 : wrap_int (32 * 2 ^ k + 33 - (index : Int)) = 32 * 2 ^ k + 33 - (index : Int) := by
    apply wrap_int_of_range <;> omega
  have w6 : wrap_int (32 * 2 ^ k + 33 - (index : Int) - ((k : Int) + 2))
      = 32 * 2 ^ k + 33 - (index : Int) - ((k : Int) + 2) := by
    apply wrap_int_of_range <;> omega
  rw [w1, w2, w3, w4, w5, w6, wrap_int_of_range _ (by omega) h2]
  unfold ulong_of_int
  generalize assoc * 2 ^ index * (32 * 2 ^ k + 33 - (index : Int) - ((k : Int) + 2)) = z at hs h2 ⊢
  omega

/-- C6. For a block size `2^k` the block-offset width is `k + 2`, and when the
computed `cache_size` is the exact value of
`assoc * 2^index * (32 * blocksize + 33 - index - (k + 2))` (no wrap-around in
the computation), `iplc_sim_init` exits, handing out no state, if and only if
that value exceeds 10240. -/
theorem config_fails_iff (g : State) (heap : Nat → cache_line_t) (index k : Nat)
    (blocksize assoc : Int) (hb : blocksize = 2 ^ k) (hk : k ≤ 28)
    (hexact : ((cache_size_of (index : Int) blocksize assoc : Nat) : Int)
      = assoc * 2 ^ index * (32 * blocksize + 33 - (index : Int) - ((k : Int) + 2))) :
    blockoffsetbits_of blocksize = (k : Int) + 2 ∧
    (iplc_sim_init g heap (index : Int) blocksize assoc = none ↔
      assoc * 2 ^ index * (32 * blocksize + 33 - (index : Int) - ((k : Int) + 2)) > 10240) := by
  refine ⟨by rw [hb]; exact blockoffsetbits_two_pow k hk, ?_⟩
  rw [← hexact]
  unfold iplc_sim_init MAX_CACHE_SIZE
  simp only []
  split_ifs with hc
  · simp only [true_iff]
    omega
  · simp only [reduceCtorEq, false_iff]
    omega

/-- A negative associativity makes the `int` product negative; its conversion
to `unsigned long` wraps to a value above the maximum, and the configuration
is rejected.  The computed size is then not the exact product. -/
theorem negative_assoc_rejected (g : State) (heap : Nat → cache_line_t) :
    cache_size_of 0 1 (-1) = 2 ^ 64 - 63 ∧ iplc_sim_init g heap 0 1 (-1) = none := by
  have h : cache_size_of 0 1 (-1) = 2 ^ 64 - 63 := by decide
  refine ⟨h, ?_⟩
  unfold iplc_sim_init
  simp only [h, MAX_CACHE_SIZE]
  rfl

theorem config_fails_iff_witness :
    (cache_size_of 10 1 1 = 54272 ∧ iplc_sim_init (globals 0) zero_heap 10 1 1 = none) ∧
    (cache_size_of 7 1 1 = 7168 ∧ iplc_sim_init (globals 0) zero_heap 7 1 1 ≠ none) :=
  ⟨⟨by decide,
    ((config_fails_iff (globals 0) zero_heap 10 0 1 1 (by norm_num) (by norm_num)
      (by decide)).2).2 (by norm_num)⟩,
   ⟨by decide,
    fun h => absurd (((config_fails_iff (globals 0) zero_heap 7 0 1 1 (by norm_num) (by norm_num)
      (by decide)).2).1 h) (by norm_num)⟩⟩

/-! ## Lemmas on the pipeline functions -/

/-- A probe changes the cache and the cache counters only. -/
theorem trap_frame (s : State) (a : Nat) :
    (iplc_sim_trap_address s a).1.pipeline = s.pipeline ∧
    (iplc_sim_trap_address s a).1.pipeline_cycles = s.pipeline_cycles ∧
    (iplc_sim_trap_address s a).1.instruction_count = s.instruction_count ∧
    (iplc_sim_trap_address s a).1.branch_predict_taken = s.branch_predict_taken ∧
    (iplc_sim_trap_address s a).1.branch_count = s.branch_count ∧
    (iplc_sim_trap_address s a).1.correct_branch_predictions = s.correct_branch_predictions ∧
    (iplc_sim_trap_address s a).1.instruction_address = s.instruction_address := by
  unfold iplc_sim_trap_address
  simp only []
  split <;> simp [iplc_sim_LRU_update_on_hit, iplc_sim_LRU_replace_on_miss]

/-- The return value of a probe depends on the cache and its configuration only. -/
theorem trap_ret_congr (s t : State) (a : Nat) (hc : t.cache = s.cache)
    (h1 : t.cache_assoc = s.cache_assoc) (h2 : t.cache_index = s.cache_index)
    (h3 : t.cache_blockoffsetbits = s.cache_blockoffsetbits) :
    (iplc_sim_trap_address t a).2 = (iplc_sim_trap_address s a).2 := by
  have e1 : addr_index t a = addr_index s a := addr_index_congr s t a h2 h3
  have e2 : addr_tag t a = addr_tag s a := addr_tag_congr s t a h2 h3
  rcases trap_ret s a with h | h
  · rw [h]
    rw [trap_miss_iff] at h ⊢
    rw [hc, h1, e1, e2]
    exact h
  · rw [h]
    rcases trap_ret t a with h' | h'
    · rw [trap_miss_iff, hc, h1, e1, e2, ← trap_miss_iff] at h'
      rw [h] at h'
      cases h'
    · exact h'

theorem push_retire_frame (s : State) :
    (push_retire s).pipeline = s.pipeline ∧
    (push_retire s).pipeline_cycles = s.pipeline_cycles ∧
    (push_retire s).cache = s.cache ∧
    (push_retire s).cache_assoc = s.cache_assoc ∧
    (push_retire s).cache_index = s.cache_index ∧
    (push_retire s).cache_blockoffsetbits = s.cache_blockoffsetbits ∧
    (push_retire s).branch_predict_taken = s.branch_predict_taken := by
  unfold push_retire
  split <;> simp

theorem push_branch_of_not_branch (s : State) (h : s.pipeline.DECODE.itype ≠ BRANCH) :
    push_branch s = s := by
  unfold push_branch
  rw [if_neg h]

theorem push_lw_of_not_lw (s : State) (h : s.pipeline.MEM.itype ≠ LW) : push_lw s = s := by
  unfold push_lw
  rw [if_neg h]

theorem push_sw_of_not_sw (s : State) (h : s.pipeline.MEM.itype ≠ SW) : push_sw s = s := by
  unfold push_sw
  rw [if_neg h]

theorem push_shift_cycles (s : State) :
    (push_shift s).pipeline_cycles = uadd32 s.pipeline_cycles 1 := rfl

/-- The byte test on a non-empty mnemonic is the test of its last character. -/
theorem last_char_not_i_of_ne_nil (instruction_address : Nat) (instruction : List Char)
    (h : instruction ≠ []) :
    last_char_not_i instruction_address instruction = true ↔
      instruction.getLast? ≠ some 'i' := by
  unfold last_char_not_i
  rw [List.getLast?_eq_getLast _ h]
  simp

/-- The byte test on an empty mnemonic is a test of the top byte of the slot's
address. -/
theorem last_char_not_i_nil (instruction_address : Nat) :
    last_char_not_i instruction_address [] = true ↔
      (instruction_address / 2 ^ 24) % 256 ≠ 105 := by
  unfold last_char_not_i
  simp

/-- The hazard test in the words of the specification, for a slot whose
mnemonic is not empty. -/
theorem load_use_iff (alu mem : pipeline_t) (h : alu.stage.rtype.instruction ≠ []) :
    load_use alu mem = true ↔
      (alu.stage.rtype.reg1 = mem.stage.lw.dest_reg ∨
        (alu.stage.rtype.reg2_or_constant = mem.stage.lw.dest_reg ∧
          alu.stage.rtype.instruction.getLast? ≠ some 'i')) := by
  unfold load_use
  simp only [Bool.or_eq_true, Bool.and_eq_true, beq_iff_eq,
    last_char_not_i_of_ne_nil _ _ h]

/-- Cycles after step 3 and the kind left in MEM, when MEM holds a load. -/
theorem push_lw_cycles (s : State) (h : s.pipeline.MEM.itype = LW) :
    (push_lw s).pipeline_cycles =
      (if (iplc_sim_trap_address s s.pipeline.MEM.stage.lw.data_address).2 ≠ 0 then
          (if s.pipeline.ALU.itype = RTYPE ∧ load_use s.pipeline.ALU s.pipeline.MEM = true
            then uadd32 s.pipeline_cycles 1 else s.pipeline_cycles)
        else
          (if s.pipeline.ALU.itype = RTYPE ∧ load_use s.pipeline.ALU s.pipeline.MEM = true
            then usub32 (uadd32 (uadd32 s.pipeline_cycles (CACHE_MISS_DELAY - 1)) 1) 1
            else uadd32 s.pipeline_cycles (CACHE_MISS_DELAY - 1))) ∧
    (push_lw s).pipeline.MEM.itype ≠ SW := by
  obtain ⟨f1, f2, -⟩ := trap_frame s s.pipeline.MEM.stage.lw.data_address
  unfold push_lw
  simp only [h, if_true]
  split_ifs <;> simp_all [bzero_slot]


/-- Cycles charged by one advance when DECODE holds no branch and MEM a load. -/
theorem push_cycles_of_lw (s : State) (hd : s.pipeline.DECODE.itype ≠ BRANCH)
    (hm : s.pipeline.MEM.itype = LW) :
    (iplc_sim_push_pipeline_stage s).pipeline_cycles =
      uadd32
        (if (iplc_sim_trap_address s s.pipeline.MEM.stage.lw.data_address).2 ≠ 0 then
          (if s.pipeline.ALU.itype = RTYPE ∧ load_use s.pipeline.ALU s.pipeline.MEM = true
            then uadd32 s.pipeline_cycles 1 else s.pipeline_cycles)
        else
          (if s.pipeline.ALU.itype = RTYPE ∧ load_use s.pipeline.ALU s.pipeline.MEM = true
            then usub32 (uadd32 (uadd32 s.pipeline_cycles (CACHE_MISS_DELAY - 1)) 1) 1
            else uadd32 s.pipeline_cycles (CACHE_MISS_DELAY - 1))) 1 := by
  obtain ⟨r1, r2, r3, r4, r5, r6, -⟩ := push_retire_frame s
  unfold iplc_sim_push_pipeline_stage
  rw [push_branch_of_not_branch _ (by rw [r1]; exact hd)]
  obtain ⟨c1, c2⟩ := push_lw_cycles (push_retire s) (by rw [r1]; exact hm)
  rw [push_shift_cycles, push_sw_of_not_sw _ c2, c1, r1, r2,
    trap_ret_congr s (push_retire s) _ r3 r4 r5 r6]

/-- Load-use stall for an R-type with a non-empty mnemonic: when DECODE holds
no branch, MEM holds a load whose data address hits and ALU holds such an
R-type, one advance adds 2 to the cycle counter (modulo 2^32) if the R-type's
first source is the load's destination register, or its second source is and
the mnemonic does not end in `i`; otherwise it adds 1. -/
theorem load_use_stall (s : State)
    (hd : s.pipeline.DECODE.itype ≠ instruction_type.BRANCH)
    (hm : s.pipeline.MEM.itype = instruction_type.LW)
    (hhit : (iplc_sim_trap_address s s.pipeline.MEM.stage.lw.data_address).2 = 1)
    (ha : s.pipeline.ALU.itype = instruction_type.RTYPE)
    (hn : s.pipeline.ALU.stage.rtype.instruction ≠ []) :
    (iplc_sim_push_pipeline_stage s).pipeline_cycles =
      if s.pipeline.ALU.stage.rtype.reg1 = s.pipeline.MEM.stage.lw.dest_reg ∨
          (s.pipeline.ALU.stage.rtype.reg2_or_constant = s.pipeline.MEM.stage.lw.dest_reg ∧
            s.pipeline.ALU.stage.rtype.instruction.getLast? ≠ some 'i')
      then (s.pipeline_cycles + 2) % 2 ^ 32
      else (s.pipeline_cycles + 1) % 2 ^ 32 := by
  rw [push_cycles_of_lw s hd hm, hhit]
  simp only [ne_eq, one_ne_zero, not_false_eq_true, if_true, ha, true_and,
    load_use_iff _ _ hn]
  split_ifs
  · simp only [uadd32]
    omega
  · rfl

/-- Load-use stall for an R-type with an empty mnemonic: in the same states the
second-source test depends on the top byte of the R-type's address; one advance
adds 2 if the first source is the load's destination register, or the second
source is and that byte is not 0x69, and 1 otherwise. -/
theorem load_use_stall_unnamed (s : State)
    (hd : s.pipeline.DECODE.itype ≠ instruction_type.BRANCH)
    (hm : s.pipeline.MEM.itype = instruction_type.LW)
    (hhit : (iplc_sim_trap_address s s.pipeline.MEM.stage.lw.data_address).2 = 1)
    (ha : s.pipeline.ALU.itype = instruction_type.RTYPE)
    (hn : s.pipeline.ALU.stage.rtype.instruction = []) :
    (iplc_sim_push_pipeline_stage s).pipeline_cycles =
      if s.pipeline.ALU.stage.rtype.reg1 = s.pipeline.MEM.stage.lw.dest_reg ∨
          (s.pipeline.ALU.stage.rtype.reg2_or_constant = s.pipeline.MEM.stage.lw.dest_reg ∧
            (s.pipeline.ALU.instruction_address / 2 ^ 24) % 256 ≠ 105)
      then (s.pipeline_cycles + 2) % 2 ^ 32
      else (s.pipeline_cycles + 1) % 2 ^ 32 := by
  have e : load_use s.pipeline.ALU s.pipeline.MEM = true ↔
      (s.pipeline.ALU.stage.rtype.reg1 = s.pipeline.MEM.stage.lw.dest_reg ∨
        (s.pipeline.ALU.stage.rtype.reg2_or_constant = s.pipeline.MEM.stage.lw.dest_reg ∧
          (s.pipeline.ALU.instruction_address / 2 ^ 24) % 256 ≠ 105)) := by
    unfold load_use
    rw [hn]
    simp only [Bool.or_eq_true, Bool.and_eq_true, beq_iff_eq, last_char_not_i_nil]
  rw [push_cycles_of_lw s hd hm, hhit]
  simp only [ne_eq, one_ne_zero, not_false_eq_true, if_true, ha, true_and, e]
  split_ifs
  · simp only [uadd32]
    omega
  · rfl

/-- C9. Miss and load-use penalties overlap: when DECODE holds no branch and
MEM holds a load whose data address misses, one advance adds
`CACHE_MISS_DELAY = 10` to the cycle counter (modulo 2^32), whatever ALU
holds. -/
theorem miss_and_stall_overlap (s : State)
    (hd : s.pipeline.DECODE.itype ≠ instruction_type.BRANCH)
    (hm : s.pipeline.MEM.itype = instruction_type.LW)
    (hmiss : (iplc_sim_trap_address s s.pipeline.MEM.stage.lw.data_address).2 = 0) :
    (iplc_sim_push_pipeline_stage s).pipeline_cycles
      = (s.pipeline_cycles + CACHE_MISS_DELAY) % 2 ^ 32 ∧ CACHE_MISS_DELAY = 10 := by
  refine ⟨?_, rfl⟩
  rw [push_cycles_of_lw s hd hm, hmiss]
  simp only [ne_eq, not_true_eq_false, if_false]
  split_ifs <;> simp only [uadd32, usub32, CACHE_MISS_DELAY] <;> omega

theorem usub32_eq (a b : Nat) : ((usub32 a b : Nat) : Int) = ((a : Int) - (b : Int)) % 2 ^ 32 := by
  unfold usub32
  omega

/-- C10. Branch misprediction penalty: with the prediction fixed to not-taken,
when DECODE holds a branch at address `a`, FETCH holds an instruction at
address `f ≠ 0`, and neither ALU nor MEM holds a load or a store, one advance
adds 2 to the cycle counter (modulo 2^32) if `f - a ≠ 4` modulo 2^32 and adds 1
if `f - a = 4` modulo 2^32. -/
theorem branch_misprediction_penalty (s : State)
    (hp : s.branch_predict_taken = 0)
    (hd : s.pipeline.DECODE.itype = instruction_type.BRANCH)
    (hf : s.pipeline.FETCH.instruction_address ≠ 0)
    (ha1 : s.pipeline.ALU.itype ≠ instruction_type.LW)
    (ha2 : s.pipeline.ALU.itype ≠ instruction_type.SW)
    (hm1 : s.pipeline.MEM.itype ≠ instruction_type.LW)
    (hm2 : s.pipeline.MEM.itype ≠ instruction_type.SW) :
    (iplc_sim_push_pipeline_stage s).pipeline_cycles =
      if ((s.pipeline.FETCH.instruction_address : Int)
            - (s.pipeline.DECODE.instruction_address : Int)) % 2 ^ 32 ≠ 4
      then (s.pipeline_cycles + 2) % 2 ^ 32
      else (s.pipeline_cycles + 1) % 2 ^ 32 := by
  obtain ⟨r1, r2, -, -, -, -, r7⟩ := push_retire_frame s
  have hu := usub32_eq s.pipeline.FETCH.instruction_address s.pipeline.DECODE.instruction_address
  unfold iplc_sim_push_pipeline_stage
  by_cases h4 : usub32 s.pipeline.FETCH.instruction_address
      s.pipeline.DECODE.instruction_address = 4
  · -- sequential successor: the prediction is right
    have hc : ¬ (((s.pipeline.FETCH.instruction_address : Int)
            - (s.pipeline.DECODE.instruction_address : Int)) % 2 ^ 32 ≠ 4) := by
      rw [← hu, h4]
      simp
    rw [if_neg hc]
    have hb : push_branch (push_retire s) =
        { push_retire s with
          branch_count := uadd32 (push_retire s).branch_count 1
          correct_branch_predictions := uadd32 (push_retire s).correct_branch_predictions 1 } := by
      unfold push_branch
      simp [r1, r7, hd, hf, hp, h4]
    rw [hb, push_lw_of_not_lw _ (by simpa [r1] using hm1),
      push_sw_of_not_sw _ (by simpa [r1] using hm2), push_shift_cycles]
    simp only [r2, uadd32]
  · -- the successor is elsewhere: misprediction
    have hc : ((s.pipeline.FETCH.instruction_address : Int)
            - (s.pipeline.DECODE.instruction_address : Int)) % 2 ^ 32 ≠ 4 := by
      rw [← hu]
      intro h
      exact h4 (by exact_mod_cast h)
    rw [if_pos hc]
    have hb : (push_branch (push_retire s)).pipeline_cycles = uadd32 s.pipeline_cycles 1 ∧
        (push_branch (push_retire s)).pipeline.MEM = s.pipeline.ALU := by
      unfold push_branch
      simp only [r1, r7, hd, hf, hp, h4]
      constructor
      · split_ifs <;> simp_all
      · split_ifs <;> simp_all
    rw [push_lw_of_not_lw _ (by rw [hb.2]; exact ha1),
      push_sw_of_not_sw _ (by rw [hb.2]; exact ha2), push_shift_cycles, hb.1]
    simp only [uadd32]
    omega

/-! ## R-type traces and the drain -/

/-- One advance is a plain shift when DECODE holds no branch and MEM neither a
load nor a store. -/
theorem push_plain (s : State) (hd : s.pipeline.DECODE.itype ≠ BRANCH)
    (hm1 : s.pipeline.MEM.itype ≠ LW) (hm2 : s.pipeline.MEM.itype ≠ SW) :
    iplc_sim_push_pipeline_stage s = push_shift (push_retire s) := by
  obtain ⟨r1, -⟩ := push_retire_frame s
  unfold iplc_sim_push_pipeline_stage
  rw [push_branch_of_not_branch _ (by rw [r1]; exact hd),
    push_lw_of_not_lw _ (by rw [r1]; exact hm1), push_sw_of_not_sw _ (by rw [r1]; exact hm2)]

theorem plain_not_branch (p : pipeline_t) (h : plain_slot p) : p.itype ≠ BRANCH := by
  rcases h with h | h <;> rw [h] <;> decide

theorem plain_not_lw (p : pipeline_t) (h : plain_slot p) : p.itype ≠ LW := by
  rcases h with h | h <;> rw [h] <;> decide

theorem plain_not_sw (p : pipeline_t) (h : plain_slot p) : p.itype ≠ SW := by
  rcases h with h | h <;> rw [h] <;> decide

theorem plain_bzero : plain_slot bzero_slot := Or.inl rfl

/-- One advance of a pipeline of R-types and empties. -/
theorem push_of_plain (s : State) (h : plain_pipeline s) :
    (iplc_sim_push_pipeline_stage s).pipeline =
      { FETCH := bzero_slot, DECODE := s.pipeline.FETCH, ALU := s.pipeline.DECODE,
        MEM := s.pipeline.ALU, WRITEBACK := s.pipeline.MEM } ∧
    (iplc_sim_push_pipeline_stage s).pipeline_cycles = uadd32 s.pipeline_cycles 1 ∧
    plain_pipeline (iplc_sim_push_pipeline_stage s) := by
  obtain ⟨hF, hD, hA, hM, hW⟩ := h
  obtain ⟨r1, r2, -⟩ := push_retire_frame s
  rw [push_plain s (plain_not_branch _ hD) (plain_not_lw _ hM) (plain_not_sw _ hM)]
  have hp : (push_shift (push_retire s)).pipeline =
      { FETCH := bzero_slot, DECODE := s.pipeline.FETCH, ALU := s.pipeline.DECODE,
        MEM := s.pipeline.ALU, WRITEBACK := s.pipeline.MEM } := by
    simp [push_shift, r1]
  refine ⟨hp, by rw [push_shift_cycles, r2], ?_⟩
  unfold plain_pipeline
  rw [hp]
  exact ⟨plain_bzero, hF, hD, hA, hM⟩

theorem finalize_idle (fuel : Nat) (s : State) (h : pipeline_busy s = false) :
    iplc_sim_finalize fuel s = some s := by
  cases fuel <;> simp [iplc_sim_finalize, h]

theorem finalize_busy (fuel : Nat) (s : State) (h : pipeline_busy s = true) :
    iplc_sim_finalize (fuel + 1) s = iplc_sim_finalize fuel (iplc_sim_push_pipeline_stage s) := by
  simp [iplc_sim_finalize, h]

/-- The drain of a pipeline of R-types and empties whose FETCH slot holds an
R-type: five advances, and the loop stops. -/
theorem drain_of_plain (s : State) (h : plain_pipeline s)
    (hf : s.pipeline.FETCH.itype = RTYPE) (fuel : Nat) (hfuel : 5 ≤ fuel) :
    ∃ t, iplc_sim_finalize fuel s = some t ∧
      t.pipeline_cycles = (s.pipeline_cycles + 5) % 2 ^ 32 := by
  obtain ⟨k, rfl⟩ : ∃ k, fuel = k + 5 := ⟨fuel - 5, by omega⟩
  obtain ⟨p1, c1, h1⟩ := push_of_plain s h
  obtain ⟨p2, c2, h2⟩ := push_of_plain _ h1
  obtain ⟨p3, c3, h3⟩ := push_of_plain _ h2
  obtain ⟨p4, c4, h4⟩ := push_of_plain _ h3
  obtain ⟨p5, c5, -⟩ := push_of_plain _ h4
  have b0 : pipeline_busy s = true := by simp [pipeline_busy, hf]
  have b1 : pipeline_busy (iplc_sim_push_pipeline_stage s) = true := by
    simp [pipeline_busy, p1, hf]
  have b2 : pipeline_busy (iplc_sim_push_pipeline_stage (iplc_sim_push_pipeline_stage s))
      = true := by
    simp [pipeline_busy, p2, p1, hf]
  have b3 : pipeline_busy (iplc_sim_push_pipeline_stage (iplc_sim_push_pipeline_stage
      (iplc_sim_push_pipeline_stage s))) = true := by
    simp [pipeline_busy, p3, p2, p1, hf]
  have b4 : pipeline_busy (iplc_sim_push_pipeline_stage (iplc_sim_push_pipeline_stage
      (iplc_sim_push_pipeline_stage (iplc_sim_push_pipeline_stage s)))) = true := by
    simp [pipeline_busy, p4, p3, p2, p1, hf]
  have b5 : pipeline_busy (iplc_sim_push_pipeline_stage (iplc_sim_push_pipeline_stage
      (iplc_sim_push_pipeline_stage (iplc_sim_push_pipeline_stage
        (iplc_sim_push_pipeline_stage s))))) = false := by
    simp [pipeline_busy, p5, p4, p3, p2, p1, bzero_slot]
  refine ⟨iplc_sim_push_pipeline_stage (iplc_sim_push_pipeline_stage
      (iplc_sim_push_pipeline_stage (iplc_sim_push_pipeline_stage
        (iplc_sim_push_pipeline_stage s)))), ?_, ?_⟩
  · rw [show k + 5 = k + 4 + 1 from rfl, finalize_busy _ _ b0,
      show k + 4 = k + 3 + 1 from rfl, finalize_busy _ _ b1,
      show k + 3 = k + 2 + 1 from rfl, finalize_busy _ _ b2,
      show k + 2 = k + 1 + 1 from rfl, finalize_busy _ _ b3,
      finalize_busy _ _ b4, finalize_idle _ _ b5]
  · rw [c5, c4, c3, c2, c1]
    simp only [uadd32]
    omega

/-- The dispatch of an R-type into a pipeline of R-types and empties. -/
theorem rtype_dispatch_of_plain (s : State) (o : Op) (ho : is_rtype_dispatch o = true)
    (h : plain_pipeline s) :
    plain_pipeline (step s o) ∧ (step s o).pipeline.FETCH.itype = RTYPE ∧
      (step s o).pipeline_cycles = uadd32 s.pipeline_cycles 1 := by
  cases o with
  | probe a => exact absurd ho (by simp [is_rtype_dispatch])
  | advance => exact absurd ho (by simp [is_rtype_dispatch])
  | parse a d => exact absurd ho (by simp [is_rtype_dispatch])
  | dispatch a d =>
    cases d with
    | rtype m dr r1 r2 =>
      have hs : plain_pipeline { s with instruction_address := a } := h
      obtain ⟨p1, c1, h1⟩ := push_of_plain _ hs
      obtain ⟨-, hD, hA, hM, hW⟩ := h1
      refine ⟨⟨Or.inr rfl, hD, hA, hM, hW⟩, rfl, c1⟩
    | lw _ _ _ => exact absurd ho (by simp [is_rtype_dispatch])
    | sw _ _ _ => exact absurd ho (by simp [is_rtype_dispatch])
    | branch _ _ => exact absurd ho (by simp [is_rtype_dispatch])
    | jump _ => exact absurd ho (by simp [is_rtype_dispatch])
    | syscall => exact absurd ho (by simp [is_rtype_dispatch])
    | nop => exact absurd ho (by simp [is_rtype_dispatch])

theorem rtype_run_of_plain (ops : List Op) : ∀ (s : State),
    (∀ o ∈ ops, is_rtype_dispatch o = true) → plain_pipeline s →
    (ops ≠ [] ∨ s.pipeline.FETCH.itype = RTYPE) →
    plain_pipeline (run s ops) ∧ (run s ops).pipeline.FETCH.itype = RTYPE ∧
      (run s ops).pipeline_cycles = (s.pipeline_cycles + ops.length) % 2 ^ 32
        ∨ (ops = [] ∧ run s ops = s) := by
  induction ops with
  | nil =>
    intro s _ _ _
    exact Or.inr ⟨rfl, rfl⟩
  | cons o os ih =>
    intro s hall hs _
    obtain ⟨h1, h2, h3⟩ := rtype_dispatch_of_plain s o (hall o (List.mem_cons_self o os)) hs
    left
    rw [run]
    rcases ih (step s o) (fun x hx => hall x (List.mem_cons_of_mem o hx)) h1 (Or.inr h2) with
      ⟨g1, g2, g3⟩ | ⟨g1, g2⟩
    · refine ⟨g1, g2, ?_⟩
      rw [g3, h3, List.length_cons]
      simp only [uadd32]
      omega
    · subst g1
      rw [g2]
      refine ⟨h1, h2, ?_⟩
      rw [h3, List.length_cons, List.length_nil]
      rfl

theorem init_pipeline (g : State) (heap : Nat → cache_line_t) (index blocksize assoc : Int)
    (s0 : State) (h : iplc_sim_init g heap index blocksize assoc = some s0) :
    s0.pipeline = { FETCH := bzero_slot, DECODE := bzero_slot, ALU := bzero_slot,
                    MEM := bzero_slot, WRITEBACK := bzero_slot } ∧
    s0.pipeline_cycles = g.pipeline_cycles := by
  unfold iplc_sim_init at h
  simp only [] at h
  split_ifs at h
  cases h
  exact ⟨rfl, rfl⟩

/-- C7 (counterexample). One R-type instruction dispatched into the freshly
configured simulator and then drained leaves the cycle counter at 6, not at
`1 + 4`. -/
theorem one_rtype_takes_six_cycles :
    (iplc_sim_finalize 5
        (run (configured 2 1 1 0) [Op.dispatch 0x400 (Decoded.rtype ['a', 'd', 'd'] 1 2 3)])).map
      State.pipeline_cycles = some 6 ∧
    (iplc_sim_finalize 5
        (run (configured 2 1 1 0) [Op.dispatch 0x400 (Decoded.rtype ['a', 'd', 'd'] 1 2 3)])).map
      State.pipeline_cycles ≠ some (1 + 4) := by
  decide

/-- C7 (amended). Cycle accounting: from a freshly configured simulator (cycle
counter 0), the dispatch of `N ≥ 1` R-type instructions followed by the drain
of `iplc_sim_finalize` (which stops, given at least 5 advances) leaves the
cycle counter at `N + 5` (modulo 2^32): 6 for `N = 1` and 10 for `N = 5`. -/
theorem rtype_cycle_accounting (p : Nat) (heap : Nat → cache_line_t)
    (index blocksize assoc : Int) (s0 : State)
    (hinit : iplc_sim_init (globals p) heap index blocksize assoc = some s0)
    (ops : List Op) (hops : ∀ o ∈ ops, is_rtype_dispatch o = true) (hN : 1 ≤ ops.length)
    (fuel : Nat) (hfuel : 5 ≤ fuel) :
    ∃ t, iplc_sim_finalize fuel (run s0 ops) = some t ∧
      t.pipeline_cycles = (ops.length + 5) % 2 ^ 32 := by
  obtain ⟨hp, hc⟩ := init_pipeline _ _ _ _ _ _ hinit
  have hplain : plain_pipeline s0 := by
    unfold plain_pipeline
    rw [hp]
    exact ⟨plain_bzero, plain_bzero, plain_bzero, plain_bzero, plain_bzero⟩
  have hne : ops ≠ [] := by
    intro h
    rw [h] at hN
    simp at hN
  rcases rtype_run_of_plain ops s0 hops hplain (Or.inl hne) with ⟨g1, g2, g3⟩ | ⟨g1, -⟩
  · obtain ⟨t, ht, hcyc⟩ := drain_of_plain _ g1 g2 fuel hfuel
    refine ⟨t, ht, ?_⟩
    rw [hcyc, g3, hc]
    have : (globals p).pipeline_cycles = 0 := rfl
    rw [this]
    omega
  · exact absurd g1 hne

theorem rtype_cycle_accounting_witness :
    ∃ t, iplc_sim_finalize 5 (run (configured 2 1 1 0)
        (List.replicate 5 (Op.dispatch 0x400 (Decoded.rtype ['a', 'd', 'd'] 1 2 3)))) = some t ∧
      t.pipeline_cycles = 10 :=
  rtype_cycle_accounting 0 zero_heap 2 1 1 (configured 2 1 1 0) rfl
    (List.replicate 5 (Op.dispatch 0x400 (Decoded.rtype ['a', 'd', 'd'] 1 2 3)))
    (by decide) (by decide) 5 (by decide)

set_option maxRecDepth 100000 in
theorem load_use_stall_witness :
    (iplc_sim_push_pipeline_stage
        (run (configured 2 1 1 0) (Op.probe 0x1000 :: load_then_rtype 0x1000 5))).pipeline_cycles = 6 ∧
    (iplc_sim_push_pipeline_stage
        (run (configured 2 1 1 0) (Op.probe 0x1000 :: load_then_rtype 0x1000 7))).pipeline_cycles = 5 :=
  ⟨(load_use_stall (run (configured 2 1 1 0) (Op.probe 0x1000 :: load_then_rtype 0x1000 5))
      (by decide) (by decide) (by decide) (by decide) (by decide)).trans (by decide),
   (load_use_stall (run (configured 2 1 1 0) (Op.probe 0x1000 :: load_then_rtype 0x1000 7))
      (by decide) (by decide) (by decide) (by decide) (by decide)).trans (by decide)⟩

set_option maxRecDepth 100000 in
theorem load_use_stall_unnamed_witness :
    (iplc_sim_push_pipeline_stage
        (run (configured 2 1 1 0)
          (Op.probe 0x1000 :: load_then_unnamed_rtype 0x1000 0x404))).pipeline_cycles = 6 :=
  (load_use_stall_unnamed
      (run (configured 2 1 1 0) (Op.probe 0x1000 :: load_then_unnamed_rtype 0x1000 0x404))
      (by decide) (by decide) (by decide) (by decide) (by decide)).trans (by decide)

set_option maxRecDepth 100000 in
theorem miss_and_stall_overlap_witness :
    (iplc_sim_push_pipeline_stage
        (run (configured 2 1 1 0) (load_then_rtype 0x1000 5))).pipeline_cycles = 14 ∧
    (iplc_sim_push_pipeline_stage
        (run (configured 2 1 1 0) (load_then_rtype 0x1000 7))).pipeline_cycles = 14 :=
  ⟨(miss_and_stall_overlap (run (configured 2 1 1 0) (load_then_rtype 0x1000 5))
      (by decide) (by decide) (by decide)).1.trans (by decide),
   (miss_and_stall_overlap (run (configured 2 1 1 0) (load_then_rtype 0x1000 7))
      (by decide) (by decide) (by decide)).1.trans (by decide)⟩

theorem branch_misprediction_penalty_witness :
    (iplc_sim_push_pipeline_stage (run (configured 2 1 1 0) (branch_then 0x500))).pipeline_cycles = 4 ∧
    (iplc_sim_push_pipeline_stage (run (configured 2 1 1 0) (branch_then 0x404))).pipeline_cycles = 3 :=
  ⟨branch_misprediction_penalty (run (configured 2 1 1 0) (branch_then 0x500))
      (by decide) (by decide) (by decide) (by decide) (by decide) (by decide) (by decide),
   branch_misprediction_penalty (run (configured 2 1 1 0) (branch_then 0x404))
      (by decide) (by decide) (by decide) (by decide) (by decide) (by decide) (by decide)⟩

/-! ## The effect of one advance on the slots and on the retire counter -/

theorem push_retire_eq (s : State) :
    push_retire s =
      { s with instruction_count :=
          if s.pipeline.WRITEBACK.instruction_address ≠ 0 then uadd32 s.instruction_count 1
          else s.instruction_count } := by
  unfold push_retire
  split <;> rfl

/-- Step 2 on a misprediction. -/
theorem push_branch_mis (s : State) (h : mispredict s) :
    push_branch s =
      { s with
        branch_count := uadd32 s.branch_count 1
        pipeline_cycles := uadd32 s.pipeline_cycles 1
        instruction_count :=
          if s.pipeline.MEM.instruction_address ≠ 0 then uadd32 s.instruction_count 1
          else s.instruction_count
        pipeline :=
          { FETCH := s.pipeline.FETCH, DECODE := bzero_slot, ALU := s.pipeline.DECODE,
            MEM := s.pipeline.ALU, WRITEBACK := s.pipeline.MEM } } := by
  obtain ⟨h1, h2, h3⟩ := h
  unfold push_branch
  simp only [h1, h2, if_true, ne_eq, not_false_eq_true, true_and]
  have h3' : ¬ ((if ¬ usub32 s.pipeline.FETCH.instruction_address
      s.pipeline.DECODE.instruction_address = 4 then 1 else 0) = s.branch_predict_taken) := h3
  rw [if_pos h3']
  split <;> rfl

/-- Step 2 without a misprediction moves no slot and charges nothing. -/
theorem push_branch_nomis (s : State) (h : ¬ mispredict s) :
    (push_branch s).pipeline = s.pipeline ∧
    (push_branch s).instruction_count = s.instruction_count ∧
    (push_branch s).pipeline_cycles = s.pipeline_cycles ∧
    (push_branch s).cache = s.cache ∧
    (push_branch s).cache_assoc = s.cache_assoc ∧
    (push_branch s).cache_index = s.cache_index ∧
    (push_branch s).cache_blockoffsetbits = s.cache_blockoffsetbits := by
  unfold mispredict at h
  unfold push_branch
  by_cases h1 : s.pipeline.DECODE.itype = BRANCH
  · by_cases h2 : s.pipeline.FETCH.instruction_address ≠ 0
    · have h3 : ¬ ((if ¬ usub32 s.pipeline.FETCH.instruction_address
          s.pipeline.DECODE.instruction_address = 4 then 1 else 0) ≠ s.branch_predict_taken) := by
        intro h3
        exact h ⟨h1, h2, h3⟩
      simp only [h1, h2, if_true, ne_eq, not_false_eq_true, true_and]
      rw [if_neg h3]
      simp
    · simp only [h1, h2, if_true, false_and, if_false]
      simp
  · simp [h1]

/-- The correct-prediction counter after step 2. -/
theorem push_branch_correct (s : State) :
    (predicted s →
      (push_branch s).correct_branch_predictions = uadd32 s.correct_branch_predictions 1) ∧
    (¬ predicted s → (push_branch s).correct_branch_predictions = s.correct_branch_predictions) := by
  unfold predicted
  unfold push_branch
  constructor
  · rintro ⟨h1, h2, h3⟩
    have h3' : ¬ ((if ¬ usub32 s.pipeline.FETCH.instruction_address
        s.pipeline.DECODE.instruction_address = 4 then 1 else 0) ≠ s.branch_predict_taken) := by
      intro hc
      exact hc h3
    simp only [h1, h2, if_true, ne_eq, not_false_eq_true, true_and]
    rw [if_neg h3']
  · intro h
    by_cases h1 : s.pipeline.DECODE.itype = BRANCH
    · by_cases h2 : s.pipeline.FETCH.instruction_address ≠ 0
      · have h3 : (if ¬ usub32 s.pipeline.FETCH.instruction_address
            s.pipeline.DECODE.instruction_address = 4 then 1 else 0) ≠ s.branch_predict_taken := by
          intro h3
          exact h ⟨h1, h2, h3⟩
        simp only [h1, h2, if_true, ne_eq, not_false_eq_true, true_and]
        rw [if_pos h3]
        split <;> rfl
      · simp only [h1, h2, if_true, false_and, if_false]
    · simp [h1]

/-- Step 3 when the load-use stall is inserted. -/
theorem push_lw_stall (s : State) (h : stall_inserted s) :
    (push_lw s).pipeline = { s.pipeline with WRITEBACK := s.pipeline.MEM, MEM := bzero_slot } ∧
    (push_lw s).instruction_count =
      if s.pipeline.MEM.instruction_address ≠ 0 then uadd32 s.instruction_count 1
      else s.instruction_count := by
  obtain ⟨h1, h2, h3⟩ := h
  obtain ⟨f1, f2, f3, -⟩ := trap_frame s s.pipeline.MEM.stage.lw.data_address
  unfold push_lw
  simp only [h1, if_true]
  split_ifs <;> simp_all

/-- Step 3 when no stall is inserted. -/
theorem push_lw_nostall (s : State) (h : ¬ stall_inserted s) :
    (push_lw s).pipeline = s.pipeline ∧ (push_lw s).instruction_count = s.instruction_count := by
  unfold stall_inserted at h
  obtain ⟨f1, f2, f3, -⟩ := trap_frame s s.pipeline.MEM.stage.lw.data_address
  unfold push_lw
  simp only []
  split_ifs <;> simp_all

theorem push_sw_frame (s : State) :
    (push_sw s).pipeline = s.pipeline ∧ (push_sw s).instruction_count = s.instruction_count ∧
    (push_sw s).correct_branch_predictions = s.correct_branch_predictions ∧
    (push_sw s).branch_count = s.branch_count := by
  obtain ⟨f1, f2, f3, f4, f5, f6, -⟩ := trap_frame s s.pipeline.MEM.stage.sw.data_address
  unfold push_sw
  simp only []
  split_ifs <;> simp_all

theorem push_lw_branch_counters (s : State) :
    (push_lw s).correct_branch_predictions = s.correct_branch_predictions ∧
    (push_lw s).branch_count = s.branch_count := by
  obtain ⟨f1, f2, f3, f4, f5, f6, -⟩ := trap_frame s s.pipeline.MEM.stage.lw.data_address
  unfold push_lw
  simp only []
  split_ifs <;> simp_all


theorem push_shift_pipeline (s : State) :
    (push_shift s).pipeline =
      { FETCH := bzero_slot, DECODE := s.pipeline.FETCH, ALU := s.pipeline.DECODE,
        MEM := s.pipeline.ALU, WRITEBACK := s.pipeline.MEM } := rfl

theorem push_shift_count (s : State) :
    (push_shift s).instruction_count = s.instruction_count := rfl

/-- One advance on a misprediction: slots and retire counter. -/
theorem push_of_mispredict (s : State) (h : mispredict s) :
    (iplc_sim_push_pipeline_stage s).pipeline =
      { FETCH := bzero_slot, DECODE := s.pipeline.FETCH, ALU := bzero_slot,
        MEM := s.pipeline.DECODE, WRITEBACK := s.pipeline.ALU } ∧
    (iplc_sim_push_pipeline_stage s).instruction_count =
      (if s.pipeline.MEM.instruction_address ≠ 0 then
        uadd32 (if s.pipeline.WRITEBACK.instruction_address ≠ 0
          then uadd32 s.instruction_count 1 else s.instruction_count) 1
      else (if s.pipeline.WRITEBACK.instruction_address ≠ 0
          then uadd32 s.instruction_count 1 else s.instruction_count)) := by
  have hm : mispredict (push_retire s) := by
    rw [push_retire_eq]
    exact h
  have hb := push_branch_mis _ hm
  have hns : ¬ stall_inserted (push_branch (push_retire s)) := by
    rw [hb]
    rintro ⟨-, h2, -⟩
    have h3 : (push_retire s).pipeline.DECODE.itype = RTYPE := h2
    rw [hm.1] at h3
    cases h3
  obtain ⟨l1, l2⟩ := push_lw_nostall _ hns
  obtain ⟨w1, w2, -⟩ := push_sw_frame (push_lw (push_branch (push_retire s)))
  unfold iplc_sim_push_pipeline_stage
  constructor
  · rw [push_shift_pipeline, w1, l1, hb, push_retire_eq]
  · rw [push_shift_count, w2, l2, hb, push_retire_eq]

/-- One advance with a load-use stall and no misprediction. -/
theorem push_of_stall (s : State) (h1 : ¬ mispredict s) (h2 : stall_inserted s) :
    (iplc_sim_push_pipeline_stage s).pipeline =
      { FETCH := bzero_slot, DECODE := s.pipeline.FETCH, ALU := s.pipeline.DECODE,
        MEM := s.pipeline.ALU, WRITEBACK := bzero_slot } ∧
    (iplc_sim_push_pipeline_stage s).instruction_count =
      (if s.pipeline.MEM.instruction_address ≠ 0 then
        uadd32 (if s.pipeline.WRITEBACK.instruction_address ≠ 0
          then uadd32 s.instruction_count 1 else s.instruction_count) 1
      else (if s.pipeline.WRITEBACK.instruction_address ≠ 0
          then uadd32 s.instruction_count 1 else s.instruction_count)) := by
  have hm : ¬ mispredict (push_retire s) := by
    rw [push_retire_eq]
    exact h1
  obtain ⟨b1, b2, -⟩ := push_branch_nomis _ hm
  have hs : stall_inserted (push_branch (push_retire s)) := by
    unfold stall_inserted
    rw [b1, push_retire_eq]
    exact h2
  obtain ⟨l1, l2⟩ := push_lw_stall _ hs
  obtain ⟨w1, w2, -⟩ := push_sw_frame (push_lw (push_branch (push_retire s)))
  unfold iplc_sim_push_pipeline_stage
  constructor
  · rw [push_shift_pipeline, w1, l1, b1, push_retire_eq]
  · rw [push_shift_count, w2, l2, b1, b2, push_retire_eq]

/-- One advance with neither a misprediction nor a load-use stall. -/
theorem push_of_quiet (s : State) (h1 : ¬ mispredict s) (h2 : ¬ stall_inserted s) :
    (iplc_sim_push_pipeline_stage s).pipeline =
      { FETCH := bzero_slot, DECODE := s.pipeline.FETCH, ALU := s.pipeline.DECODE,
        MEM := s.pipeline.ALU, WRITEBACK := s.pipeline.MEM } ∧
    (iplc_sim_push_pipeline_stage s).instruction_count =
      (if s.pipeline.WRITEBACK.instruction_address ≠ 0
          then uadd32 s.instruction_count 1 else s.instruction_count) := by
  have hm : ¬ mispredict (push_retire s) := by
    rw [push_retire_eq]
    exact h1
  obtain ⟨b1, b2, -⟩ := push_branch_nomis _ hm
  have hs : ¬ stall_inserted (push_branch (push_retire s)) := by
    unfold stall_inserted
    rw [b1, push_retire_eq]
    exact h2
  obtain ⟨l1, l2⟩ := push_lw_nostall _ hs
  obtain ⟨w1, w2, -⟩ := push_sw_frame (push_lw (push_branch (push_retire s)))
  unfold iplc_sim_push_pipeline_stage
  constructor
  · rw [push_shift_pipeline, w1, l1, b1, push_retire_eq]
  · rw [push_shift_count, w2, l2, b2, push_retire_eq]

theorem push_shift_correct (s : State) :
    (push_shift s).correct_branch_predictions = s.correct_branch_predictions := rfl

/-- C11. Correct-prediction accounting: one advance adds one (modulo 2^32) to
`correct_branch_predictions` if and only if DECODE holds a branch, FETCH holds
an address other than 0 and the inferred outcome (1 when the FETCH address
minus the DECODE address is not 4 modulo 2^32, else 0) equals
`branch_predict_taken`; otherwise the counter is unchanged.  In the first case
step 2 charges no cycle and moves no slot. -/
theorem correct_prediction_accounting (s : State) :
    ((iplc_sim_push_pipeline_stage s).correct_branch_predictions
        = (s.correct_branch_predictions + 1) % 2 ^ 32 ↔
      (s.pipeline.DECODE.itype = instruction_type.BRANCH ∧
        s.pipeline.FETCH.instruction_address ≠ 0 ∧
        (if usub32 s.pipeline.FETCH.instruction_address s.pipeline.DECODE.instruction_address ≠ 4
          then 1 else 0) = s.branch_predict_taken)) ∧
    (¬ (s.pipeline.DECODE.itype = instruction_type.BRANCH ∧
        s.pipeline.FETCH.instruction_address ≠ 0 ∧
        (if usub32 s.pipeline.FETCH.instruction_address s.pipeline.DECODE.instruction_address ≠ 4
          then 1 else 0) = s.branch_predict_taken) →
      (iplc_sim_push_pipeline_stage s).correct_branch_predictions
        = s.correct_branch_predictions) ∧
    ((s.pipeline.DECODE.itype = instruction_type.BRANCH ∧
        s.pipeline.FETCH.instruction_address ≠ 0 ∧
        (if usub32 s.pipeline.FETCH.instruction_address s.pipeline.DECODE.instruction_address ≠ 4
          then 1 else 0) = s.branch_predict_taken) →
      (push_branch (push_retire s)).pipeline = s.pipeline ∧
      (push_branch (push_retire s)).pipeline_cycles = s.pipeline_cycles) := by
  have hc : (iplc_sim_push_pipeline_stage s).correct_branch_predictions
      = (push_branch (push_retire s)).correct_branch_predictions := by
    unfold iplc_sim_push_pipeline_stage
    rw [push_shift_correct, (push_sw_frame _).2.2.1, (push_lw_branch_counters _).1]
  have hr : predicted (push_retire s) ↔ predicted s := by
    rw [push_retire_eq]
    exact Iff.rfl
  have hrc : (push_retire s).correct_branch_predictions = s.correct_branch_predictions := by
    rw [push_retire_eq]
  obtain ⟨p1, p2⟩ := push_branch_correct (push_retire s)
  have hyes : predicted s → (iplc_sim_push_pipeline_stage s).correct_branch_predictions
      = (s.correct_branch_predictions + 1) % 2 ^ 32 := by
    intro h
    rw [hc, p1 (hr.2 h), hrc]
    rfl
  have hno : ¬ predicted s → (iplc_sim_push_pipeline_stage s).correct_branch_predictions
      = s.correct_branch_predictions := by
    intro h
    rw [hc, p2 (fun h' => h (hr.1 h')), hrc]
  refine ⟨⟨?_, hyes⟩, hno, ?_⟩
  · intro h
    by_contra hn
    rw [hno hn] at h
    omega
  · intro h
    have hnm : ¬ mispredict (push_retire s) := by
      rw [push_retire_eq]
      rintro ⟨-, -, h3⟩
      exact h3 h.2.2
    obtain ⟨b1, -, b3, -⟩ := push_branch_nomis _ hnm
    rw [b1, b3, push_retire_eq]
    exact ⟨rfl, rfl⟩

/-- C18. Plain stage shift: when DECODE holds no branch and MEM neither a load
nor a store, one advance moves MEM to WRITEBACK, ALU to MEM, DECODE to ALU,
FETCH to DECODE and leaves the all-zero slot in FETCH; it adds 1 to the cycle
counter and adds 1 to the retire counter exactly when the old WRITEBACK address
is not 0 (both modulo 2^32); the cache, the cache counters and the branch
counters are unchanged. -/
theorem plain_stage_shift (s : State)
    (hd : s.pipeline.DECODE.itype ≠ instruction_type.BRANCH)
    (hm1 : s.pipeline.MEM.itype ≠ instruction_type.LW)
    (hm2 : s.pipeline.MEM.itype ≠ instruction_type.SW) :
    (iplc_sim_push_pipeline_stage s).pipeline =
      { FETCH := bzero_slot, DECODE := s.pipeline.FETCH, ALU := s.pipeline.DECODE,
        MEM := s.pipeline.ALU, WRITEBACK := s.pipeline.MEM } ∧
    (bzero_slot.itype = instruction_type.NOP ∧ bzero_slot.instruction_address = 0) ∧
    (iplc_sim_push_pipeline_stage s).pipeline_cycles = (s.pipeline_cycles + 1) % 2 ^ 32 ∧
    (iplc_sim_push_pipeline_stage s).instruction_count =
      (if s.pipeline.WRITEBACK.instruction_address ≠ 0 then (s.instruction_count + 1) % 2 ^ 32
        else s.instruction_count) ∧
    (iplc_sim_push_pipeline_stage s).cache = s.cache ∧
    (iplc_sim_push_pipeline_stage s).cache_access = s.cache_access ∧
    (iplc_sim_push_pipeline_stage s).cache_hit = s.cache_hit ∧
    (iplc_sim_push_pipeline_stage s).cache_miss = s.cache_miss ∧
    (iplc_sim_push_pipeline_stage s).branch_count = s.branch_count ∧
    (iplc_sim_push_pipeline_stage s).correct_branch_predictions
      = s.correct_branch_predictions := by
  rw [push_plain s hd hm1 hm2, push_retire_eq]
  exact ⟨rfl, ⟨rfl, rfl⟩, rfl, rfl, rfl, rfl, rfl, rfl, rfl, rfl⟩

/-- C19. Misprediction post-state: when DECODE holds a branch, FETCH an
address other than 0 and the inferred outcome differs from
`branch_predict_taken`, the slots after one advance are WRITEBACK = old ALU,
MEM = old DECODE, ALU = the all-zero slot, DECODE = old FETCH, FETCH = the
all-zero slot; the retire counter has gained 1 if the old WRITEBACK address is
not 0 and 1 more if the old MEM address is not 0 (modulo 2^32). -/
theorem misprediction_post_state (s : State)
    (hd : s.pipeline.DECODE.itype = instruction_type.BRANCH)
    (hf : s.pipeline.FETCH.instruction_address ≠ 0)
    (ho : (if usub32 s.pipeline.FETCH.instruction_address s.pipeline.DECODE.instruction_address ≠ 4
          then 1 else 0) ≠ s.branch_predict_taken) :
    (iplc_sim_push_pipeline_stage s).pipeline =
      { FETCH := bzero_slot, DECODE := s.pipeline.FETCH, ALU := bzero_slot,
        MEM := s.pipeline.DECODE, WRITEBACK := s.pipeline.ALU } ∧
    (iplc_sim_push_pipeline_stage s).instruction_count =
      (if s.pipeline.MEM.instruction_address ≠ 0 then
        ((if s.pipeline.WRITEBACK.instruction_address ≠ 0
          then (s.instruction_count + 1) % 2 ^ 32 else s.instruction_count) + 1) % 2 ^ 32
      else (if s.pipeline.WRITEBACK.instruction_address ≠ 0
          then (s.instruction_count + 1) % 2 ^ 32 else s.instruction_count)) ∧
    (iplc_sim_push_pipeline_stage s).instruction_count % 2 ^ 32 =
      (s.instruction_count + occupied s.pipeline.WRITEBACK + occupied s.pipeline.MEM) % 2 ^ 32 := by
  obtain ⟨h1, h2⟩ := push_of_mispredict s ⟨hd, hf, ho⟩
  refine ⟨h1, h2, ?_⟩
  rw [h2]
  unfold occupied uadd32
  split_ifs <;> omega

set_option maxRecDepth 100000 in
theorem correct_prediction_accounting_witness :
    (iplc_sim_push_pipeline_stage
        (run (configured 2 1 1 0) (branch_then 0x404))).correct_branch_predictions = 1 ∧
    (iplc_sim_push_pipeline_stage
        (run (configured 2 1 1 0) (branch_then 0x500))).correct_branch_predictions = 0 :=
  ⟨((correct_prediction_accounting (run (configured 2 1 1 0) (branch_then 0x404))).1.2
      (by decide)).trans (by decide),
   ((correct_prediction_accounting (run (configured 2 1 1 0) (branch_then 0x500))).2.1
      (by decide)).trans (by decide)⟩

set_option maxRecDepth 100000 in
theorem plain_stage_shift_witness :
    (iplc_sim_push_pipeline_stage
        (run (configured 2 1 1 0) [Op.dispatch 0x400 (Decoded.rtype ['a', 'd', 'd'] 1 2 3)])).pipeline
      = { FETCH := bzero_slot,
          DECODE := (run (configured 2 1 1 0)
            [Op.dispatch 0x400 (Decoded.rtype ['a', 'd', 'd'] 1 2 3)]).pipeline.FETCH,
          ALU := bzero_slot, MEM := bzero_slot, WRITEBACK := bzero_slot } :=
  ((plain_stage_shift (run (configured 2 1 1 0)
      [Op.dispatch 0x400 (Decoded.rtype ['a', 'd', 'd'] 1 2 3)])
    (by decide) (by decide) (by decide)).1).trans (by decide)

set_option maxRecDepth 100000 in
theorem misprediction_post_state_witness :
    (iplc_sim_push_pipeline_stage (run (configured 2 1 1 0) (branch_then 0x500))).pipeline
      = { FETCH := bzero_slot,
          DECODE := (run (configured 2 1 1 0) (branch_then 0x500)).pipeline.FETCH,
          ALU := bzero_slot,
          MEM := (run (configured 2 1 1 0) (branch_then 0x500)).pipeline.DECODE,
          WRITEBACK := bzero_slot } :=
  ((misprediction_post_state (run (configured 2 1 1 0) (branch_then 0x500))
    (by decide) (by decide) (by decide)).1).trans (by decide)

/-! ## The drain -/

/-- One advance empties one more slot, counted from FETCH. -/
theorem push_empty_upto (k : Nat) (s : State) (h : empty_upto k s) :
    empty_upto (k + 1) (iplc_sim_push_pipeline_stage s) := by
  obtain ⟨e1, e2, e3, e4, e5⟩ := h
  unfold empty_upto
  by_cases hm : mispredict s
  · rw [(push_of_mispredict s hm).1]
    refine ⟨fun _ => rfl, fun h => e1 (by omega), fun _ => rfl, fun h => e2 (by omega),
      fun h => e3 (by omega)⟩
  · by_cases hs : stall_inserted s
    · rw [(push_of_stall s hm hs).1]
      refine ⟨fun _ => rfl, fun h => e1 (by omega), fun h => e2 (by omega),
        fun h => e3 (by omega), fun _ => rfl⟩
    · rw [(push_of_quiet s hm hs).1]
      refine ⟨fun _ => rfl, fun h => e1 (by omega), fun h => e2 (by omega),
        fun h => e3 (by omega), fun h => e4 (by omega)⟩

theorem busy_false_iff (s : State) :
    pipeline_busy s = false ↔
      (s.pipeline.FETCH.itype = NOP ∧ s.pipeline.DECODE.itype = NOP ∧
        s.pipeline.ALU.itype = NOP ∧ s.pipeline.MEM.itype = NOP ∧
        s.pipeline.WRITEBACK.itype = NOP) := by
  unfold pipeline_busy
  simp [and_assoc]

theorem push_times_succ (n : Nat) (s : State) :
    push_times (n + 1) s = push_times n (iplc_sim_push_pipeline_stage s) := rfl

/-- The drain from a state whose first `k` slots are empty stops after at most
`5 - k` advances. -/
theorem drain_from_empty_upto : ∀ (j k : Nat) (s : State) (fuel : Nat),
    k + j = 5 → empty_upto k s → j ≤ fuel →
    ∃ n, n ≤ j ∧ iplc_sim_finalize fuel s = some (push_times n s) ∧
      pipeline_busy (push_times n s) = false := by
  intro j
  induction j with
  | zero =>
    intro k s fuel hk he _
    have hb : pipeline_busy s = false := by
      rw [busy_false_iff]
      obtain ⟨e1, e2, e3, e4, e5⟩ := he
      exact ⟨e1 (by omega), e2 (by omega), e3 (by omega), e4 (by omega), e5 (by omega)⟩
    exact ⟨0, le_refl 0, finalize_idle fuel s hb, hb⟩
  | succ j ih =>
    intro k s fuel hk he hf
    by_cases hb : pipeline_busy s = false
    · exact ⟨0, Nat.zero_le _, finalize_idle fuel s hb, hb⟩
    · have hb' : pipeline_busy s = true := by
        cases h : pipeline_busy s
        · exact absurd h hb
        · rfl
      obtain ⟨f, rfl⟩ : ∃ f, fuel = f + 1 := ⟨fuel - 1, by omega⟩
      obtain ⟨n, hn, hfin, hidle⟩ :=
        ih (k + 1) (iplc_sim_push_pipeline_stage s) f (by omega) (push_empty_upto k s he)
          (by omega)
      exact ⟨n + 1, by omega, by rw [finalize_busy f s hb', hfin, push_times_succ],
        by rw [push_times_succ]; exact hidle⟩

/-- C20. Drain terminates: from every state with associativity at least 1,
given room for 5 advances, the drain loop of `iplc_sim_finalize` stops after
`n ≤ 5` calls of `iplc_sim_push_pipeline_stage`, and on exit every slot has
kind NOP. -/
theorem drain_terminates (s : State) (hassoc : 1 ≤ s.cache_assoc) (fuel : Nat)
    (hfuel : 5 ≤ fuel) :
    ∃ n, n ≤ 5 ∧ iplc_sim_finalize fuel s = some (push_times n s) ∧
      (push_times n s).pipeline.FETCH.itype = instruction_type.NOP ∧
      (push_times n s).pipeline.DECODE.itype = instruction_type.NOP ∧
      (push_times n s).pipeline.ALU.itype = instruction_type.NOP ∧
      (push_times n s).pipeline.MEM.itype = instruction_type.NOP ∧
      (push_times n s).pipeline.WRITEBACK.itype = instruction_type.NOP := by
  have _ := hassoc
  have he : empty_upto 0 s := by
    unfold empty_upto
    exact ⟨fun h => absurd h (by omega), fun h => absurd h (by omega),
      fun h => absurd h (by omega), fun h => absurd h (by omega), fun h => absurd h (by omega)⟩
  obtain ⟨n, hn, hfin, hidle⟩ := drain_from_empty_upto 5 0 s fuel (by omega) he hfuel
  exact ⟨n, hn, hfin, (busy_false_iff _).1 hidle⟩

set_option maxRecDepth 100000 in
theorem drain_terminates_witness :
    ∃ n, n ≤ 5 ∧
      iplc_sim_finalize 5 (run (configured 2 1 1 0) (load_then_rtype 0x1000 5))
        = some (push_times n (run (configured 2 1 1 0) (load_then_rtype 0x1000 5))) ∧
      (push_times n (run (configured 2 1 1 0) (load_then_rtype 0x1000 5))).pipeline.FETCH.itype
        = instruction_type.NOP ∧
      (push_times n (run (configured 2 1 1 0) (load_then_rtype 0x1000 5))).pipeline.DECODE.itype
        = instruction_type.NOP ∧
      (push_times n (run (configured 2 1 1 0) (load_then_rtype 0x1000 5))).pipeline.ALU.itype
        = instruction_type.NOP ∧
      (push_times n (run (configured 2 1 1 0) (load_then_rtype 0x1000 5))).pipeline.MEM.itype
        = instruction_type.NOP ∧
      (push_times n (run (configured 2 1 1 0) (load_then_rtype 0x1000 5))).pipeline.WRITEBACK.itype
        = instruction_type.NOP :=
  drain_terminates (run (configured 2 1 1 0) (load_then_rtype 0x1000 5)) (by decide) 5 (by decide)

/-! ## Invariants of the slots along a trace -/

theorem push_branch_address (s : State) :
    (push_branch s).instruction_address = s.instruction_address := by
  unfold push_branch
  simp only []
  split_ifs <;> rfl

theorem push_lw_address (s : State) :
    (push_lw s).instruction_address = s.instruction_address := by
  obtain ⟨-, -, -, -, -, -, f7⟩ := trap_frame s s.pipeline.MEM.stage.lw.data_address
  unfold push_lw
  simp only []
  split_ifs <;> simp_all

theorem push_sw_address (s : State) :
    (push_sw s).instruction_address = s.instruction_address := by
  obtain ⟨-, -, -, -, -, -, f7⟩ := trap_frame s s.pipeline.MEM.stage.sw.data_address
  unfold push_sw
  simp only []
  split_ifs <;> simp_all

theorem push_shift_address (s : State) :
    (push_shift s).instruction_address = s.instruction_address := rfl

theorem push_address (s : State) :
    (iplc_sim_push_pipeline_stage s).instruction_address = s.instruction_address := by
  unfold iplc_sim_push_pipeline_stage
  rw [push_shift_address, push_sw_address, push_lw_address, push_branch_address, push_retire_eq]

theorem nop_empty_bzero : nop_empty bzero_slot := fun _ => rfl

theorem occupied_bzero : occupied bzero_slot = 0 := rfl

/-- One advance keeps every NOP slot at address 0. -/
theorem push_nops_empty (s : State) (h : nops_empty s) :
    nops_empty (iplc_sim_push_pipeline_stage s) := by
  obtain ⟨e1, e2, e3, e4, e5⟩ := h
  unfold nops_empty
  by_cases hm : mispredict s
  · rw [(push_of_mispredict s hm).1]
    exact ⟨nop_empty_bzero, e1, nop_empty_bzero, e2, e3⟩
  · by_cases hs : stall_inserted s
    · rw [(push_of_stall s hm hs).1]
      exact ⟨nop_empty_bzero, e1, e2, e3, nop_empty_bzero⟩
    · rw [(push_of_quiet s hm hs).1]
      exact ⟨nop_empty_bzero, e1, e2, e3, e4⟩

/-- One advance keeps the retire counter in the `unsigned int` range. -/
theorem push_count_lt (s : State) (h : s.instruction_count < 2 ^ 32) :
    (iplc_sim_push_pipeline_stage s).instruction_count < 2 ^ 32 := by
  by_cases hm : mispredict s
  · rw [(push_of_mispredict s hm).2]
    unfold uadd32
    split_ifs <;> omega
  · by_cases hs : stall_inserted s
    · rw [(push_of_stall s hm hs).2]
      unfold uadd32
      split_ifs <;> omega
    · rw [(push_of_quiet s hm hs).2]
      unfold uadd32
      split_ifs <;> omega

/-- One advance conserves the instructions: the retire counter plus the number
of slots with a non-zero address is unchanged modulo 2^32. -/
theorem push_conserves (s : State) :
    ((iplc_sim_push_pipeline_stage s).instruction_count
        + in_flight (iplc_sim_push_pipeline_stage s)) % 2 ^ 32
      = (s.instruction_count + in_flight s) % 2 ^ 32 := by
  by_cases hm : mispredict s
  · obtain ⟨h1, h2⟩ := push_of_mispredict s hm
    unfold in_flight
    rw [h1, h2]
    simp only [occupied_bzero]
    unfold occupied uadd32
    split_ifs <;> omega
  · by_cases hs : stall_inserted s
    · obtain ⟨h1, h2⟩ := push_of_stall s hm hs
      unfold in_flight
      rw [h1, h2]
      simp only [occupied_bzero]
      unfold occupied uadd32
      split_ifs <;> omega
    · obtain ⟨h1, h2⟩ := push_of_quiet s hm hs
      unfold in_flight
      rw [h1, h2]
      simp only [occupied_bzero]
      unfold occupied uadd32
      split_ifs <;> omega

/-- The state after a dispatch: the slots of the advanced state, with kind and
address written into FETCH. -/
theorem process_pipeline_slots (s : State) (d : Decoded) :
    (process_pipeline s d).pipeline.FETCH.itype = decoded_kind d ∧
    (process_pipeline s d).pipeline.FETCH.instruction_address = s.instruction_address ∧
    (process_pipeline s d).pipeline.DECODE = (iplc_sim_push_pipeline_stage s).pipeline.DECODE ∧
    (process_pipeline s d).pipeline.ALU = (iplc_sim_push_pipeline_stage s).pipeline.ALU ∧
    (process_pipeline s d).pipeline.MEM = (iplc_sim_push_pipeline_stage s).pipeline.MEM ∧
    (process_pipeline s d).pipeline.WRITEBACK
      = (iplc_sim_push_pipeline_stage s).pipeline.WRITEBACK ∧
    (process_pipeline s d).instruction_count
      = (iplc_sim_push_pipeline_stage s).instruction_count := by
  have ha := push_address s
  cases d <;> exact ⟨rfl, ha, rfl, rfl, rfl, rfl, rfl⟩

theorem push_fetch (s : State) : (iplc_sim_push_pipeline_stage s).pipeline.FETCH = bzero_slot := by
  by_cases hm : mispredict s
  · rw [(push_of_mispredict s hm).1]
  · by_cases hs : stall_inserted s
    · rw [(push_of_stall s hm hs).1]
    · rw [(push_of_quiet s hm hs).1]

theorem push_times_nops_empty (n : Nat) : ∀ s : State, nops_empty s →
    nops_empty (push_times n s) := by
  induction n with
  | zero => intro s h; exact h
  | succ n ih => intro s h; exact ih _ (push_nops_empty s h)

theorem push_times_count_lt (n : Nat) : ∀ s : State, s.instruction_count < 2 ^ 32 →
    (push_times n s).instruction_count < 2 ^ 32 := by
  induction n with
  | zero => intro s h; exact h
  | succ n ih => intro s h; exact ih _ (push_count_lt s h)

theorem push_times_conserves (n : Nat) : ∀ s : State,
    ((push_times n s).instruction_count + in_flight (push_times n s)) % 2 ^ 32
      = (s.instruction_count + in_flight s) % 2 ^ 32 := by
  induction n with
  | zero => intro s; rfl
  | succ n ih =>
    intro s
    rw [push_times_succ, ih, push_conserves]

theorem push_times_address (n : Nat) : ∀ s : State,
    (push_times n s).instruction_address = s.instruction_address := by
  induction n with
  | zero => intro s; rfl
  | succ n ih =>
    intro s
    rw [push_times_succ, ih, push_address]

/-- A dispatch keeps every NOP slot at address 0, unless it is a NOP dispatched
at a non-zero address. -/
theorem process_nops_empty (s : State) (d : Decoded) (h : nops_empty s)
    (hd : d = Decoded.nop → s.instruction_address = 0) :
    nops_empty (process_pipeline s d) := by
  obtain ⟨-, e2, e3, e4, e5⟩ := push_nops_empty s h
  obtain ⟨p1, p2, p3, p4, p5, p6, -⟩ := process_pipeline_slots s d
  unfold nops_empty
  rw [p3, p4, p5, p6]
  refine ⟨?_, e2, e3, e4, e5⟩
  intro hk
  rw [p2]
  apply hd
  rw [p1] at hk
  cases d <;> first | rfl | cases hk

/-- A dispatch at a non-zero address adds one instruction to the sum of the
retire counter and the occupied slots. -/
theorem process_conserves (s : State) (d : Decoded) (ha : s.instruction_address ≠ 0) :
    ((process_pipeline s d).instruction_count + in_flight (process_pipeline s d)) % 2 ^ 32
      = (s.instruction_count + in_flight s + 1) % 2 ^ 32 := by
  obtain ⟨-, p2, p3, p4, p5, p6, p7⟩ := process_pipeline_slots s d
  have hc := push_conserves s
  have hf := push_fetch s
  unfold in_flight at hc ⊢
  rw [p3, p4, p5, p6, p7]
  rw [hf, occupied_bzero] at hc
  have ho : occupied (process_pipeline s d).pipeline.FETCH = 1 := by
    unfold occupied
    rw [p2, if_pos ha]
  rw [ho]
  omega

theorem process_count_lt (s : State) (d : Decoded) (h : s.instruction_count < 2 ^ 32) :
    (process_pipeline s d).instruction_count < 2 ^ 32 := by
  rw [(process_pipeline_slots s d).2.2.2.2.2.2]
  exact push_count_lt s h

/-- The state in which the fetch path dispatches. -/
theorem parse_eq (s : State) (a : Nat) (d : Decoded) :
    ∃ t, iplc_sim_parse_instruction s a d = process_pipeline t d ∧
      t.instruction_address = a ∧
      (nops_empty s → nops_empty t) ∧
      (s.instruction_count < 2 ^ 32 → t.instruction_count < 2 ^ 32) ∧
      (t.instruction_count + in_flight t) % 2 ^ 32 = (s.instruction_count + in_flight s) % 2 ^ 32 := by
  obtain ⟨f1, -, f3, -, -, -, f7⟩ :=
    trap_frame { s with instruction_address := a } a
  have hn : nops_empty s →
      nops_empty (iplc_sim_trap_address { s with instruction_address := a } a).1 := by
    intro h
    unfold nops_empty
    rw [f1]
    exact h
  have hk : ((iplc_sim_trap_address { s with instruction_address := a } a).1.instruction_count
      + in_flight (iplc_sim_trap_address { s with instruction_address := a } a).1) % 2 ^ 32
      = (s.instruction_count + in_flight s) % 2 ^ 32 := by
    unfold in_flight
    rw [f1, f3]
  unfold iplc_sim_parse_instruction
  simp only []
  split_ifs
  · refine ⟨_, rfl, ?_, fun h => push_times_nops_empty _ _ (hn h), ?_, ?_⟩
    · rw [push_times_address, f7]
    · intro h
      apply push_times_count_lt
      rw [f3]
      exact h
    · rw [push_times_conserves, hk]
  · refine ⟨_, rfl, f7, hn, ?_, hk⟩
    intro h
    rw [f3]
    exact h

theorem step_nops_empty (s : State) (o : Op) (ho : no_addressed_nop o = true)
    (h : nops_empty s) : nops_empty (step s o) := by
  cases o with
  | probe a =>
    show nops_empty (iplc_sim_trap_address s a).1
    unfold nops_empty
    rw [(trap_frame s a).1]
    exact h
  | advance => exact push_nops_empty s h
  | dispatch a d =>
    show nops_empty (process_pipeline { s with instruction_address := a } d)
    apply process_nops_empty _ d (show nops_empty { s with instruction_address := a } from h)
    intro hd
    subst hd
    show a = 0
    simpa [no_addressed_nop] using ho
  | parse a d =>
    obtain ⟨t, ht, hta, htn, -, -⟩ := parse_eq s a d
    show nops_empty (iplc_sim_parse_instruction s a d)
    rw [ht]
    apply process_nops_empty _ d (htn h)
    intro hd
    subst hd
    rw [hta]
    simpa [no_addressed_nop] using ho

theorem run_nops_empty (ops : List Op) : ∀ s : State,
    (∀ o ∈ ops, no_addressed_nop o = true) → nops_empty s → nops_empty (run s ops) := by
  induction ops with
  | nil => intro s _ h; exact h
  | cons o os ih =>
    intro s hall h
    exact ih _ (fun x hx => hall x (List.mem_cons_of_mem o hx))
      (step_nops_empty s o (hall o (List.mem_cons_self o os)) h)

theorem real_dispatch_no_addressed_nop (o : Op) (h : real_dispatch o = true) :
    no_addressed_nop o = true := by
  cases o with
  | probe a => rfl
  | advance => rfl
  | dispatch a d => cases d <;> first | rfl | simp [real_dispatch] at h
  | parse a d => cases d <;> first | rfl | simp [real_dispatch] at h

/-- A dispatch of a real instruction: the sum of the retire counter and the
occupied slots grows by one, and the counter stays in range. -/
theorem step_conserves (s : State) (o : Op) (ho : real_dispatch o = true)
    (hlt : s.instruction_count < 2 ^ 32) :
    (step s o).instruction_count < 2 ^ 32 ∧
    ((step s o).instruction_count + in_flight (step s o)) % 2 ^ 32
      = (s.instruction_count + in_flight s + 1) % 2 ^ 32 := by
  cases o with
  | probe a => simp [real_dispatch] at ho
  | advance => simp [real_dispatch] at ho
  | dispatch a d =>
    have ha : a ≠ 0 := by
      intro h
      subst h
      simp [real_dispatch] at ho
    exact ⟨process_count_lt _ d hlt, process_conserves { s with instruction_address := a } d ha⟩
  | parse a d =>
    have ha : a ≠ 0 := by
      intro h
      subst h
      simp [real_dispatch] at ho
    obtain ⟨t, ht, hta, -, htl, htc⟩ := parse_eq s a d
    show (iplc_sim_parse_instruction s a d).instruction_count < 2 ^ 32 ∧
      ((iplc_sim_parse_instruction s a d).instruction_count
        + in_flight (iplc_sim_parse_instruction s a d)) % 2 ^ 32 = _
    rw [ht]
    refine ⟨process_count_lt _ d (htl hlt), ?_⟩
    rw [process_conserves t d (by rw [hta]; exact ha)]
    omega

theorem run_conserves (ops : List Op) : ∀ (s : State) (n : Nat),
    (∀ o ∈ ops, real_dispatch o = true) → s.instruction_count < 2 ^ 32 →
    (s.instruction_count + in_flight s) % 2 ^ 32 = n % 2 ^ 32 →
    (run s ops).instruction_count < 2 ^ 32 ∧
    ((run s ops).instruction_count + in_flight (run s ops)) % 2 ^ 32
      = (n + ops.length) % 2 ^ 32 := by
  induction ops with
  | nil => intro s n _ hlt h; exact ⟨hlt, h⟩
  | cons o os ih =>
    intro s n hall hlt h
    obtain ⟨h1, h2⟩ := step_conserves s o (hall o (List.mem_cons_self o os)) hlt
    obtain ⟨g1, g2⟩ := ih (step s o) (n + 1)
      (fun x hx => hall x (List.mem_cons_of_mem o hx)) h1 (by rw [h2]; omega)
    refine ⟨g1, ?_⟩
    rw [run, g2, List.length_cons]
    congr 1
    omega

/-- When every slot has kind NOP and every NOP slot has address 0, no slot is
occupied. -/
theorem in_flight_of_idle (s : State) (hb : pipeline_busy s = false) (h : nops_empty s) :
    s.pipeline.FETCH.instruction_address = 0 ∧ s.pipeline.DECODE.instruction_address = 0 ∧
    s.pipeline.ALU.instruction_address = 0 ∧ s.pipeline.MEM.instruction_address = 0 ∧
    s.pipeline.WRITEBACK.instruction_address = 0 ∧ in_flight s = 0 := by
  obtain ⟨b1, b2, b3, b4, b5⟩ := (busy_false_iff s).1 hb
  obtain ⟨e1, e2, e3, e4, e5⟩ := h
  have a1 := e1 b1
  have a2 := e2 b2
  have a3 := e3 b3
  have a4 := e4 b4
  have a5 := e5 b5
  refine ⟨a1, a2, a3, a4, a5, ?_⟩
  unfold in_flight occupied
  simp [a1, a2, a3, a4, a5]

theorem init_fresh (g : State) (heap : Nat → cache_line_t) (index blocksize assoc : Int)
    (s0 : State) (h : iplc_sim_init g heap index blocksize assoc = some s0) :
    nops_empty s0 ∧ in_flight s0 = 0 ∧ s0.instruction_count = g.instruction_count ∧
    empty_upto 5 s0 := by
  unfold iplc_sim_init at h
  simp only [] at h
  split_ifs at h
  cases h
  refine ⟨⟨nop_empty_bzero, nop_empty_bzero, nop_empty_bzero, nop_empty_bzero, nop_empty_bzero⟩,
    rfl, rfl, ?_⟩
  exact ⟨fun _ => rfl, fun _ => rfl, fun _ => rfl, fun _ => rfl, fun _ => rfl⟩

/-- C12 (counterexample). One NOP dispatched at address `0x400` into the
freshly configured simulator: the drain of `iplc_sim_finalize` stops at once
(every slot has kind NOP) and FETCH still holds the address `0x400`. -/
theorem drain_leaves_addressed_nop :
    (iplc_sim_finalize 5 (run (configured 2 1 1 0) [Op.dispatch 0x400 Decoded.nop])).map
        (fun t => (t.pipeline.FETCH.itype, t.pipeline.FETCH.instruction_address))
      = some (instruction_type.NOP, 0x400) := by
  decide

/-- C12 (amended). After the drain of `iplc_sim_finalize` (which stops, given
room for 5 advances), started from any state reached from a freshly configured
simulator by any sequence of operations, every slot has kind NOP; and every
slot has address 0 as well when no NOP was dispatched at a non-zero address. -/
theorem drain_leaves_nops (p : Nat) (heap : Nat → cache_line_t)
    (index blocksize assoc : Int) (s0 : State)
    (hinit : iplc_sim_init (globals p) heap index blocksize assoc = some s0)
    (ops : List Op) (fuel : Nat) (hfuel : 5 ≤ fuel) :
    ∃ t, iplc_sim_finalize fuel (run s0 ops) = some t ∧
      (t.pipeline.FETCH.itype = instruction_type.NOP ∧
        t.pipeline.DECODE.itype = instruction_type.NOP ∧
        t.pipeline.ALU.itype = instruction_type.NOP ∧
        t.pipeline.MEM.itype = instruction_type.NOP ∧
        t.pipeline.WRITEBACK.itype = instruction_type.NOP) ∧
      ((∀ o ∈ ops, no_addressed_nop o = true) →
        t.pipeline.FETCH.instruction_address = 0 ∧
        t.pipeline.DECODE.instruction_address = 0 ∧
        t.pipeline.ALU.instruction_address = 0 ∧
        t.pipeline.MEM.instruction_address = 0 ∧
        t.pipeline.WRITEBACK.instruction_address = 0) := by
  obtain ⟨hn, -, -, -⟩ := init_fresh _ _ _ _ _ _ hinit
  have he : empty_upto 0 (run s0 ops) :=
    ⟨fun h => absurd h (by omega), fun h => absurd h (by omega),
      fun h => absurd h (by omega), fun h => absurd h (by omega), fun h => absurd h (by omega)⟩
  obtain ⟨n, -, hfin, hidle⟩ := drain_from_empty_upto 5 0 (run s0 ops) fuel (by omega) he hfuel
  refine ⟨_, hfin, (busy_false_iff _).1 hidle, ?_⟩
  intro hops
  have h1 := push_times_nops_empty n _ (run_nops_empty ops s0 hops hn)
  obtain ⟨a1, a2, a3, a4, a5, -⟩ := in_flight_of_idle _ hidle h1
  exact ⟨a1, a2, a3, a4, a5⟩

set_option maxRecDepth 100000 in
theorem drain_leaves_nops_witness :
    ∃ t, iplc_sim_finalize 5 (run (configured 2 1 1 0) (load_then_rtype 0x1000 5)) = some t ∧
      (t.pipeline.FETCH.itype = instruction_type.NOP ∧
        t.pipeline.DECODE.itype = instruction_type.NOP ∧
        t.pipeline.ALU.itype = instruction_type.NOP ∧
        t.pipeline.MEM.itype = instruction_type.NOP ∧
        t.pipeline.WRITEBACK.itype = instruction_type.NOP) ∧
      ((∀ o ∈ load_then_rtype 0x1000 5, no_addressed_nop o = true) →
        t.pipeline.FETCH.instruction_address = 0 ∧
        t.pipeline.DECODE.instruction_address = 0 ∧
        t.pipeline.ALU.instruction_address = 0 ∧
        t.pipeline.MEM.instruction_address = 0 ∧
        t.pipeline.WRITEBACK.instruction_address = 0) :=
  drain_leaves_nops 0 zero_heap 2 1 1 (configured 2 1 1 0) rfl (load_then_rtype 0x1000 5) 5
    (by decide)

/-- C14. Instructions retired are conserved: from a freshly configured
simulator, after any sequence of dispatches (bare, or through the fetch path)
of instructions of a kind other than NOP at non-zero addresses, followed by
the drain of `iplc_sim_finalize` (which stops, given room for 5 advances), the
retire counter equals the number of dispatched instructions modulo 2^32. -/
theorem retired_conserved (p : Nat) (heap : Nat → cache_line_t)
    (index blocksize assoc : Int) (s0 : State)
    (hinit : iplc_sim_init (globals p) heap index blocksize assoc = some s0)
    (ops : List Op) (hops : ∀ o ∈ ops, real_dispatch o = true)
    (fuel : Nat) (hfuel : 5 ≤ fuel) :
    ∃ t, iplc_sim_finalize fuel (run s0 ops) = some t ∧
      t.instruction_count = ops.length % 2 ^ 32 := by
  obtain ⟨hn, hfl, hc, -⟩ := init_fresh _ _ _ _ _ _ hinit
  have hc0 : s0.instruction_count = 0 := hc
  obtain ⟨r1, r2⟩ := run_conserves ops s0 0 hops (by rw [hc0]; decide) (by rw [hc0, hfl])
  have hnr := run_nops_empty ops s0
    (fun o ho => real_dispatch_no_addressed_nop o (hops o ho)) hn
  have he : empty_upto 0 (run s0 ops) :=
    ⟨fun h => absurd h (by omega), fun h => absurd h (by omega),
      fun h => absurd h (by omega), fun h => absurd h (by omega), fun h => absurd h (by omega)⟩
  obtain ⟨n, -, hfin, hidle⟩ := drain_from_empty_upto 5 0 (run s0 ops) fuel (by omega) he hfuel
  refine ⟨_, hfin, ?_⟩
  obtain ⟨-, -, -, -, -, hz⟩ := in_flight_of_idle _ hidle (push_times_nops_empty n _ hnr)
  have hlt := push_times_count_lt n _ r1
  have hcons := push_times_conserves n (run s0 ops)
  rw [hz, r2] at hcons
  omega

set_option maxRecDepth 100000 in
theorem retired_conserved_witness :
    ∃ t, iplc_sim_finalize 5
        (run (configured 2 1 1 0) (branch_then 0x500 ++ load_then_rtype 0x1000 5)) = some t ∧
      t.instruction_count = 6 :=
  retired_conserved 0 zero_heap 2 1 1 (configured 2 1 1 0) rfl
    (branch_then 0x500 ++ load_then_rtype 0x1000 5) (by decide) 5 (by decide)

/-! ## Data-cache probes issued by the pipeline -/

set_option maxRecDepth 100000 in
/-- C13 (the code at the failing input). With the prediction not-taken, the
trace load `0x400`, R-type `0x404`, branch `0x408`, R-type `0x500` dispatches
one load, and after the drain the cache was never probed: the load sat in MEM
when the misprediction shift of step 2 moved it to WRITEBACK, ahead of the
probe of step 3.  With the sequential successor `0x40c` in place of `0x500`
the load is probed once. -/
theorem load_not_probed_after_mispredict :
    ((load_before_branch 0x500).filter dispatches_memory_access).length = 1 ∧
    (iplc_sim_finalize 5 (run (configured 2 1 1 0) (load_before_branch 0x500))).map
        State.cache_access = some 0 ∧
    (run (configured 2 1 1 0) (load_before_branch 0x500)).pipeline.MEM.itype
        = instruction_type.LW ∧
    (iplc_sim_push_pipeline_stage
        (run (configured 2 1 1 0) (load_before_branch 0x500))).pipeline.WRITEBACK.itype
        ≠ instruction_type.LW ∧
    (iplc_sim_push_pipeline_stage
        (run (configured 2 1 1 0) (load_before_branch 0x500))).cache_access = 0 ∧
    (iplc_sim_finalize 5 (run (configured 2 1 1 0) (load_before_branch 0x40c))).map
        State.cache_access = some 1 := by
  decide

/-! ## The probed line -/

theorem way_list_replace (n : Nat) (tag : Int) (line : cache_line_t) :
    way_list (n + 1) (replace_line (n + 1) tag line)
      = (way_list (n + 1) line).tail ++ [{ valid := 1, tag := tag }] := by
  unfold way_list
  have h1 : (List.range (n + 1)).map (replace_line (n + 1) tag line).sets
      = (List.range n).map (fun k => line.sets (k + 1)) ++ [{ valid := 1, tag := tag }] := by
    rw [List.range_succ, List.map_append]
    congr 1
    · apply List.map_congr_left
      intro k hk
      have hk' : k < n := List.mem_range.1 hk
      rw [replace_line_sets]
      have e1 : ¬ (k = n + 1 - 1) := by omega
      have e2 : k < n + 1 - 1 := by omega
      rw [if_neg e1, if_pos e2]
    · simp [replace_line_sets]
  have h2 : ((List.range (n + 1)).map line.sets).tail
      = (List.range n).map (fun k => line.sets (k + 1)) := by
    rw [List.range_succ_eq_map, List.map_cons, List.tail_cons, List.map_map]
    rfl
  rw [h1, h2]

/-- C15. Miss installation: for associativity at least 1, after a probe that
misses, the way list of the probed line is the previous list without its first
way (the oldest), the other ways one position down in the same order, and in
the last position the way with `valid = 1` and the tag of the address, which
is `address >> (cache_index + cache_blockoffsetbits)` when that value is below
2^31. -/
theorem miss_installation (s : State) (a : Nat) (hassoc : 1 ≤ s.cache_assoc)
    (hmiss : (iplc_sim_trap_address s a).2 = 0) :
    way_list s.cache_assoc ((iplc_sim_trap_address s a).1.cache (addr_index s a))
      = (way_list s.cache_assoc (s.cache (addr_index s a))).tail
          ++ [{ valid := 1, tag := addr_tag s a }] ∧
    (a >>> (s.cache_index + s.cache_blockoffsetbits) < 2 ^ 31 →
      addr_tag s a = ((a >>> (s.cache_index + s.cache_blockoffsetbits) : Nat) : Int)) := by
  constructor
  · rw [trap_cache_miss s a hmiss]
    obtain ⟨n, hn⟩ : ∃ n, s.cache_assoc = n + 1 := ⟨s.cache_assoc - 1, by omega⟩
    rw [hn]
    exact way_list_replace n _ _
  · intro h
    unfold addr_tag int_of_uint
    have h1 : a >>> (s.cache_index + s.cache_blockoffsetbits) % 2 ^ 32
        = a >>> (s.cache_index + s.cache_blockoffsetbits) := by
      apply Nat.mod_eq_of_lt
      omega
    rw [h1, if_pos h]

set_option maxRecDepth 100000 in
theorem miss_installation_witness :
    way_list 2 ((iplc_sim_trap_address (configured 2 1 2 0) 0x10).1.cache 0)
      = [{ valid := 0, tag := 0 }, { valid := 1, tag := 1 }] :=
  ((miss_installation (configured 2 1 2 0) 0x10 (by decide) (by decide)).1).trans (by decide)

/-- C16. Frame of a probe: a probe leaves every line other than the line
`(address >> cache_blockoffsetbits) & (2^cache_index - 1)` as it is (its ways
and its recency record), leaves the configuration as it is, and the computed
index is below `2^cache_index`. -/
theorem probe_frame (s : State) (a : Nat) :
    (∀ i, i ≠ addr_index s a →
      ((iplc_sim_trap_address s a).1.cache i).sets = (s.cache i).sets ∧
      ((iplc_sim_trap_address s a).1.cache i).replacements = (s.cache i).replacements) ∧
    addr_index s a = (a >>> s.cache_blockoffsetbits) &&& (2 ^ s.cache_index - 1) ∧
    addr_index s a < 2 ^ s.cache_index ∧
    (iplc_sim_trap_address s a).1.cache_assoc = s.cache_assoc ∧
    (iplc_sim_trap_address s a).1.cache_index = s.cache_index ∧
    (iplc_sim_trap_address s a).1.cache_blockoffsetbits = s.cache_blockoffsetbits := by
  refine ⟨?_, ?_, ?_, trap_config s a⟩
  · intro i hi
    rw [trap_cache_other s a i hi]
    exact ⟨rfl, rfl⟩
  · unfold addr_index
    rw [Nat.one_shiftLeft]
  · rw [addr_index_eq]
    exact Nat.mod_lt _ (by positivity)

/-! ## Tags of the valid ways -/

/-- A probe keeps the tags of the valid ways of every line distinct. -/
theorem valid_tags_unique_probe (s : State) (a i : Nat)
    (h : valid_tags_unique s.cache_assoc (s.cache i)) :
    valid_tags_unique s.cache_assoc ((iplc_sim_trap_address s a).1.cache i) := by
  by_cases hi : i = addr_index s a
  · subst hi
    by_cases hret : (iplc_sim_trap_address s a).2 = 0
    · have hscan := (trap_scan_none _ _ _ 0).1 ((trap_miss_iff s a).1 hret)
      rw [trap_cache_miss s a hret]
      intro x y hx hy hxy vx vy
      rw [replace_line_sets] at vx vy ⊢
      rw [replace_line_sets]
      by_cases ex : x = s.cache_assoc - 1
      · by_cases ey : y = s.cache_assoc - 1
        · omega
        · have ly : y < s.cache_assoc - 1 := by omega
          simp only [ex, if_true, ey, if_false, ly]
          exact Ne.symm (hscan (y + 1) (by omega) (by omega))
      · have lx : x < s.cache_assoc - 1 := by omega
        by_cases ey : y = s.cache_assoc - 1
        · simp only [ey, if_true, ex, if_false, lx]
          exact hscan (x + 1) (by omega) (by omega)
        · have ly : y < s.cache_assoc - 1 := by omega
          simp only [ex, if_false, lx, if_true, ey, ly] at vx vy ⊢
          exact h (x + 1) (y + 1) (by omega) (by omega) (by omega) vx vy
    · intro x y hx hy hxy vx vy
      rw [trap_cache_hit s a hret] at vx vy ⊢
      exact h x y hx hy hxy vx vy
  · rw [trap_cache_other s a i hi]
    exact h

/-- C17 (the code at the failing inputs). With `index = 2`, `blocksize = 1`,
`assoc = 2`, whatever the heap holds, both ways of line 0 of the fresh cache
are invalid and both hold the tag of address `0x0`, so the scan of the first
probe of `0x0` has two matching ways (and reports a hit on the first).  With
`index = 1`, `blocksize = 1`, `assoc = 2` and a heap whose ways read
`valid = 1`, `tag = 5`, line 1 of the fresh cache, which the configuration
does not write, has two valid ways with the same tag. -/
theorem fresh_cache_has_tag_ties :
    (∀ (heap : Nat → cache_line_t) (p : Nat),
      ∃ s0, iplc_sim_init (globals p) heap 2 1 2 = some s0 ∧ addr_index s0 0x0 = 0 ∧
        ((s0.cache 0).sets 0).valid = 0 ∧ ((s0.cache 0).sets 1).valid = 0 ∧
        ((s0.cache 0).sets 0).tag = addr_tag s0 0x0 ∧
        ((s0.cache 0).sets 1).tag = addr_tag s0 0x0 ∧
        (iplc_sim_trap_address s0 0x0).2 = 1) ∧
    (∃ s0, iplc_sim_init (globals 0) dirty_heap 1 1 2 = some s0 ∧
        ((s0.cache 1).sets 0).valid = 1 ∧ ((s0.cache 1).sets 1).valid = 1 ∧
        ((s0.cache 1).sets 0).tag = ((s0.cache 1).sets 1).tag ∧
        ¬ valid_tags_unique s0.cache_assoc (s0.cache 1)) := by
  constructor
  · intro heap p
    refine ⟨_, init_2_1_2 heap p, ?_, ?_, ?_, ?_, ?_, ?_⟩
    · simp [addr_index_eq]
    · simp [init_lines, init_ways]
    · simp [init_lines, init_ways]
    · simp [init_lines, init_ways, addr_tag_eq, int_of_uint]
    · simp [init_lines, init_ways, addr_tag_eq, int_of_uint]
    · simp [iplc_sim_trap_address, addr_index_eq, addr_tag_eq, int_of_uint, trap_scan,
        init_lines, init_ways]
  · refine ⟨_, rfl, by decide, by decide, by decide, ?_⟩
    intro h
    exact h 0 1 (by decide) (by decide) (by decide) (by decide) (by decide) (by decide)

/-! ## Re-reference of a block -/

theorem addr_index_of_block (s : State) (a b : Nat)
    (h : a >>> s.cache_blockoffsetbits = b >>> s.cache_blockoffsetbits) :
    addr_index s a = addr_index s b := by
  unfold addr_index
  rw [h]

theorem addr_tag_of_block (s : State) (a b : Nat)
    (h : a >>> s.cache_blockoffsetbits = b >>> s.cache_blockoffsetbits) :
    addr_tag s a = addr_tag s b := by
  unfold addr_tag
  rw [Nat.add_comm, Nat.shiftRight_add, Nat.shiftRight_add, h]

/-- After a probe, some way of the probed line holds the tag of the address. -/
theorem trap_leaves_tag (s : State) (a : Nat) (hassoc : 1 ≤ s.cache_assoc) :
    ∃ k, k < s.cache_assoc ∧
      (((iplc_sim_trap_address s a).1.cache (addr_index s a)).sets k).tag = addr_tag s a := by
  by_cases hret : (iplc_sim_trap_address s a).2 = 0
  · refine ⟨s.cache_assoc - 1, by omega, ?_⟩
    rw [trap_cache_miss s a hret, replace_line_sets]
    simp
  · have hs : trap_scan (s.cache (addr_index s a)) (addr_tag s a) s.cache_assoc 0 ≠ none := by
      intro h
      exact hret ((trap_miss_iff s a).2 h)
    obtain ⟨k, hk⟩ := Option.ne_none_iff_exists'.1 hs
    obtain ⟨-, h2, h3⟩ := trap_scan_some _ _ _ 0 k hk
    refine ⟨k, by omega, ?_⟩
    rw [trap_cache_hit s a hret]
    exact h3

/-- C24. Block-granular re-reference always hits: for associativity at least
1 and `cache_index + cache_blockoffsetbits < 32`, in any state, if the
addresses `a` and `b` agree above the block offset
(`a >> cache_blockoffsetbits = b >> cache_blockoffsetbits`), the probe of `b`
right after the probe of `a` returns 1 (hit). -/
theorem re_reference_hits (s : State) (a b : Nat) (hassoc : 1 ≤ s.cache_assoc)
    (hbits : s.cache_index + s.cache_blockoffsetbits < 32)
    (hblock : a >>> s.cache_blockoffsetbits = b >>> s.cache_blockoffsetbits) :
    (iplc_sim_trap_address (iplc_sim_trap_address s a).1 b).2 = 1 := by
  have _ := hbits
  obtain ⟨k, hk, htag⟩ := trap_leaves_tag s a hassoc
  obtain ⟨c1, c2, c3⟩ := trap_config s a
  rcases trap_ret (iplc_sim_trap_address s a).1 b with h | h
  · exfalso
    rw [trap_miss_iff, trap_scan_none] at h
    have := h k (Nat.zero_le k) (by rw [c1]; omega)
    apply this
    rw [trap_addr_index, trap_addr_tag, ← addr_index_of_block s a b hblock,
      ← addr_tag_of_block s a b hblock]
    exact htag
  · exact h

set_option maxRecDepth 100000 in
theorem re_reference_hits_witness :
    (iplc_sim_trap_address (iplc_sim_trap_address (configured 2 1 2 0) 0x1234).1 0x1237).2 = 1 :=
  re_reference_hits (configured 2 1 2 0) 0x1234 0x1237 (by decide) (by decide) (by decide)

/-! ## Coverage of the initialisation -/

theorem init_ways_zero (j : Nat) (line : cache_line_t) : init_ways 0 j line = line := rfl

/-- The inner loop writes the ways `j .. j + n - 1` and no other. -/
theorem init_ways_apply (n : Nat) : ∀ (j : Nat) (line : cache_line_t) (k : Nat),
    (init_ways n j line).sets k
      = (if j ≤ k ∧ k < j + n then { valid := 0, tag := 0 } else line.sets k) ∧
    (init_ways n j line).replacements k
      = (if j ≤ k ∧ k < j + n then k else line.replacements k) := by
  induction n with
  | zero =>
    intro j line k
    have : ¬ (j ≤ k ∧ k < j + 0) := by omega
    rw [init_ways, if_neg this, if_neg this]
    exact ⟨rfl, rfl⟩
  | succ n ih =>
    intro j line k
    rw [init_ways]
    simp only []
    obtain ⟨h1, h2⟩ := ih (j + 1)
      { sets := store (store line.sets j { valid := 0, tag := (line.sets j).tag }) j
          { valid := (store line.sets j { valid := 0, tag := (line.sets j).tag } j).valid,
            tag := 0 },
        replacements := store line.replacements j j } k
    rw [h1, h2]
    by_cases c1 : j + 1 ≤ k ∧ k < j + 1 + n
    · have c2 : j ≤ k ∧ k < j + (n + 1) := by omega
      rw [if_pos c1, if_pos c2, if_pos c1, if_pos c2]
      exact ⟨rfl, rfl⟩
    · by_cases c3 : k = j
      · subst c3
        have c4 : k ≤ k ∧ k < k + (n + 1) := by omega
        rw [if_neg c1, if_pos c4, if_neg c1, if_pos c4]
        simp
      · have c5 : ¬ (j ≤ k ∧ k < j + (n + 1)) := by omega
        rw [if_neg c1, if_neg c5, if_neg c1, if_neg c5]
        simp [c3]

/-- Once the counter `j` has reached `assoc`, the outer loop writes nothing. -/
theorem init_lines_done (assoc : Nat) (n : Nat) : ∀ (i j : Nat) (cache : Nat → cache_line_t),
    assoc ≤ j → init_lines assoc n i j cache = cache := by
  induction n with
  | zero => intro i j cache _; rfl
  | succ n ih =>
    intro i j cache hj
    rw [init_lines]
    have h0 : assoc - j = 0 := by omega
    rw [h0, init_ways_zero, ih (i + 1) (j + 0) _ (by omega)]
    funext k
    simp only [store_apply]
    split
    · next h => rw [h]
    · rfl

/-- The cache after the loops of `iplc_sim_init`: line 0 has gone through the
inner loop, every other line is the storage as `malloc` returned it. -/
theorem init_lines_eq (assoc n : Nat) (heap : Nat → cache_line_t) :
    init_lines assoc (n + 1) 0 0 heap = store heap 0 (init_ways assoc 0 (heap 0)) := by
  rw [init_lines]
  exact init_lines_done assoc n 1 (0 + (assoc - 0)) _ (by omega)

/-- The state that `iplc_sim_init` hands out: in line 0 the ways below `assoc`
are invalid with tag 0 and the recency record is the identity there; every
line `i ≥ 1` is the storage as `malloc` returned it; the five slots are
zeroed. -/
theorem init_cache_eq (g : State) (heap : Nat → cache_line_t) (index blocksize assoc : Int)
    (s0 : State) (h : iplc_sim_init g heap index blocksize assoc = some s0) :
    (∀ j, j < s0.cache_assoc →
      (s0.cache 0).sets j = { valid := 0, tag := 0 } ∧ (s0.cache 0).replacements j = j) ∧
    (∀ i, 1 ≤ i → s0.cache i = heap i) ∧
    s0.pipeline = { FETCH := bzero_slot, DECODE := bzero_slot, ALU := bzero_slot,
                    MEM := bzero_slot, WRITEBACK := bzero_slot } := by
  unfold iplc_sim_init at h
  simp only [] at h
  split_ifs at h
  cases h
  simp only []
  obtain ⟨n, hn⟩ : ∃ n, 1 <<< index.toNat = n + 1 :=
    ⟨1 <<< index.toNat - 1, by
      rw [Nat.one_shiftLeft]
      have := Nat.one_le_two_pow (n := index.toNat)
      omega⟩
  rw [hn, init_lines_eq]
  refine ⟨?_, ?_, trivial⟩
  · intro j hj
    obtain ⟨h1, h2⟩ := init_ways_apply assoc.toNat 0 (heap 0) j
    have hc : 0 ≤ j ∧ j < 0 + assoc.toNat := by omega
    simp only [store_apply, if_true]
    rw [h1, h2, if_pos hc, if_pos hc]
    exact ⟨rfl, rfl⟩
  · intro i hi
    have : i ≠ 0 := by omega
    simp only [store_apply, this, if_false]

/-- C23 (the code at the failing input). With `index = 1`, `blocksize = 1`,
`assoc = 2` the configuration is accepted and has the two lines 0 and 1; for
every heap, line 1 of the configured cache is the storage as `malloc` returned
it, because the way counter `j` of `iplc_sim_init` is not reset after line 0.
On a zero-filled heap the recency record of line 1 is `0, 0`, not `0, 1`; on a
heap whose ways read `valid = 1`, `tag = 5`, way 0 of line 1 is valid with
tag 5. -/
theorem init_leaves_line_unwritten :
    (∀ (heap : Nat → cache_line_t) (p : Nat),
      ∃ s0, iplc_sim_init (globals p) heap 1 1 2 = some s0 ∧
        s0.cache_index = 1 ∧ s0.cache_assoc = 2 ∧ s0.cache 1 = heap 1) ∧
    (List.range 2).map ((configured 1 1 2 0).cache 1).replacements = [0, 0] ∧
    (∃ s0, iplc_sim_init (globals 0) dirty_heap 1 1 2 = some s0 ∧
        (s0.cache 1).sets 0 = { valid := 1, tag := 5 }) := by
  refine ⟨?_, by decide, ⟨_, rfl, by decide⟩⟩
  intro heap p
  have h : iplc_sim_init (globals p) heap 1 1 2 = some
      { globals p with
        cache := init_lines 2 2 0 0 heap, cache_index := 1, cache_blocksize := 1,
        cache_blockoffsetbits := 2, cache_assoc := 2 } := rfl
  exact ⟨_, h, rfl, rfl, (init_cache_eq _ _ _ _ _ _ h).2.1 1 (le_refl 1)⟩

/-! ## The branch counters -/

theorem push_decode (s : State) :
    (iplc_sim_push_pipeline_stage s).pipeline.DECODE = s.pipeline.FETCH := by
  by_cases hm : mispredict s
  · rw [(push_of_mispredict s hm).1]
  · by_cases hs : stall_inserted s
    · rw [(push_of_stall s hm hs).1]
    · rw [(push_of_quiet s hm hs).1]

theorem push_branch_branch_count (s : State) :
    (push_branch s).branch_count =
      if s.pipeline.DECODE.itype = BRANCH then uadd32 s.branch_count 1 else s.branch_count := by
  unfold push_branch
  simp only []
  split_ifs <;> rfl

theorem push_shift_branch_count (s : State) :
    (push_shift s).branch_count = s.branch_count := rfl

/-- The branches-seen counter after one advance. -/
theorem push_branch_count (s : State) :
    (iplc_sim_push_pipeline_stage s).branch_count =
      if s.pipeline.DECODE.itype = BRANCH then uadd32 s.branch_count 1 else s.branch_count := by
  unfold iplc_sim_push_pipeline_stage
  rw [push_shift_branch_count, (push_sw_frame _).2.2.2, (push_lw_branch_counters _).2,
    push_branch_branch_count, push_retire_eq]

/-- The correct-prediction counter after one advance. -/
theorem push_correct (s : State) :
    (predicted s → (iplc_sim_push_pipeline_stage s).correct_branch_predictions
      = uadd32 s.correct_branch_predictions 1) ∧
    (¬ predicted s → (iplc_sim_push_pipeline_stage s).correct_branch_predictions
      = s.correct_branch_predictions) := by
  have hc : (iplc_sim_push_pipeline_stage s).correct_branch_predictions
      = (push_branch (push_retire s)).correct_branch_predictions := by
    unfold iplc_sim_push_pipeline_stage
    rw [push_shift_correct, (push_sw_frame _).2.2.1, (push_lw_branch_counters _).1]
  have hr : predicted (push_retire s) ↔ predicted s := by
    rw [push_retire_eq]
    exact Iff.rfl
  have hrc : (push_retire s).correct_branch_predictions = s.correct_branch_predictions := by
    rw [push_retire_eq]
  obtain ⟨p1, p2⟩ := push_branch_correct (push_retire s)
  constructor
  · intro h
    rw [hc, p1 (hr.2 h), hrc]
  · intro h
    rw [hc, p2 (fun h' => h (hr.1 h')), hrc]

/-- One advance keeps the branch accounting: a branch in DECODE is seen, and
it leaves DECODE. -/
theorem push_branch_accounting (s : State) (n : Nat) (h : branch_accounting s n) :
    branch_accounting (iplc_sim_push_pipeline_stage s) n ∧
      is_branch_slot (iplc_sim_push_pipeline_stage s).pipeline.FETCH = 0 := by
  obtain ⟨m, k, h1, h2, h3, h4⟩ := h
  have hf : is_branch_slot (iplc_sim_push_pipeline_stage s).pipeline.FETCH = 0 := by
    rw [push_fetch]
    rfl
  refine ⟨?_, hf⟩
  have hpend : branch_pending (iplc_sim_push_pipeline_stage s)
      = is_branch_slot s.pipeline.FETCH := by
    unfold branch_pending
    rw [hf, push_decode, Nat.zero_add]
  obtain ⟨c1, c2⟩ := push_correct s
  by_cases hd : s.pipeline.DECODE.itype = BRANCH
  · have hds : is_branch_slot s.pipeline.DECODE = 1 := by
      unfold is_branch_slot
      rw [if_pos hd]
    have hb : (iplc_sim_push_pipeline_stage s).branch_count = (m + 1) % 2 ^ 32 := by
      rw [push_branch_count, if_pos hd, h3]
      unfold uadd32
      omega
    unfold branch_pending at h1
    rw [hds] at h1
    by_cases hp : predicted s
    · refine ⟨m + 1, k + 1, by rw [hpend]; omega, by omega, hb, ?_⟩
      rw [c1 hp, h4]
      unfold uadd32
      omega
    · exact ⟨m + 1, k, by rw [hpend]; omega, by omega, hb, by rw [c2 hp, h4]⟩
  · have hds : is_branch_slot s.pipeline.DECODE = 0 := by
      unfold is_branch_slot
      rw [if_neg hd]
    have hp : ¬ predicted s := fun hp => hd hp.1
    unfold branch_pending at h1
    rw [hds] at h1
    refine ⟨m, k, by rw [hpend]; omega, h2, ?_, by rw [c2 hp, h4]⟩
    rw [push_branch_count, if_neg hd, h3]

theorem push_times_branch_accounting (j : Nat) : ∀ (s : State) (n : Nat),
    branch_accounting s n → branch_accounting (push_times j s) n := by
  induction j with
  | zero => intro s n h; exact h
  | succ j ih => intro s n h; exact ih _ n (push_branch_accounting s n h).1

theorem process_branch_counters (s : State) (d : Decoded) :
    (process_pipeline s d).branch_count = (iplc_sim_push_pipeline_stage s).branch_count ∧
    (process_pipeline s d).correct_branch_predictions
      = (iplc_sim_push_pipeline_stage s).correct_branch_predictions := by
  cases d <;> exact ⟨rfl, rfl⟩

/-- A dispatch adds the dispatched instruction to the pending branches when it
is a branch. -/
theorem process_branch_accounting (s : State) (d : Decoded) (n : Nat)
    (h : branch_accounting s n) :
    branch_accounting (process_pipeline s d)
      (n + if decoded_kind d = BRANCH then 1 else 0) := by
  obtain ⟨⟨m, k, h1, h2, h3, h4⟩, hf⟩ := push_branch_accounting s n h
  obtain ⟨p1, -, p3, -⟩ := process_pipeline_slots s d
  obtain ⟨b1, b2⟩ := process_branch_counters s d
  refine ⟨m, k, ?_, h2, by rw [b1, h3], by rw [b2, h4]⟩
  unfold branch_pending at h1 ⊢
  rw [hf] at h1
  rw [p3]
  have : is_branch_slot (process_pipeline s d).pipeline.FETCH
      = if decoded_kind d = BRANCH then 1 else 0 := by
    unfold is_branch_slot
    rw [p1]
  rw [this]
  omega

theorem trap_branch_accounting (s : State) (a : Nat) (n : Nat) (h : branch_accounting s n) :
    branch_accounting (iplc_sim_trap_address s a).1 n := by
  obtain ⟨m, k, h1, h2, h3, h4⟩ := h
  obtain ⟨f1, -, -, -, f5, f6, -⟩ := trap_frame s a
  refine ⟨m, k, ?_, h2, by rw [f5, h3], by rw [f6, h4]⟩
  unfold branch_pending at h1 ⊢
  rw [f1]
  exact h1

theorem dispatches_branch_eq (a : Nat) (d : Decoded) :
    dispatches_branch (Op.dispatch a d) = (if decoded_kind d = BRANCH then 1 else 0) ∧
    dispatches_branch (Op.parse a d) = (if decoded_kind d = BRANCH then 1 else 0) := by
  cases d <;> exact ⟨rfl, rfl⟩

theorem step_branch_accounting (s : State) (o : Op) (n : Nat) (h : branch_accounting s n) :
    branch_accounting (step s o) (n + dispatches_branch o) := by
  cases o with
  | probe a => exact trap_branch_accounting s a n h
  | advance => exact (push_branch_accounting s n h).1
  | dispatch a d =>
    rw [(dispatches_branch_eq a d).1]
    exact process_branch_accounting { s with instruction_address := a } d n h
  | parse a d =>
    rw [(dispatches_branch_eq a d).2]
    show branch_accounting (iplc_sim_parse_instruction s a d) _
    unfold iplc_sim_parse_instruction
    simp only []
    apply process_branch_accounting
    have ht := trap_branch_accounting { s with instruction_address := a } a n h
    split_ifs
    · exact push_times_branch_accounting _ _ n ht
    · exact ht

theorem run_branch_accounting (ops : List Op) : ∀ (s : State) (n : Nat),
    branch_accounting s n → branch_accounting (run s ops) (n + branch_dispatches ops) := by
  induction ops with
  | nil => intro s n h; exact h
  | cons o os ih =>
    intro s n h
    have := ih (step s o) (n + dispatches_branch o) (step_branch_accounting s o n h)
    rw [branch_dispatches, ← Nat.add_assoc]
    exact this

/-- With fewer than 2^32 branches dispatched the counters hold the exact
numbers, and the correct predictions do not exceed the branches seen. -/
theorem correct_le_of_accounting (s : State) (n : Nat) (h : branch_accounting s n)
    (hn : n < 2 ^ 32) : s.correct_branch_predictions ≤ s.branch_count := by
  obtain ⟨m, k, h1, h2, h3, h4⟩ := h
  rw [h3, h4]
  omega

theorem init_branch_accounting (p : Nat) (heap : Nat → cache_line_t)
    (index blocksize assoc : Int) (s0 : State)
    (h : iplc_sim_init (globals p) heap index blocksize assoc = some s0) :
    branch_accounting s0 0 := by
  unfold iplc_sim_init at h
  simp only [] at h
  split_ifs at h
  cases h
  exact ⟨0, 0, rfl, le_refl 0, rfl, rfl⟩

/-- C22. Branches seen equals branches dispatched: from a freshly configured
simulator, after any sequence of operations (dispatches, extra advances,
probes, fetches) followed by the drain of `iplc_sim_finalize` (which stops,
given room for 5 advances), `branch_count` equals the number of branch
dispatches modulo 2^32; and when fewer than 2^32 branches were dispatched,
`correct_branch_predictions ≤ branch_count` both before and after the drain. -/
theorem branches_seen_eq_dispatched (p : Nat) (heap : Nat → cache_line_t)
    (index blocksize assoc : Int) (s0 : State)
    (hinit : iplc_sim_init (globals p) heap index blocksize assoc = some s0)
    (ops : List Op) (fuel : Nat) (hfuel : 5 ≤ fuel) :
    ∃ t, iplc_sim_finalize fuel (run s0 ops) = some t ∧
      t.branch_count = branch_dispatches ops % 2 ^ 32 ∧
      (branch_dispatches ops < 2 ^ 32 →
        t.correct_branch_predictions ≤ t.branch_count ∧
        (run s0 ops).correct_branch_predictions ≤ (run s0 ops).branch_count) := by
  have h0 := init_branch_accounting p heap index blocksize assoc s0 hinit
  have hrun := run_branch_accounting ops s0 0 h0
  rw [Nat.zero_add] at hrun
  have he : empty_upto 0 (run s0 ops) :=
    ⟨fun h => absurd h (by omega), fun h => absurd h (by omega),
      fun h => absurd h (by omega), fun h => absurd h (by omega), fun h => absurd h (by omega)⟩
  obtain ⟨n, -, hfin, hidle⟩ := drain_from_empty_upto 5 0 (run s0 ops) fuel (by omega) he hfuel
  have hend := push_times_branch_accounting n _ _ hrun
  refine ⟨_, hfin, ?_, ?_⟩
  · obtain ⟨m, k, h1, -, h3, -⟩ := hend
    obtain ⟨b1, b2, -⟩ := (busy_false_iff _).1 hidle
    have hp : branch_pending (push_times n (run s0 ops)) = 0 := by
      unfold branch_pending is_branch_slot
      rw [b1, b2]
      rfl
    rw [hp] at h1
    rw [h3, ← h1, Nat.add_zero]
  · intro hn
    exact ⟨correct_le_of_accounting _ _ hend hn, correct_le_of_accounting _ _ hrun hn⟩

set_option maxRecDepth 100000 in
theorem branches_seen_eq_dispatched_witness :
    ∃ t, iplc_sim_finalize 5
        (run (configured 2 1 1 0) (branch_then 0x500 ++ Op.advance :: branch_then 0x404)) = some t ∧
      t.branch_count = 2 ∧
      (branch_dispatches (branch_then 0x500 ++ Op.advance :: branch_then 0x404) < 2 ^ 32 →
        t.correct_branch_predictions ≤ t.branch_count ∧
        (run (configured 2 1 1 0)
            (branch_then 0x500 ++ Op.advance :: branch_then 0x404)).correct_branch_predictions
          ≤ (run (configured 2 1 1 0)
            (branch_then 0x500 ++ Op.advance :: branch_then 0x404)).branch_count) :=
  branches_seen_eq_dispatched 0 zero_heap 2 1 1 (configured 2 1 1 0) rfl
    (branch_then 0x500 ++ Op.advance :: branch_then 0x404) 5 (by decide)

/-! ## Cycles charged and instructions retired by one advance -/

theorem push_sw_cycles (s : State) :
    (push_sw s).pipeline_cycles =
      if s.pipeline.MEM.itype = SW then
        (if (iplc_sim_trap_address s s.pipeline.MEM.stage.sw.data_address).2 ≠ 0
          then s.pipeline_cycles else uadd32 s.pipeline_cycles (CACHE_MISS_DELAY - 1))
      else s.pipeline_cycles := by
  obtain ⟨-, f2, -⟩ := trap_frame s s.pipeline.MEM.stage.sw.data_address
  unfold push_sw
  simp only []
  split_ifs <;> simp_all

/-- The cycle counter after steps 3 to 7. -/
theorem push_tail_cycles (t : State) :
    (push_shift (push_sw (push_lw t))).pipeline_cycles
      = (t.pipeline_cycles + 1 + memory_penalty t t.pipeline.ALU t.pipeline.MEM) % 2 ^ 32 := by
  rw [push_shift_cycles]
  unfold memory_penalty
  by_cases hl : t.pipeline.MEM.itype = LW
  · obtain ⟨c1, c2⟩ := push_lw_cycles t hl
    rw [push_sw_of_not_sw _ c2, c1, if_pos hl]
    unfold uadd32 usub32 CACHE_MISS_DELAY
    split_ifs <;> omega
  · rw [push_lw_of_not_lw t hl, push_sw_cycles, if_neg hl]
    unfold uadd32 CACHE_MISS_DELAY
    split_ifs <;> omega

theorem memory_penalty_congr (s t : State) (alu mem : pipeline_t) (hc : t.cache = s.cache)
    (h1 : t.cache_assoc = s.cache_assoc) (h2 : t.cache_index = s.cache_index)
    (h3 : t.cache_blockoffsetbits = s.cache_blockoffsetbits) :
    memory_penalty t alu mem = memory_penalty s alu mem := by
  unfold memory_penalty
  rw [trap_ret_congr s t _ hc h1 h2 h3, trap_ret_congr s t _ hc h1 h2 h3]

/-- The cycle counter after one advance. -/
theorem push_cycles_eq (s : State) :
    (iplc_sim_push_pipeline_stage s).pipeline_cycles
      = (s.pipeline_cycles + advance_cycles s) % 2 ^ 32 := by
  unfold iplc_sim_push_pipeline_stage advance_cycles
  rw [push_tail_cycles]
  by_cases hm : mispredict s
  · have hm' : mispredict (push_retire s) := by
      rw [push_retire_eq]
      exact hm
    have hb := push_branch_mis _ hm'
    have e1 : (push_branch (push_retire s)).pipeline.ALU = s.pipeline.DECODE := by
      rw [hb, push_retire_eq]
    have e2 : (push_branch (push_retire s)).pipeline.MEM = s.pipeline.ALU := by
      rw [hb, push_retire_eq]
    have e3 : (push_branch (push_retire s)).pipeline_cycles = uadd32 s.pipeline_cycles 1 := by
      rw [hb, push_retire_eq]
    have e4 : (push_branch (push_retire s)).cache = s.cache := by
      rw [hb, push_retire_eq]
    have e5 : (push_branch (push_retire s)).cache_assoc = s.cache_assoc := by
      rw [hb, push_retire_eq]
    have e6 : (push_branch (push_retire s)).cache_index = s.cache_index := by
      rw [hb, push_retire_eq]
    have e7 : (push_branch (push_retire s)).cache_blockoffsetbits = s.cache_blockoffsetbits := by
      rw [hb, push_retire_eq]
    rw [if_pos hm, e1, e2, e3, memory_penalty_congr s _ _ _ e4 e5 e6 e7]
    unfold uadd32
    omega
  · have hm' : ¬ mispredict (push_retire s) := by
      rw [push_retire_eq]
      exact hm
    obtain ⟨b1, -, b3, b4, b5, b6, b7⟩ := push_branch_nomis _ hm'
    obtain ⟨r1, r2, r3, r4, r5, r6, -⟩ := push_retire_frame s
    rw [if_neg hm, b1, b3, r1, r2,
      memory_penalty_congr s _ _ _ (b4.trans r3) (b5.trans r4) (b6.trans r5) (b7.trans r6)]
    omega

/-- The retire counter after one advance. -/
theorem push_retired_eq (s : State) :
    (iplc_sim_push_pipeline_stage s).instruction_count % 2 ^ 32
      = (s.instruction_count + advance_retired s) % 2 ^ 32 := by
  unfold advance_retired
  by_cases hm : mispredict s
  · rw [(push_of_mispredict s hm).2, if_pos hm]
    unfold occupied uadd32
    split_ifs <;> omega
  · by_cases hs : stall_inserted s
    · rw [(push_of_stall s hm hs).2, if_neg hm, if_pos hs]
      unfold occupied uadd32
      split_ifs <;> omega
    · rw [(push_of_quiet s hm hs).2, if_neg hm, if_neg hs]
      unfold occupied uadd32
      split_ifs <;> omega

theorem occupied_le_one (p : pipeline_t) : occupied p ≤ 1 := by
  unfold occupied
  split_ifs <;> omega

/-- One advance charges at least one cycle and at least as many cycles as it
retires instructions. -/
theorem advance_retired_le (s : State) :
    1 ≤ advance_cycles s ∧ advance_retired s ≤ advance_cycles s := by
  have h1 := occupied_le_one s.pipeline.WRITEBACK
  have h2 := occupied_le_one s.pipeline.MEM
  unfold advance_cycles advance_retired
  by_cases hm : mispredict s
  · rw [if_pos hm, if_pos hm]
    omega
  · rw [if_neg hm, if_neg hm]
    by_cases hs : stall_inserted s
    · rw [if_pos hs]
      obtain ⟨s1, s2, s3⟩ := hs
      have hp : 1 ≤ memory_penalty s s.pipeline.ALU s.pipeline.MEM := by
        unfold memory_penalty CACHE_MISS_DELAY
        rw [if_pos s1]
        split_ifs with ha hb
        · omega
        · exact absurd (And.intro s2 s3) hb
        · omega
      omega
    · rw [if_neg hs]
      omega

theorem push_cycle_accounting (s : State) (c : Nat) (h : cycle_accounting s c) :
    cycle_accounting (iplc_sim_push_pipeline_stage s) (c + advance_cycles s) := by
  obtain ⟨r, h1, h2, h3⟩ := h
  obtain ⟨-, hle⟩ := advance_retired_le s
  have hlt : (iplc_sim_push_pipeline_stage s).instruction_count < 2 ^ 32 := by
    apply push_count_lt
    rw [h3]
    omega
  have hr := push_retired_eq s
  refine ⟨r + advance_retired s, by omega, ?_, ?_⟩
  · rw [push_cycles_eq, h2]
    omega
  · rw [h3] at hr
    omega

theorem cycles_of_pushes_succ (n : Nat) : ∀ s : State,
    cycles_of_pushes (n + 1) s = cycles_of_pushes n s + advance_cycles (push_times n s) := by
  induction n with
  | zero =>
    intro s
    simp [cycles_of_pushes, push_times]
  | succ n ih =>
    intro s
    rw [cycles_of_pushes, ih, cycles_of_pushes, push_times_succ]
    omega

theorem push_times_cycle_accounting (n : Nat) : ∀ (s : State) (c : Nat),
    cycle_accounting s c → cycle_accounting (push_times n s) (c + cycles_of_pushes n s) := by
  induction n with
  | zero => intro s c h; exact h
  | succ n ih =>
    intro s c h
    have := ih _ _ (push_cycle_accounting s c h)
    rw [push_times_succ, cycles_of_pushes, ← Nat.add_assoc]
    exact this

theorem process_cycle_accounting (s : State) (d : Decoded) (c : Nat)
    (h : cycle_accounting s c) :
    cycle_accounting (process_pipeline s d) (c + advance_cycles s) := by
  obtain ⟨r, h1, h2, h3⟩ := push_cycle_accounting s c h
  have hc : (process_pipeline s d).pipeline_cycles
      = (iplc_sim_push_pipeline_stage s).pipeline_cycles := by
    cases d <;> rfl
  exact ⟨r, h1, by rw [hc, h2], by rw [(process_pipeline_slots s d).2.2.2.2.2.2, h3]⟩

theorem trap_cycle_accounting (s : State) (a : Nat) (c : Nat) (h : cycle_accounting s c) :
    cycle_accounting (iplc_sim_trap_address s a).1 c := by
  obtain ⟨r, h1, h2, h3⟩ := h
  obtain ⟨-, f2, f3, -⟩ := trap_frame s a
  exact ⟨r, h1, by rw [f2, h2], by rw [f3, h3]⟩

theorem step_cycle_accounting (s : State) (o : Op) (c : Nat) (h : cycle_accounting s c) :
    cycle_accounting (step s o) (c + cycles_of_step s o) := by
  cases o with
  | probe a => exact trap_cycle_accounting s a c h
  | advance => exact push_cycle_accounting s c h
  | dispatch a d => exact process_cycle_accounting { s with instruction_address := a } d c h
  | parse a d =>
    have ht := trap_cycle_accounting { s with instruction_address := a } a c h
    show cycle_accounting (iplc_sim_parse_instruction s a d) (c + cycles_of_step s (Op.parse a d))
    unfold iplc_sim_parse_instruction cycles_of_step
    simp only []
    split_ifs
    · have h9 := push_times_cycle_accounting (CACHE_MISS_DELAY - 1) _ c ht
      have := process_cycle_accounting _ d _ h9
      rw [cycles_of_pushes_succ, ← Nat.add_assoc]
      exact this
    · have := process_cycle_accounting _ d c ht
      rw [cycles_of_pushes_succ, cycles_of_pushes, push_times, Nat.zero_add]
      exact this

theorem run_cycle_accounting (ops : List Op) : ∀ (s : State) (c : Nat),
    cycle_accounting s c → cycle_accounting (run s ops) (c + cycles_of_run s ops) := by
  induction ops with
  | nil => intro s c h; exact h
  | cons o os ih =>
    intro s c h
    have := ih _ _ (step_cycle_accounting s o c h)
    rw [cycles_of_run, ← Nat.add_assoc]
    exact this

theorem init_cycle_accounting (p : Nat) (heap : Nat → cache_line_t)
    (index blocksize assoc : Int) (s0 : State)
    (h : iplc_sim_init (globals p) heap index blocksize assoc = some s0) :
    cycle_accounting s0 0 := by
  unfold iplc_sim_init at h
  simp only [] at h
  split_ifs at h
  cases h
  exact ⟨0, le_refl 0, rfl, rfl⟩

/-- C21. CPI is at least 1.  One advance adds `advance_cycles` to the cycle
counter and `advance_retired` to the retire counter (both modulo 2^32), where
`advance_cycles` is at least 1 and at least `advance_retired`.  From a freshly
configured simulator, after any sequence of operations, the cycle counter
holds the cycles charged along the sequence modulo 2^32, and when that number
is below 2^32 (no wrap-around) `instruction_count ≤ pipeline_cycles`. -/
theorem cpi_at_least_one (p : Nat) (heap : Nat → cache_line_t)
    (index blocksize assoc : Int) (s0 : State)
    (hinit : iplc_sim_init (globals p) heap index blocksize assoc = some s0)
    (ops : List Op) :
    (∀ s : State,
      (iplc_sim_push_pipeline_stage s).pipeline_cycles
        = (s.pipeline_cycles + advance_cycles s) % 2 ^ 32 ∧
      (iplc_sim_push_pipeline_stage s).instruction_count % 2 ^ 32
        = (s.instruction_count + advance_retired s) % 2 ^ 32 ∧
      1 ≤ advance_cycles s ∧ advance_retired s ≤ advance_cycles s) ∧
    (run s0 ops).pipeline_cycles = cycles_of_run s0 ops % 2 ^ 32 ∧
    (cycles_of_run s0 ops < 2 ^ 32 →
      (run s0 ops).instruction_count ≤ (run s0 ops).pipeline_cycles) := by
  have h0 := init_cycle_accounting p heap index blocksize assoc s0 hinit
  obtain ⟨r, h1, h2, h3⟩ := run_cycle_accounting ops s0 0 h0
  rw [Nat.zero_add] at h1 h2
  refine ⟨fun s => ⟨push_cycles_eq s, push_retired_eq s, advance_retired_le s⟩, h2, ?_⟩
  intro hlt
  rw [h2, h3]
  omega

set_option maxRecDepth 100000 in
theorem cpi_at_least_one_witness :
    (run (configured 2 1 1 0) (load_then_rtype 0x1000 5 ++ [Op.advance, Op.advance])).pipeline_cycles
        = 15 ∧
    (run (configured 2 1 1 0)
        (load_then_rtype 0x1000 5 ++ [Op.advance, Op.advance])).instruction_count
      ≤ (run (configured 2 1 1 0)
        (load_then_rtype 0x1000 5 ++ [Op.advance, Op.advance])).pipeline_cycles :=
  ⟨((cpi_at_least_one 0 zero_heap 2 1 1 (configured 2 1 1 0) rfl
      (load_then_rtype 0x1000 5 ++ [Op.advance, Op.advance])).2.1).trans (by decide),
   (cpi_at_least_one 0 zero_heap 2 1 1 (configured 2 1 1 0) rfl
      (load_then_rtype 0x1000 5 ++ [Op.advance, Op.advance])).2.2 (by decide)⟩

end IplcSim
